import Mathlib

/-!
# Verification of the JSON ⇄ spreadsheet mapping engine

Shallow embedding of `dataly_manager/dataly_tools/final_json_to_excel.py` and
`dataly_manager/dataly_tools/table_to_excel.py` (the bidirectional JSON ⇄
spreadsheet converters), together with proofs about the properties stated in
the specification.

Modelling conventions:
* Python `json` values are modelled by `JVal`.  Numeric and boolean leaves are
  carried as literals; the corpus fields handled by the converters are strings,
  lists and objects, and no theorem below depends on numeric formatting.
* Python `dict`s are modelled as insertion-ordered association lists
  (`List (String × JVal)`); a Python dict never holds a duplicate key, which is
  reflected by `NoDup` hypotheses where a proof needs it.  Key update/removal
  acts on the first occurrence, which coincides with Python on duplicate-free
  lists.
* `str.strip()` is modelled by `pyStrip` (ASCII whitespace, which is what the
  corpus strings contain), Python truthiness by `pyTruthy`, `str(x)` by
  `pyStr`.
* `pandas.DataFrame`s are modelled as lists of row records whose cells are
  `Option String` (`none` models a NaN cell produced by a vertically merged
  region); `ffill` is modelled by an explicit scan.
-/

namespace Dataly

/-- JSON-like values, the domain of the converters. -/
inductive JVal where
  | jnull
  | jstr (s : String)
  | jbool (b : Bool)
  | jnum (lit : String)
  | jarr (xs : List JVal)
  | jobj (kvs : List (String × JVal))
deriving Repr, Inhabited

/-! ## Character/string utilities mirroring the Python primitives -/

/-- `str.strip()` on the character list level. -/
def stripChars (l : List Char) : List Char :=
  ((l.dropWhile Char.isWhitespace).reverse.dropWhile Char.isWhitespace).reverse

/-- Model of Python `str.strip()`. -/
def pyStrip (s : String) : String :=
  ⟨stripChars s.data⟩

/-- First character test, `s.startswith(c)` for a single character. -/
def headIs (s : String) (c : Char) : Bool :=
  match s.data with
  | [] => false
  | d :: _ => d = c

/-- Last character test, `s.endswith(c)` for a single character. -/
def lastIs (s : String) (c : Char) : Bool :=
  match s.data.reverse with
  | [] => false
  | d :: _ => d = c

/-- `pat.isPrefixOf l` on character lists (used for `str.startswith`). -/
def startsWithL : List Char → List Char → Bool
  | [], _ => true
  | _ :: _, [] => false
  | p :: ps, c :: cs => p = c && startsWithL ps cs

/-- Model of Python `s.startswith(pat)`. -/
def pyStartsWith (s pat : String) : Bool :=
  startsWithL pat.data s.data

/-- Model of Python `s.endswith(pat)`. -/
def pyEndsWith (s pat : String) : Bool :=
  startsWithL pat.data.reverse s.data.reverse

/-- Model of Python `s.lower()` (ASCII casing suffices for the file suffixes
compared in the archive adapter). -/
def pyLower (s : String) : String :=
  ⟨s.data.map Char.toLower⟩

/-- Model of Python `s.replace(a, "")` for a single character `a`. -/
def removeChar (s : String) (c : Char) : String :=
  ⟨s.data.filter (fun d => d ≠ c)⟩

/-- Membership of a character in a string. -/
def hasChar (s : String) (c : Char) : Bool :=
  s.data.contains c

/-- Drop the last `n` characters (`s[:-n]`). -/
def dropLastChars (s : String) (n : Nat) : String :=
  ⟨(s.data.reverse.drop n).reverse⟩

/-- Python truthiness of a `JVal` (`bool(x)`).  The numeric case is value
truthiness approximated on the literal; no theorem depends on it. -/
def pyTruthy : JVal → Bool
  | .jnull => false
  | .jstr s => s ≠ ""
  | .jbool b => b
  | .jnum lit => lit ≠ "0" && lit ≠ "0.0" && lit ≠ "-0" && lit ≠ "-0.0"
  | .jarr xs => !xs.isEmpty
  | .jobj kvs => !kvs.isEmpty

mutual
/-- Python `repr` of a `JVal`, used only to make `pyStr` total on container
values (the corpus slots verified below hold strings, so no theorem depends on
the container rendering). -/
def pyReprV : JVal → String
  | .jnull => "None"
  | .jstr s => "'" ++ s ++ "'"
  | .jbool b => if b then "True" else "False"
  | .jnum lit => lit
  | .jarr xs => "[" ++ pyReprList xs ++ "]"
  | .jobj kvs => "\x7b" ++ pyReprPairs kvs ++ "\x7d"

def pyReprList : List JVal → String
  | [] => ""
  | [x] => pyReprV x
  | x :: (y :: tl) => pyReprV x ++ ", " ++ pyReprList (y :: tl)

def pyReprPairs : List (String × JVal) → String
  | [] => ""
  | [(k, v)] => "'" ++ k ++ "': " ++ pyReprV v
  | (k, v) :: (p :: tl) => "'" ++ k ++ "': " ++ pyReprV v ++ ", " ++ pyReprPairs (p :: tl)
end

/-- Model of Python `str(x)` on `JVal`. -/
def pyStr : JVal → String
  | .jnull => "None"
  | .jstr s => s
  | .jbool b => if b then "True" else "False"
  | .jnum lit => lit
  | .jarr xs => pyReprV (.jarr xs)
  | .jobj kvs => pyReprV (.jobj kvs)

/-! ## Association-list (Python dict) primitives -/

/-- `d.get(k, default)`: value of the first binding of `k`. -/
def getd (kvs : List (String × JVal)) (k : String) (dflt : JVal) : JVal :=
  match kvs.find? (fun p => p.1 = k) with
  | some p => p.2
  | none => dflt

/-- `k in d`. -/
def hasKey (kvs : List (String × JVal)) (k : String) : Bool :=
  kvs.any (fun p => p.1 = k)

/-- `d[k] = v`: overwrite the first binding in place, else append (Python dict
assignment keeps the position of an existing key and appends a new one). -/
def setKey : List (String × JVal) → String → JVal → List (String × JVal)
  | [], k, v => [(k, v)]
  | (k', v') :: tl, k, v =>
      if k' = k then (k', v) :: tl else (k', v') :: setKey tl k v

/-- `d.pop(k, None)`: remove the first binding of `k`. -/
def popKey : List (String × JVal) → String → List (String × JVal)
  | [], _ => []
  | (k', v') :: tl, k => if k' = k then tl else (k', v') :: popKey tl k

/-- `x or ""` for a `JVal` followed by `str(...)`: the string of a truthy
value, else the empty string.  Models the pervasive `str(x or "")` idiom. -/
def pyOrBlank (v : JVal) : String :=
  if pyTruthy v then pyStr v else ""

/-- `"" if x is None else str(x)`, the idiom used when snapshotting slots. -/
def pyStrOrEmpty : JVal → String
  | .jnull => ""
  | v => pyStr v

/-! ## Model of `TYPE_BRACKET_RE = re.compile(r"^\s*\[(.+?)\]\s*(.*)$")`

The pattern is compiled without `re.DOTALL`, so `.` does not cross a newline;
`$` also matches just before one trailing newline.  `match` anchors at the
start only.  The model below reproduces the lazy `(.+?)` scan: at each `]`
encountered (with a non-empty group so far) the engine first tries to close
the bracket and match the tail, and on failure keeps extending the group. -/

/-- Can `\s*(.*)$` consume `rest`?  If so, return the `(.*)` capture.
Greedy `\s*` takes the maximal whitespace run; `(.*)` cannot contain a
newline; `$` also matches just before a single trailing newline. -/
def tailCapture (rest : List Char) : Option (List Char) :=
  let r := rest.dropWhile Char.isWhitespace
  match r.reverse with
  | [] => some r
  | c :: rev =>
      if c = '\n' then
        (if rev.reverse.contains '\n' then none else some rev.reverse)
      else if r.contains '\n' then none else some r

/-- Lazy scan for `(.+?)\]`: `acc` holds the reversed group captured so far. -/
def tbScan : List Char → List Char → Option (List Char × List Char)
  | _, [] => none
  | acc, c :: tl =>
      if c = '\n' then none
      else if c = ']' && !acc.isEmpty then
        match tailCapture tl with
        | some cap => some (acc.reverse, cap)
        | none => tbScan (c :: acc) tl
      else tbScan (c :: acc) tl

/-- `TYPE_BRACKET_RE.match(s)`: `some (group1, group2)` on success. -/
def typeBracketMatch (s : String) : Option (String × String) :=
  match s.data.dropWhile Char.isWhitespace with
  | c :: tl =>
      if c = '[' then
        (match tbScan [] tl with
         | some (t, r) => some (⟨t⟩, ⟨r⟩)
         | none => none)
      else none
  | [] => none

/-- `s[1:-1]` on a string. -/
def dropEnds (s : String) : String :=
  ⟨(s.data.drop 1).dropLast⟩

/-- `_strip_brackets` (final_json_to_excel.py:175-181). -/
def stripBrackets (s : String) : String :=
  if s = "" then ""
  else
    let t := pyStrip s
    if headIs t '[' && lastIs t ']' then pyStrip (dropEnds t) else t

/-- The `[...]`-unwrapping step applied to the Excel `유형` value inside
`_compose_text_with_type` and the new-style writer. -/
def unwrapTypeCell (t : String) : String :=
  if headIs t '[' && lastIs t ']' then pyStrip (dropEnds t) else t

/-- `_compose_text_with_type(old_text, new_sentence, excel_type)`
(final_json_to_excel.py:660-678). -/
def composeTextWithType (oldText newSentence excelType : String) : String :=
  let sNew := pyStrip newSentence
  let tNew0 := pyStrip excelType
  let parsed := typeBracketMatch oldText
  let oldType := match parsed with | some (g1, _) => pyStrip g1 | none => ""
  let oldBody := match parsed with | some (_, g2) => pyStrip g2 | none => pyStrip oldText
  let tNew := unwrapTypeCell tNew0
  let body := if sNew ≠ "" then sNew else oldBody
  let finalType := if tNew ≠ "" then tNew else oldType
  if finalType ≠ "" then pyStrip ("[" ++ finalType ++ "] " ++ body) else body

/-! ## Model of `_sort_label_keys` (final_json_to_excel.py:184-190) -/

/-- Value of a digit run. -/
def digitsToNat (l : List Char) : Nat :=
  l.foldl (fun acc c => acc * 10 + (c.toNat - '0'.toNat)) 0

/-- `re.search(r"(\d+)", k)`: value of the first maximal digit run. -/
def firstNumber : List Char → Option Nat
  | [] => none
  | c :: tl =>
      if c.isDigit then some (digitsToNat (c :: tl.takeWhile Char.isDigit))
      else firstNumber tl

/-- Lexicographic `≤` on character lists by code point (Python `str` order). -/
def lexLeChars : List Char → List Char → Bool
  | [], _ => true
  | _ :: _, [] => false
  | a :: as, b :: bs => if a = b then lexLeChars as bs else decide (a < b)

/-- The sort key comparison: `(0, int(run))` before `(1, k)`. -/
def labelKeyLe (a b : String) : Bool :=
  match firstNumber a.data, firstNumber b.data with
  | some m, some n => m ≤ n
  | some _, none => true
  | none, some _ => false
  | none, none => lexLeChars a.data b.data

/-- Stable insertion of `a` into `l`: `a` goes before the first element it
compares `≤` to, hence after every earlier element with an equal key. -/
def orderedIns (le : α → α → Bool) (a : α) : List α → List α
  | [] => [a]
  | b :: tl => if le a b then a :: b :: tl else b :: orderedIns le a tl

/-- A stable sort (insertion sort).  For the total preorder `labelKeyLe`
this coincides with Python's stable `sorted`. -/
def insSortBy (le : α → α → Bool) : List α → List α
  | [] => []
  | a :: tl => orderedIns le a (insSortBy le tl)

/-- `_sort_label_keys(keys)`: a stable sort by the numeric key. -/
def sortLabelKeys (keys : List String) : List String :=
  insSortBy labelKeyLe keys

/-! ## Model of `json.loads`

A recursive-descent parser for the JSON fragment the corpus uses (objects,
arrays, strings with the common escapes, numbers kept as literals, booleans,
null).  `\uXXXX` escapes are not modelled; none of the theorems below depends
on the exact success domain of the parser, only on the facts that it either
fails or returns a value (`json.loads` raising ≘ `none`) and that a text whose
first non-blank character is `{` can only parse to an object. -/

/-- One escape character after a backslash. -/
def jsonEscChar (e : Char) : Option Char :=
  if e = '"' then some '"'
  else if e = '\\' then some '\\'
  else if e = '/' then some '/'
  else if e = 'n' then some '\n'
  else if e = 't' then some '\t'
  else if e = 'r' then some '\r'
  else if e = 'b' then some (Char.ofNat 8)
  else if e = 'f' then some (Char.ofNat 12)
  else none

/-- Parse a JSON string body after the opening quote: `(content, rest)`. -/
def jsonStringBody : Nat → List Char → Option (List Char × List Char)
  | 0, _ => none
  | _, [] => none
  | fuel + 1, c :: tl =>
      if c = '"' then some ([], tl)
      else if c = '\\' then
        match tl with
        | [] => none
        | e :: tl2 =>
            match jsonEscChar e with
            | some d => (jsonStringBody fuel tl2).map fun p => (d :: p.1, p.2)
            | none => none
      else if c.toNat < 32 then none
      else (jsonStringBody fuel tl).map fun p => (c :: p.1, p.2)

/-- Characters allowed inside a number literal. -/
def jsonNumChar (c : Char) : Bool :=
  c.isDigit || c = '-' || c = '+' || c = '.' || c = 'e' || c = 'E'

mutual
/-- Parse one JSON value; `some (v, rest)` leaves the unconsumed suffix. -/
def jpVal : Nat → List Char → Option (JVal × List Char)
  | 0, _ => none
  | fuel + 1, l =>
      match l.dropWhile Char.isWhitespace with
      | [] => none
      | c :: tl =>
          if c = '{' then
            match (c :: tl).tail.dropWhile Char.isWhitespace with
            | '}' :: r => some (.jobj [], r)
            | _ => (jpMembers fuel tl).map fun p => (JVal.jobj p.1, p.2)
          else if c = '[' then
            match tl.dropWhile Char.isWhitespace with
            | ']' :: r => some (.jarr [], r)
            | _ => (jpItems fuel tl).map fun p => (JVal.jarr p.1, p.2)
          else if c = '"' then
            (jsonStringBody fuel tl).map fun p => (JVal.jstr ⟨p.1⟩, p.2)
          else if startsWithL "true".data (c :: tl) then
            some (.jbool true, (c :: tl).drop 4)
          else if startsWithL "false".data (c :: tl) then
            some (.jbool false, (c :: tl).drop 5)
          else if startsWithL "null".data (c :: tl) then
            some (.jnull, (c :: tl).drop 4)
          else if c.isDigit || c = '-' then
            let lit := (c :: tl).takeWhile jsonNumChar
            if lit.any Char.isDigit then some (.jnum ⟨lit⟩, (c :: tl).dropWhile jsonNumChar)
            else none
          else none

/-- Parse `"key": value (, "key": value)* }` after a `{`. -/
def jpMembers : Nat → List Char → Option (List (String × JVal) × List Char)
  | 0, _ => none
  | fuel + 1, l =>
      match l.dropWhile Char.isWhitespace with
      | '"' :: tl =>
          match jsonStringBody fuel tl with
          | none => none
          | some (key, r1) =>
              match r1.dropWhile Char.isWhitespace with
              | ':' :: r2 =>
                  match jpVal fuel r2 with
                  | none => none
                  | some (v, r3) =>
                      match r3.dropWhile Char.isWhitespace with
                      | ',' :: r4 =>
                          (jpMembers fuel r4).map fun p => ((⟨key⟩, v) :: p.1, p.2)
                      | '}' :: r4 => some ([(⟨key⟩, v)], r4)
                      | _ => none
              | _ => none
      | _ => none

/-- Parse `value (, value)* ]` after a `[`. -/
def jpItems : Nat → List Char → Option (List JVal × List Char)
  | 0, _ => none
  | fuel + 1, l =>
      match jpVal fuel l with
      | none => none
      | some (v, r1) =>
          match r1.dropWhile Char.isWhitespace with
          | ',' :: r2 => (jpItems fuel r2).map fun p => (v :: p.1, p.2)
          | ']' :: r2 => some ([v], r2)
          | _ => none
end

/-- `json.loads(s)`: parse a complete JSON text; `none` models an exception. -/
def jsonLoads (s : String) : Option JVal :=
  match jpVal (s.data.length + 1) s.data with
  | some (v, rest) => if rest.dropWhile Char.isWhitespace = [] then some v else none
  | none => none

/-! ## Model of `_parse_metadata_cell` (final_json_to_excel.py:72-99) -/

/-- `s.find(c)`: index of the first occurrence. -/
def idxOfChar (l : List Char) (c : Char) : Option Nat :=
  l.findIdx? (· = c)

/-- `s.replace('""', '"')`: left-to-right, non-overlapping. -/
def collapseDoubleQuotes : List Char → List Char
  | '"' :: '"' :: tl => '"' :: collapseDoubleQuotes tl
  | c :: tl => c :: collapseDoubleQuotes tl
  | [] => []

/-- The characters of a string before the first `"`, if one follows. -/
def upToQuote : List Char → Option (List Char)
  | [] => none
  | '"' :: _ => some []
  | c :: tl => (upToQuote tl).map (c :: ·)

/-- One attempt of `META_NOTE_RE = r'"note"\s*:\s*"(?P<note>.*?)"'` (with
`re.DOTALL`) anchored at the current position. -/
def tryNoteAt (l : List Char) : Option String :=
  if startsWithL "\"note\"".data l then
    match (l.drop 6).dropWhile Char.isWhitespace with
    | ':' :: r2 =>
        match r2.dropWhile Char.isWhitespace with
        | '"' :: r3 => (upToQuote r3).map (⟨·⟩)
        | _ => none
    | _ => none
  else none

/-- `META_NOTE_RE.search(s)`: first position where the pattern matches. -/
def noteSearch : List Char → Option String
  | [] => none
  | c :: tl =>
      match tryNoteAt (c :: tl) with
      | some s => some s
      | none => noteSearch tl

/-- The note-only fallback: `{"note": m} if m else {}`. -/
def noteFallback (l : List Char) : JVal :=
  match noteSearch l with
  | some n => .jobj [("note", .jstr n)]
  | none => .jobj []

/-- `_parse_metadata_cell(cell_text)`.  A `none` cell models `None`; a NaN
cell would follow the no-brace fallback and also produce `{}`. -/
def parseMetadataCell (cell : Option String) : JVal :=
  match cell with
  | none => .jobj []
  | some raw =>
      let s := pyStrip raw
      if s = "" then .jobj []
      else
        match idxOfChar s.data '{', idxOfChar s.data.reverse '}' with
        | some i, some jr =>
            let j := s.data.length - 1 - jr
            if i ≥ j then noteFallback (collapseDoubleQuotes s.data)
            else
              let blob := pyStrip ⟨(s.data.drop i).take (j + 1 - i)⟩
              match jsonLoads blob with
              | some v => v
              | none =>
                  match jsonLoads ⟨collapseDoubleQuotes blob.data⟩ with
                  | some v => v
                  | none => noteFallback (collapseDoubleQuotes blob.data)
        | _, _ => noteFallback (collapseDoubleQuotes s.data)

/-! ## Model of metadata formatting (final_json_to_excel.py:273-323) -/

/-- `META_ORDER`. -/
def metaOrder : List String :=
  ["note", "image", "copyright", "term_id", "Major_category",
   "title", "url", "Medium_category", "domain", "media_id",
   "publisher", "term", "source_id"]

/-- `_clean_url(u)` on the raw `metadata["url"]` value. -/
def cleanUrlV (v : JVal) : String :=
  if !pyTruthy v then ""
  else
    let u := pyStrip (pyStr v)
    if (headIs u '"' && lastIs u '"') || (headIs u '\'' && lastIs u '\'') then
      pyStrip (dropEnds u)
    else u

/-- One `  "k": "v"` line of the metadata display string. -/
def metaLine (meta : List (String × JVal)) (urlOnly : String) (k : String) : String :=
  let v : String :=
    if k = "url" then
      if urlOnly ≠ "" then urlOnly else pyStr (getd meta "url" (.jstr ""))
    else pyStr (getd meta k (.jstr ""))
  "  \x22" ++ k ++ "\x22: \x22" ++ v ++ "\x22"

/-- `format_metadata_and_url(meta)`: the display string and the bare URL. -/
def formatMetadataAndUrl (meta : List (String × JVal)) : String × String :=
  let urlOnly := cleanUrlV (getd meta "url" (.jstr ""))
  let body := String.intercalate ",\n" (metaOrder.map (metaLine meta urlOnly))
  ("metadata : \x7b\n" ++ body ++ "\n\x7d", urlOnly)

/-- `extract_mdfcn_memo(mdfcn_infos)` (final_json_to_excel.py:297-323).
Each info is a dict; `json.loads` of a non-string raises and is caught. -/
def extractMdfcnMemo (infos : List JVal) : String :=
  let step : (List String × Nat) → JVal → (List String × Nat) := fun (out, idx) info =>
    let raw : JVal :=
      match info with
      | .jobj kvs => getd kvs "mdfcn_memo" (.jstr "")
      | _ => .jstr ""
    if !pyTruthy raw then (out, idx)
    else
      let parsed : Option JVal :=
        match raw with
        | .jstr s => jsonLoads s
        | _ => none
      match parsed with
      | some (.jarr objs) =>
          objs.foldl
            (fun (acc : List String × Nat) obj =>
              let v : JVal := match obj with
                | .jobj kvs => getd kvs "value" (.jstr "")
                | _ => .jstr ""   -- `(obj or {}).get("value", "")`
              let val := pyStrip (pyStr v)
              if val ≠ "" then
                (acc.1 ++ ["작업 목록 " ++ toString acc.2 ++ " : " ++ val], acc.2 + 1)
              else acc)
            (out, idx)
      | some _ => (out, idx)
      | none =>
          let val := pyStrip (pyStr raw)
          if val ≠ "" then
            (out ++ ["작업 목록 " ++ toString idx ++ " : " ++ val], idx + 1)
          else (out, idx)
  (String.intercalate "\n\n" (infos.foldl step ([], 1)).1)

/-! ## Photo-JSON data model (final_json_to_excel.py)

A document is the subset of the uploaded JSON read or written by the
converter: `id`, `worker_id_cnst`, `metadata`, `mdfcn_infos` and the `EX`
list.  `id` and `worker_id_cnst` pass through `str(...)` on every use, so they
are carried as strings.  An `EX` entry is read and written only through its
`exp_sentence` key, carried as `Option JVal` (`none` models both a missing key
and `null`, which every `ex.get("exp_sentence")` site treats identically). -/

structure PhotoEx where
  exp : Option JVal
deriving Repr

structure PhotoDoc where
  id : String
  workerIdCnst : String
  metadata : JVal
  mdfcnInfos : List JVal
  ex : List PhotoEx
deriving Repr

structure PhotoData where
  document : List PhotoDoc
deriving Repr

/-- Is a dict-shaped `exp_sentence` the new-style `label -> {feature, sent}`
layout?  (`any(isinstance(v, dict) and ("sent" in v or "feature" in v) ...)`.) -/
def isNewStyle (kvs : List (String × JVal)) : Bool :=
  kvs.any fun p =>
    match p.2 with
    | .jobj inner => hasKey inner "sent" || hasKey inner "feature"
    | _ => false

/-- `(type, sentence)` of one old-style slot string (already stripped):
`TYPE_BRACKET_RE` split, else an untyped sentence. -/
def oldPairOf (text : String) : String × String :=
  match typeBracketMatch text with
  | some (g1, g2) => (pyStrip g1, pyStrip g2)
  | none => ("", text)

/-- Old-style pairs of one value of a slot container entry
(`seq = v if isinstance(v, list) else [v]`, skipping falsy members). -/
def oldPairsOfVal (v : JVal) : List (String × String) :=
  match v with
  | .jarr xs =>
      xs.filterMap fun s =>
        if pyTruthy s then some (oldPairOf (pyStrip (pyStr s))) else none
  | _ => if pyTruthy v then [oldPairOf (pyStrip (pyStr v))] else []

/-- The new-style extraction of one label's value. -/
def newPairOf (inner : List (String × JVal)) : Option (String × String) :=
  let typ := stripBrackets (pyOrBlank (getd inner "feature" (.jstr "")))
  let sent := pyStrip (pyOrBlank (getd inner "sent" (.jstr "")))
  if sent ≠ "" then some (typ, sent) else none

/-- `extract_sentences` restricted to one `exp_sentence` value
(final_json_to_excel.py:196-270 iterates these per `EX` entry). -/
def extractEx (exp : Option JVal) : List (String × String) :=
  match exp with
  | none => []
  | some e =>
      match e with
      | .jobj kvs =>
          if isNewStyle kvs then
            (sortLabelKeys (kvs.map (·.1))).filterMap fun label =>
              match getd kvs label (.jobj []) with
              | .jobj inner => newPairOf inner
              | _ => none
          else
            kvs.flatMap fun p => oldPairsOfVal p.2
      | .jarr items =>
          items.flatMap fun item =>
            match item with
            | .jobj ikvs => ikvs.flatMap fun p => oldPairsOfVal p.2
            | _ => []
      | .jstr s =>
          let text := pyStrip s
          if text ≠ "" then [oldPairOf text] else []
      | _ => []

/-- `extract_sentences(doc)`. -/
def extractSentences (doc : PhotoDoc) : List (String × String) :=
  doc.ex.flatMap fun e => extractEx e.exp

/-- One spreadsheet row of the photo export (`to_rows` emits these dicts;
`meta_url` feeds only the hyperlink and is kept alongside).  Cells are
`Option String`: `none` models a NaN cell when a sheet is read back. -/
structure PhotoRow where
  id : Option String
  workerIdCnst : Option String
  mediumCategory : Option String
  typ : Option String
  sent : Option String
  metadata : Option String
  memo : Option String
deriving Repr, DecidableEq

/-- `to_rows(data)` (final_json_to_excel.py:326-356). -/
def toRows (data : PhotoData) : List PhotoRow :=
  data.document.flatMap fun doc =>
    let metaKvs : List (String × JVal) :=
      match doc.metadata with
      | .jobj kvs => if kvs.isEmpty then [] else kvs
      | _ => []
    let mediumCategory := pyOrBlank (getd metaKvs "Medium_category" (.jstr ""))
    let mdText := (formatMetadataAndUrl metaKvs).1
    let memoText := extractMdfcnMemo doc.mdfcnInfos
    let pairs :=
      let p := extractSentences doc
      if p.isEmpty then [("", "")] else p
    pairs.map fun pr =>
      { id := some doc.id
        workerIdCnst := some doc.workerIdCnst
        mediumCategory := some mediumCategory
        typ := some pr.1
        sent := some pr.2
        metadata := some mdText
        memo := some memoText }

/-! ## Slot enumeration (`_iter_sentence_slots_with_old`,
final_json_to_excel.py:681-734).

The imperative code yields `(slot_descriptor, old_value)` pairs; the
descriptors address pairwise-distinct locations, so the functional model keeps
the ordered list of slot snapshots, tagged with the backing shape (the shape
decides how a write and the final cleanup act on the slot). -/

inductive SlotV where
  /-- a slot inside a list-of-maps or old-style dict container -/
  | oldL (raw : String)
  /-- the bare-string `exp_sentence` slot -/
  | oldS (raw : String)
  /-- a new-style `{feature, sent}` slot -/
  | newS (feature sent : String)
deriving Repr, DecidableEq

/-- Slots of one value of an old-style container entry. -/
def slotsOfVal (v : JVal) : List SlotV :=
  match v with
  | .jarr xs => xs.map fun s => .oldL (pyStrOrEmpty s)
  | _ => [.oldL (pyStrOrEmpty v)]

/-- Slots of one `exp_sentence` value, in traversal order. -/
def slotsEx (exp : Option JVal) : List SlotV :=
  match exp with
  | none => []
  | some e =>
      match e with
      | .jobj kvs =>
          if isNewStyle kvs then
            (sortLabelKeys (kvs.map (·.1))).filterMap fun label =>
              match getd kvs label (.jobj []) with
              | .jobj inner =>
                  some (.newS (pyStrOrEmpty (getd inner "feature" .jnull))
                              (pyStrOrEmpty (getd inner "sent" .jnull)))
              | _ => none
          else
            kvs.flatMap fun p => slotsOfVal p.2
      | .jarr items =>
          items.flatMap fun item =>
            match item with
            | .jobj ikvs => ikvs.flatMap fun p => slotsOfVal p.2
            | _ => []
      | .jstr s => [.oldS s]
      | _ => []

/-- All slots of a document, in traversal order. -/
def photoSlots (doc : PhotoDoc) : List SlotV :=
  doc.ex.flatMap fun e => slotsEx e.exp

/-! ## DataFrame model and the per-id collectors
(final_json_to_excel.py:102-172 and 748-779).

The collectors each copy the frame and forward-fill specific columns; they
build per-id dicts that are only ever read through `.get`, so each one is
modelled directly as a lookup function. -/

/-- An edited photo sheet.  `_read_excel_multi` synthesizes the `유형` and
`Medium_category` columns, but `apply_excel_desc_to_photo_json` accepts any
frame, so column presence is kept explicit; the `id` and `설명 문장` columns
are required by the code (it raises otherwise) and are part of the record. -/
structure PhotoDf where
  hasTyp : Bool
  hasMedium : Bool
  hasMeta : Bool
  rows : List PhotoRow
deriving Repr

/-- `col.ffill()`: carry the last non-NaN value downwards. -/
def ffillO : List (Option α) → Option α → List (Option α)
  | [], _ => []
  | x :: tl, last =>
      match x with
      | some v => some v :: ffillO tl (some v)
      | none => last :: ffillO tl last

/-- `.astype(str)` after an `ffill`: a remaining NaN renders as `"nan"`. -/
def astypeStr (o : Option String) : String :=
  match o with
  | some s => s
  | none => "nan"

/-- The rows of a frame with `id` forward-filled and stringified, paired with
the raw rows (each collector re-derives this from its own copy). -/
def rowsWithId (df : PhotoDf) : List (String × PhotoRow) :=
  (ffillO (df.rows.map (·.id)) none).map astypeStr |>.zip df.rows

/-- `_collect_excel_pairs_by_id(df, skip_blank)` as a lookup: the `(유형,
설명 문장)` pairs grouped under bucket key `key` (ids and cells stripped,
`유형` forward-filled when the column exists). -/
def collectPairsById (df : PhotoDf) (skipBlank : Bool) (key : String) :
    List (String × String) :=
  let typs : List String :=
    if df.hasTyp then (ffillO (df.rows.map (·.typ)) none).map (·.getD "")
    else df.rows.map fun _ => ""
  let ids : List String := (ffillO (df.rows.map (·.id)) none).map astypeStr
  let sents : List String := df.rows.map fun r => r.sent.getD ""
  ((ids.zip typs).zip sents).filterMap fun p =>
    let idS := pyStrip p.1.1
    let typ := pyStrip p.1.2
    let sent := pyStrip p.2
    if skipBlank && sent = "" then none
    else if idS = key then some (typ, sent) else none

/-- `_collect_metadata_by_id(df)` as a lookup: first non-empty parsed
metadata dict of the id block. -/
def collectMetadataById (df : PhotoDf) (key : String) : Option JVal :=
  if !df.hasMeta then none
  else if key = "" then none
  else
    ((rowsWithId df).find? fun p =>
        pyStrip p.1 = key && pyTruthy (parseMetadataCell p.2.metadata)).map
      fun p => parseMetadataCell p.2.metadata

/-- `_collect_note_by_id(df)` as a lookup: first non-blank `note` field. -/
def collectNoteById (df : PhotoDf) (key : String) : Option String :=
  if !df.hasMeta then none
  else if key = "" then none
  else
    ((rowsWithId df).find? fun p =>
        pyStrip p.1 = key &&
          pyStrip (pyOrBlank (getd
            (match parseMetadataCell p.2.metadata with
             | .jobj kvs => kvs | _ => []) "note" (.jstr ""))) ≠ "").map
      fun p =>
        pyStrip (pyOrBlank (getd
          (match parseMetadataCell p.2.metadata with
           | .jobj kvs => kvs | _ => []) "note" (.jstr "")))

/-- `_collect_medium_by_id(df)` as a lookup: first non-blank forward-filled
`Medium_category` cell of the id block. -/
def collectMediumById (df : PhotoDf) (key : String) : Option String :=
  if !df.hasMedium then none
  else if key = "" then none
  else
    let ids := (ffillO (df.rows.map (·.id)) none).map astypeStr
    let mcs := (ffillO (df.rows.map (·.mediumCategory)) none).map (·.getD "")
    ((ids.zip mcs).find? fun p =>
        pyStrip p.1 = key && pyStrip p.2 ≠ "").map fun p => pyStrip p.2

/-! ## The photo reverse reconciler (`apply_excel_desc_to_photo_json`,
final_json_to_excel.py:782-926).

The source snapshots all slot descriptors, walks `range(min(len(seq),
len(slots)))` writing through each descriptor or marking it for deletion,
marks every slot beyond `len(seq)` for deletion, and finally pops the marked
descriptors in reverse index order.  The descriptors address pairwise
distinct locations, so this equals a single structural pass in which the slot
at global index `i` receives the action determined by row `i`:
delete when there is no row `i` or its two cells are blank, else a write. -/

/-- The action for global slot index `i`: `none` = mark for deletion. -/
def rowAct (seq : List (String × String)) (i : Nat) : Option (String × String) :=
  match seq.get? i with
  | none => none
  | some (t, s) => if pyStrip t = "" && pyStrip s = "" then none else some (t, s)

/-- The new-style slot write (final_json_to_excel.py:888-905). -/
def writeNew (inner : List (String × JVal)) (t s : String) : List (String × JVal) :=
  let typClean := pyStrip t
  let sentClean := pyStrip s
  let oldFeature := pyStrOrEmpty (getd inner "feature" .jnull)
  let oldSent := pyStrOrEmpty (getd inner "sent" .jnull)
  let featureOut :=
    if typClean ≠ "" then
      let t' := unwrapTypeCell typClean
      if t' ≠ "" then "[" ++ t' ++ "]" else ""
    else pyStrip oldFeature
  let sentOut := if sentClean ≠ "" then sentClean else pyStrip oldSent
  setKey (setKey inner "feature" (.jstr featureOut)) "sent" (.jstr sentOut)

/-- The old-style slot write: `_compose_text_with_type(old, sent_clean,
typ_clean)`. -/
def writeOld (oldRaw t s : String) : String :=
  composeTextWithType oldRaw (pyStrip s) (pyStrip t)

/-- Writes/deletions over the elements of one old-style value list. -/
def applyListVals (act : Nat → Option (String × String)) (off : Nat) :
    List JVal → List JVal
  | [] => []
  | s :: tl =>
      let rest := applyListVals act (off + 1) tl
      match act off with
      | none => rest
      | some (t, b) => .jstr (writeOld (pyStrOrEmpty s) t b) :: rest

/-- Writes/deletions over an old-style dict container (also the entries of a
list item); returns the number of slots consumed. -/
def applyOldKvs (act : Nat → Option (String × String)) (off : Nat) :
    List (String × JVal) → List (String × JVal) × Nat
  | [] => ([], 0)
  | (k, v) :: tl =>
      match v with
      | .jarr xs =>
          let n := xs.length
          let tln := applyOldKvs act (off + n) tl
          ((k, .jarr (applyListVals act off xs)) :: tln.1, n + tln.2)
      | _ =>
          let tln := applyOldKvs act (off + 1) tl
          match act off with
          | none => (tln.1, 1 + tln.2)
          | some (t, b) =>
          ((k, .jstr (writeOld (pyStrOrEmpty v) t b)) :: tln.1, 1 + tln.2)

/-- Writes/deletions over the items of an old-style list container. -/
def applyItems (act : Nat → Option (String × String)) (off : Nat) :
    List JVal → List JVal × Nat
  | [] => ([], 0)
  | item :: tl =>
      match item with
      | .jobj ikvs =>
          let hd := applyOldKvs act off ikvs
          let tln := applyItems act (off + hd.2) tl
          (.jobj hd.1 :: tln.1, hd.2 + tln.2)
      | _ =>
          let tln := applyItems act off tl
          (item :: tln.1, tln.2)

/-- Writes/deletions over a new-style dict; slot indices follow the sorted
label order, and a deleted slot's key is popped. -/
def applyNewKvs (act : Nat → Option (String × String)) (off : Nat)
    (slotLabels : List String) : List (String × JVal) → List (String × JVal)
  | [] => []
  | p :: tl =>
      match p.2 with
      | .jobj inner =>
          (match slotLabels.findIdx? (· = p.1) with
           | some i =>
               (match act (off + i) with
                | none => applyNewKvs act off slotLabels tl
                | some (t, s) =>
                    (p.1, .jobj (writeNew inner t s))
                      :: applyNewKvs act off slotLabels tl)
           | none => p :: applyNewKvs act off slotLabels tl)
      | _ => p :: applyNewKvs act off slotLabels tl

/-- The labels carrying new-style slots, in slot order. -/
def newSlotLabels (kvs : List (String × JVal)) : List String :=
  (sortLabelKeys (kvs.map (·.1))).filter fun label =>
    match getd kvs label (.jobj []) with
    | .jobj _ => true
    | _ => false

/-- Writes/deletions over one `exp_sentence` value; returns the new value and
the number of slots the entry held. -/
def applyExpP (act : Nat → Option (String × String)) (off : Nat)
    (exp : Option JVal) : Option JVal × Nat :=
  match exp with
  | none => (none, 0)
  | some e =>
      match e with
      | .jobj kvs =>
          if isNewStyle kvs then
            let labels := newSlotLabels kvs
            (some (.jobj (applyNewKvs act off labels kvs)), labels.length)
          else
            let r := applyOldKvs act off kvs
            (some (.jobj r.1), r.2)
      | .jarr items =>
          let r := applyItems act off items
          (some (.jarr r.1), r.2)
      | .jstr s =>
          match act off with
          | none => (none, 1)
          | some (t, b) => (some (.jstr (writeOld s t b)), 1)
      | other => (some other, 0)

/-- The slot pass over the `EX` list, threading the global slot index. -/
def applyExList (act : Nat → Option (String × String)) (off : Nat) :
    List PhotoEx → List PhotoEx
  | [] => []
  | e :: tl =>
      let r := applyExpP act off e.exp
      ⟨r.1⟩ :: applyExList act (off + r.2) tl

/-! ## `_cleanup_exp_sentences` (final_json_to_excel.py:586-657) -/

/-- Cleanup of one new-style entry: drop non-dict values and entries whose
feature and sentence are both blank; rebuild the rest normalized. -/
def cleanupNewEntry (p : String × JVal) : Option (String × JVal) :=
  match p.2 with
  | .jobj inner =>
      let feature := pyStrip (pyOrBlank (getd inner "feature" (.jstr "")))
      let sent := pyStrip (pyOrBlank (getd inner "sent" (.jstr "")))
      if feature = "" && sent = "" then none
      else some (p.1, .jobj [("feature", .jstr feature), ("sent", .jstr sent)])
  | _ => none

/-- Cleanup of one member of an old-style value list:
`str(s).strip()` kept when `str(s or "").strip()` is non-blank. -/
def cleanupListElem (s : JVal) : Option JVal :=
  if pyStrip (pyOrBlank s) ≠ "" then some (.jstr (pyStrip (pyStr s))) else none

/-- Cleanup of one old-style dict entry (also a list item's entry):
lists keep their non-blank members stripped, scalars keep a non-blank
stripped string. -/
def cleanupOldEntry (p : String × JVal) : Option (String × JVal) :=
  match p.2 with
  | .jarr xs =>
      let vv := xs.filterMap cleanupListElem
      if vv.isEmpty then none else some (p.1, .jarr vv)
  | v =>
      let s := pyStrip (pyOrBlank v)
      if s ≠ "" then some (p.1, .jstr s) else none

/-- The per-item cleanup of an old-style list container. -/
def itemCleanOf (item : JVal) : Option JVal :=
  match item with
  | .jobj ikvs =>
      let ikvs' := ikvs.filterMap cleanupOldEntry
      if ikvs'.isEmpty then none else some (.jobj ikvs')
  | _ => none

/-- The slots of one old-style list item. -/
def itemSlotsOf (item : JVal) : List SlotV :=
  match item with
  | .jobj ikvs => ikvs.flatMap fun p => slotsOfVal p.2
  | _ => []

/-- Cleanup of one `exp_sentence` value; `none` means the key is removed. -/
def cleanupExp : Option JVal → Option JVal
  | none => none
  | some e =>
      match e with
      | .jobj kvs =>
          if isNewStyle kvs then
            let kvs' := kvs.filterMap cleanupNewEntry
            if kvs'.isEmpty then none else some (.jobj kvs')
          else
            let kvs' := kvs.filterMap cleanupOldEntry
            if kvs'.isEmpty then none else some (.jobj kvs')
      | .jarr items =>
          let items' := items.filterMap fun item =>
            match item with
            | .jobj ikvs =>
                let ikvs' := ikvs.filterMap cleanupOldEntry
                if ikvs'.isEmpty then none else some (JVal.jobj ikvs')
            | _ => none
          if items'.isEmpty then none else some (.jarr items')
      | e => some e

/-- `_cleanup_exp_sentences(doc)`. -/
def cleanupDoc (doc : PhotoDoc) : PhotoDoc :=
  { doc with ex := doc.ex.map fun e => ⟨cleanupExp e.exp⟩ }

/-! ## Creation branch and the document-level reconciler -/

/-- The creation loop (final_json_to_excel.py:851-865): fill
`설명 문장1..n` from the non-blank row pairs. -/
def creationFill (exp : List (String × JVal)) (idx : Nat) :
    List (String × String) → List (String × JVal)
  | [] => exp
  | (typ, sent) :: tl =>
      let t0 := pyStrip typ
      let s0 := pyStrip sent
      if t0 = "" && s0 = "" then creationFill exp idx tl
      else
        let t := unwrapTypeCell t0
        let featureOut := if t ≠ "" then "[" ++ t ++ "]" else ""
        creationFill
          (setKey exp ("설명 문장" ++ toString idx)
            (.jobj [("feature", .jstr featureOut), ("sent", .jstr s0)]))
          (idx + 1) tl

/-- The `metadata` update of one document (final_json_to_excel.py:808-828). -/
def applyMetaDoc (df : PhotoDf) (skipBlank : Bool) (doc : PhotoDoc) : PhotoDoc :=
  let docId := doc.id
  let metaFromExcel := collectMetadataById df docId
  let mediumEntry := collectMediumById df docId
  let noteEntry := collectNoteById df docId
  if docId ≠ "" &&
      (metaFromExcel.isSome || mediumEntry.isSome || noteEntry.isSome || !skipBlank) then
    let meta0 : List (String × JVal) :=
      match doc.metadata with
      | .jobj kvs => kvs
      | _ => []
    let meta1 :=
      match metaFromExcel with
      | some (.jobj kvs) => kvs.foldl (fun acc p => setKey acc p.1 p.2) meta0
      | _ => meta0
    let mcVal := mediumEntry.getD ""
    let meta2 :=
      if mcVal ≠ "" || !skipBlank then setKey meta1 "Medium_category" (.jstr mcVal)
      else meta1
    let noteVal := noteEntry.getD ""
    let meta3 :=
      if noteVal ≠ "" || !skipBlank then setKey meta2 "note" (.jstr noteVal)
      else meta2
    { doc with metadata := .jobj meta3 }
  else doc

/-- The slot update of one document (final_json_to_excel.py:830-924). -/
def applySlotsDoc (df : PhotoDf) (skipBlank : Bool) (doc : PhotoDoc) : PhotoDoc :=
  let seq := collectPairsById df skipBlank doc.id
  let slots := photoSlots doc
  if slots.isEmpty && !seq.isEmpty then
    let exList := if doc.ex.isEmpty then [(⟨some (.jobj [])⟩ : PhotoEx)] else doc.ex
    match exList with
    | [] => cleanupDoc { doc with ex := exList }
    | ex0 :: tl =>
        let exp0 : List (String × JVal) :=
          match ex0.exp with
          | some (.jobj kvs) => kvs
          | _ => []
        cleanupDoc { doc with ex := (⟨some (.jobj (creationFill exp0 1 seq))⟩ : PhotoEx) :: tl }
  else
    cleanupDoc { doc with ex := applyExList (rowAct seq) 0 doc.ex }

/-- `apply_excel_desc_to_photo_json(json_obj, excel_df, skip_blank)`. -/
def applyPhotoJson (data : PhotoData) (df : PhotoDf) (skipBlank : Bool) : PhotoData :=
  ⟨data.document.map fun doc => applySlotsDoc df skipBlank (applyMetaDoc df skipBlank doc)⟩

/-! # The table variant (table_to_excel.py)

Only the second definition of `apply_excel_desc_to_json`
(table_to_excel.py:492) is live in Python (it shadows the one at line 380);
the shadowed body survives as the `유형`-less compatibility path of the live
definition and is embedded as such. -/

/-- `REF_MAP`. -/
def refMap : List (String × String) :=
  [("table_ref", "표 설명 문장"), ("row_ref", "행 설명 문장"),
   ("col_ref", "열 설명 문장"), ("cell_ref", "불연속 영역 설명 문장")]

/-- `REF_MAP.get(ref_type, ref_type)`. -/
def refDisplay (refType : String) : String :=
  match refMap.find? (·.1 = refType) with
  | some p => p.2
  | none => refType

/-- `TYPE_TAGS`. -/
def typeTags : List String :=
  ["table_ref", "row_ref", "col_ref", "cell_ref"]

/-- The squashed-label table of `_label_to_ref_type`'s second stage. -/
def labelNormTable : List (String × String) :=
  [("표설명문장", "table_ref"), ("표설명", "table_ref"), ("표", "table_ref"),
   ("행설명문장", "row_ref"), ("행설명", "row_ref"), ("행", "row_ref"),
   ("열설명문장", "col_ref"), ("열설명", "col_ref"), ("열", "col_ref"),
   ("불연속영역설명문장", "cell_ref"), ("불연속영역설명", "cell_ref"),
   ("불연속영역", "cell_ref"), ("불연속", "cell_ref")]

/-- `_label_to_ref_type(label)` (table_to_excel.py:471-490).  A `none`
argument models `label is None`. -/
def labelToRefType (label : Option String) : String :=
  let s := match label with
    | none => ""
    | some l => pyStrip l
  match refMap.find? (·.2 = s) with
  | some p => p.1
  | none =>
      let s2 := removeChar (removeChar s ' ') '_'
      match labelNormTable.find? (·.1 = s2) with
      | some p => p.2
      | none => if pyStartsWith s2 "불연속" then "cell_ref" else s

/-- Is `k` one of the sentence-key variants recognized by
`_set_exp_sentence_on_dict` (space-insensitive)? -/
def expKeyVariant (k : String) : Bool :=
  let kn := removeChar k ' '
  kn = "설명문장" || kn = "설명문장들" || kn = "설명문" || kn = "설명"

/-- `_set_exp_sentence_on_dict(d, new_sentence, prefer_existing)`
(table_to_excel.py:34-61). -/
def setExpSentenceOnDict (d : List (String × JVal)) (newSentence : String)
    (preferExisting : Bool) : List (String × JVal) :=
  let candidates := (d.map (·.1)).filter expKeyVariant
  let targetKey :=
    match candidates with
    | [] => "설명문장"
    | c :: _ => if preferExisting then c else "설명문장"
  let d' := d.filter fun p => !expKeyVariant p.1
  setKey d' targetKey (.jarr [.jstr newSentence])

/-- `_iter_exp_items(ex_obj)` (table_to_excel.py:63-72). -/
def iterExpItems (exp : Option JVal) : List JVal :=
  match exp with
  | none => []
  | some (.jarr xs) => xs
  | some (.jobj kvs) => [.jobj kvs]
  | some (.jstr s) => [.jobj [("설명문장", .jarr [.jstr s])]]
  | some _ => []

/-- The per-key return of `_pick_sentence`'s first pass. -/
def pickFromVariantVal (v : JVal) : String :=
  match v with
  | .jarr (x :: _) => pyStrip (pyStr x)
  | .jnull => ""
  | v => pyStrip (pyStr v)

/-- `_pick_sentence(exp_item)` (table_to_excel.py:74-99). -/
def pickSentence (expItem : JVal) : String :=
  match expItem with
  | .jstr s => pyStrip s
  | .jobj kvs =>
      let variantKey (k : String) : Bool :=
        let kn := removeChar k ' '
        kn = "설명문장" || kn = "설명문장들" || kn = "설명"
      match kvs.find? fun p => variantKey p.1 with
      | some p => pickFromVariantVal p.2
      | none =>
          let fallbackMatch (v : JVal) : Bool :=
            match v with
            | .jarr (.jstr _ :: _) => true
            | .jstr _ => true
            | _ => false
          match (kvs.map (·.2)).find? fallbackMatch with
          | some (.jarr (.jstr x :: _)) => pyStrip x
          | some (.jstr x) => pyStrip x
          | _ => ""
  | _ => ""

/-! ### `extract_mdfcn_values` (table_to_excel.py:102-158) -/

mutual
/-- A size measure used as parser-recursion fuel for the memo walk (a JSON
text always decodes to a value of smaller weight than the text's length). -/
def jweight : JVal → Nat
  | .jnull => 1
  | .jstr s => s.length + 1
  | .jbool _ => 1
  | .jnum lit => lit.length + 1
  | .jarr xs => jweightList xs + 1
  | .jobj kvs => jweightPairs kvs + 1

def jweightList : List JVal → Nat
  | [] => 0
  | x :: tl => jweight x + jweightList tl

def jweightPairs : List (String × JVal) → Nat
  | [] => 0
  | (_, v) :: tl => jweight v + jweightPairs tl
end

/-- The `_walk` recursion, collecting `value` strings in visit order. -/
def mdfcnWalk : Nat → JVal → List String
  | 0, _ => []
  | fuel + 1, x =>
      match x with
      | .jnull => []
      | .jstr s0 =>
          let s := pyStrip s0
          if s = "" then []
          else if headIs s '[' || headIs s '{' then
            match jsonLoads s with
            | some parsed => mdfcnWalk fuel parsed
            | none => if typeTags.contains s then [] else [s]
          else if typeTags.contains s then [] else [s]
      | .jobj kvs =>
          let fromValue :=
            match getd kvs "value" .jnull with
            | .jstr v => let v' := pyStrip v; if v' ≠ "" then [v'] else []
            | _ => []
          let fromMemo :=
            match getd kvs "mdfcn_memo" .jnull with
            | .jstr mm =>
                if pyStrip mm ≠ "" then
                  match jsonLoads (pyStrip mm) with
                  | some parsed => mdfcnWalk fuel parsed
                  | none => []
                else []
            | _ => []
          let fromRest := kvs.flatMap fun p =>
            if p.1 = "value" || p.1 = "mdfcn_memo" then []
            else
              match p.2 with
              | .jarr _ => mdfcnWalk fuel p.2
              | .jobj _ => mdfcnWalk fuel p.2
              | _ => []
          fromValue ++ fromMemo ++ fromRest
      | .jarr xs => xs.flatMap fun v => mdfcnWalk fuel v
      | _ => []

/-- `_dedup_keep_order`. -/
def dedupKeepOrder (l : List String) : List String :=
  (l.foldl (fun acc it =>
    if it ≠ "" && !acc.contains it then acc ++ [it] else acc) [])

/-- `extract_mdfcn_values(obj, sep="\n")`. -/
def extractMdfcnValues (obj : JVal) : String :=
  String.intercalate "\n" (dedupKeepOrder (mdfcnWalk (jweight obj + 1) obj))

/-- `extract_url(meta)` (table_to_excel.py:161-168). -/
def extractUrl (meta : JVal) : String :=
  match meta with
  | .jobj kvs =>
      match getd kvs "url" (.jstr "") with
      | .jarr [] => ""
      | .jarr (x :: _) => pyStr x
      | u => pyOrBlank u
  | _ => ""

/-! ### `json.dumps(..., ensure_ascii=False, indent=2)`, used for the
`metadata` cell of the table export.  The rendering detail is presentation
only; no theorem depends on it. -/

/-- Escape one character of a JSON string literal. -/
def jsonEscapeChar (c : Char) : String :=
  if c = '"' then "\\\x22"
  else if c = '\\' then "\\\\"
  else if c = '\n' then "\\n"
  else if c = '\t' then "\\t"
  else if c = '\r' then "\\r"
  else String.singleton c

def jsonEscape (s : String) : String :=
  String.join (s.data.map jsonEscapeChar)

/-- `n` levels of two-space indentation. -/
def indentSp (n : Nat) : String :=
  String.join (List.replicate n "  ")

mutual
def jsonDumpsV (ind : Nat) : JVal → String
  | .jnull => "null"
  | .jstr s => "\x22" ++ jsonEscape s ++ "\x22"
  | .jbool b => if b then "true" else "false"
  | .jnum lit => lit
  | .jarr [] => "[]"
  | .jarr (x :: tl) =>
      "[\n" ++ indentSp (ind + 1) ++ jsonDumpsItems (ind + 1) (x :: tl) ++
        "\n" ++ indentSp ind ++ "]"
  | .jobj [] => "\x7b\x7d"
  | .jobj (p :: tl) =>
      "\x7b\n" ++ indentSp (ind + 1) ++ jsonDumpsPairs (ind + 1) (p :: tl) ++
        "\n" ++ indentSp ind ++ "\x7d"

def jsonDumpsItems (ind : Nat) : List JVal → String
  | [] => ""
  | [x] => jsonDumpsV ind x
  | x :: y :: tl =>
      jsonDumpsV ind x ++ ",\n" ++ indentSp ind ++ jsonDumpsItems ind (y :: tl)

def jsonDumpsPairs (ind : Nat) : List (String × JVal) → String
  | [] => ""
  | [(k, v)] => "\x22" ++ jsonEscape k ++ "\x22: " ++ jsonDumpsV ind v
  | (k, v) :: q :: tl =>
      "\x22" ++ jsonEscape k ++ "\x22: " ++ jsonDumpsV ind v ++ ",\n" ++
        indentSp ind ++ jsonDumpsPairs ind (q :: tl)
end

def jsonDumps (v : JVal) : String :=
  jsonDumpsV 0 v

/-! ### Table data model and forward export rows
(table_to_excel.py:171-198; the spreadsheet rendering that follows the row
loop is styling only). -/

structure TableEx where
  refType : String
  exp : Option JVal
deriving Repr

structure TableDoc where
  id : String
  workerIdCnst : String
  metadata : JVal
  mdfcnInfos : JVal
  ex : List TableEx
deriving Repr

structure TableData where
  document : List TableDoc
deriving Repr

/-- One row of the table export. -/
structure TableRowR where
  id : String
  workerIdCnst : String
  typ : String
  sent : String
  metadata : String
  mdfcnInfos : String
  url : String
deriving Repr, DecidableEq

/-- The row loop of `table_json_to_xlsx_bytes` (table_to_excel.py:176-198). -/
def tableRows (data : TableData) : List TableRowR :=
  data.document.flatMap fun doc =>
    let worker := pyStrip (pyOrBlank (.jstr doc.workerIdCnst))
    let metadata := if pyTruthy doc.metadata then doc.metadata else .jobj []
    let mdfcnText := extractMdfcnValues doc.mdfcnInfos
    doc.ex.flatMap fun ex =>
      (iterExpItems ex.exp).map fun item =>
        { id := doc.id
          workerIdCnst := worker
          typ := refDisplay ex.refType
          sent := pickSentence item
          metadata := jsonDumps metadata
          mdfcnInfos := mdfcnText
          url := extractUrl metadata }

/-! ### The table reverse reconciler (`apply_excel_desc_to_json`,
table_to_excel.py:492-574, and its collectors at 288-307 and 443-469) -/

/-- One row of an edited table sheet (`none` cells model NaN). -/
structure TableRow where
  id : Option String
  typ : Option String
  sent : Option String
deriving Repr, DecidableEq

/-- An edited table sheet; `hasTyp` records whether the `유형` column exists
(the code branches on it). -/
structure TableDf where
  hasTyp : Bool
  rows : List TableRow
deriving Repr

/-- The rows with `id` forward-filled/stringified, `유형` forward-filled and
`설명 문장` NaN-filled. -/
def tableCells (df : TableDf) : List (String × String × String) :=
  let ids := (ffillO (df.rows.map (·.id)) none).map astypeStr
  let typs := (ffillO (df.rows.map (·.typ)) none).map astypeStr
  let sents := df.rows.map fun r => r.sent.getD ""
  (ids.zip (typs.zip sents)).map fun p => (p.1, p.2.1, p.2.2)

/-- `_collect_excel_sentences_by_id(df)` as a lookup: sentences grouped under
the unstripped forward-filled id (this legacy collector does not strip ids
and keeps blank sentences). -/
def collectSentencesById (df : TableDf) (key : String) : List String :=
  (tableCells df).filterMap fun c =>
    if c.1 = key then some (pyStrip c.2.2) else none

/-- Is there any surviving row for bucket key `key` in
`_collect_excel_sentences_by_id_type` (the truthiness of
`mapping_by_type.get(doc_id, {})`)? -/
def hasGroupTyped (df : TableDf) (skipBlank : Bool) (key : String) : Bool :=
  (tableCells df).any fun c =>
    (!(skipBlank && pyStrip c.2.2 = "")) && pyStrip c.1 = key

/-- `_collect_excel_sentences_by_id_type(df, skip_blank)` as a lookup:
sentences grouped under stripped id and normalized reference type. -/
def collectSentencesByIdType (df : TableDf) (skipBlank : Bool)
    (key refType : String) : List String :=
  (tableCells df).filterMap fun c =>
    let sent := pyStrip c.2.2
    if skipBlank && sent = "" then none
    else if pyStrip c.1 = key && labelToRefType (some c.2.1) = refType then
      some sent
    else none

/-- `_assign_sentence_to_slot` on one element of a list-shaped container. -/
def assignToListItem (item : JVal) (s : String) : JVal :=
  match item with
  | .jobj ikvs => .jobj (setExpSentenceOnDict ikvs s true)
  | _ => .jstr s

/-- The slot loop of the table reconciler over one list-shaped container:
write `seq[used], seq[used+1], …` into the leading slots, stop when the
sentences run out. -/
def assignListSlots (seq : List String) : List JVal → Nat → List JVal × Nat
  | [], used => ([], used)
  | item :: tl, used =>
      match seq.get? used with
      | none => (item :: tl, used)
      | some s =>
          let r := assignListSlots seq tl (used + 1)
          (assignToListItem item s :: r.1, r.2)

/-- The old-path variant of the list-slot loop: with `skip_blank` a blank
sentence consumes its slot without writing (table_to_excel.py:560-569). -/
def assignListSlotsSkip (seq : List String) (skipBlank : Bool) :
    List JVal → Nat → List JVal × Nat
  | [], used => ([], used)
  | item :: tl, used =>
      match seq.get? used with
      | none => (item :: tl, used)
      | some s =>
          let r := assignListSlotsSkip seq skipBlank tl (used + 1)
          if skipBlank && pyStrip s = "" then (item :: r.1, r.2)
          else (assignToListItem item s :: r.1, r.2)

/-- `_iter_exp_slots` combined with the write loop, for one `EX` entry of the
typed path.  Starting the slot generator synthesizes a string slot when the
container is missing, `null`, or of unknown type, even when no sentence
remains (the `for` loop always drives the generator once before breaking). -/
def applyExTable (exp : Option JVal) (seq : List String) (used : Nat) :
    Option JVal × Nat :=
  match exp with
  | none =>
      match seq.get? used with
      | some s => (some (.jstr s), used + 1)
      | none => (some (.jstr ""), used)
  | some e =>
      match e with
      | .jarr xs =>
          let r := assignListSlots seq xs used
          (some (.jarr r.1), r.2)
      | .jobj kvs =>
          match seq.get? used with
          | some s => (some (.jobj (setExpSentenceOnDict kvs s true)), used + 1)
          | none => (some (.jobj kvs), used)
      | .jstr s0 =>
          match seq.get? used with
          | some s => (some (.jstr s), used + 1)
          | none => (some (.jstr s0), used)
      | _ =>
          match seq.get? used with
          | some s => (some (.jstr s), used + 1)
          | none => (some (.jstr ""), used)

/-- The old-path per-entry write (skip-blank consumes without writing). -/
def applyExTableSkip (exp : Option JVal) (seq : List String) (skipBlank : Bool)
    (used : Nat) : Option JVal × Nat :=
  match exp with
  | none =>
      match seq.get? used with
      | some s =>
          if skipBlank && pyStrip s = "" then (some (.jstr ""), used + 1)
          else (some (.jstr s), used + 1)
      | none => (some (.jstr ""), used)
  | some e =>
      match e with
      | .jarr xs =>
          let r := assignListSlotsSkip seq skipBlank xs used
          (some (.jarr r.1), r.2)
      | .jobj kvs =>
          match seq.get? used with
          | some s =>
              if skipBlank && pyStrip s = "" then (some (.jobj kvs), used + 1)
              else (some (.jobj (setExpSentenceOnDict kvs s true)), used + 1)
          | none => (some (.jobj kvs), used)
      | .jstr s0 =>
          match seq.get? used with
          | some s =>
              if skipBlank && pyStrip s = "" then (some (.jstr s0), used + 1)
              else (some (.jstr s), used + 1)
          | none => (some (.jstr s0), used)
      | _ =>
          match seq.get? used with
          | some s =>
              if skipBlank && pyStrip s = "" then (some (.jstr ""), used + 1)
              else (some (.jstr s), used + 1)
          | none => (some (.jstr ""), used)

/-- The typed path over one document's `EX` list, threading the per-type
consumption counters. -/
def applyExListTyped (df : TableDf) (skipBlank : Bool) (docId : String) :
    List TableEx → (String → Nat) → List TableEx
  | [], _ => []
  | ex :: tl, used =>
      let rt := pyStrip ex.refType
      let seq := collectSentencesByIdType df skipBlank docId rt
      if seq.isEmpty then ex :: applyExListTyped df skipBlank docId tl used
      else
        let r := applyExTable ex.exp seq (used rt)
        { ex with exp := r.1 } ::
          applyExListTyped df skipBlank docId tl
            (fun s => if s = rt then r.2 else used s)

/-- The legacy (no `유형` column) path over one document's `EX` list; the
outer loop breaks as soon as the sentences are exhausted, leaving later
entries untouched. -/
def applyExListOld (seq : List String) (skipBlank : Bool) :
    List TableEx → Nat → List TableEx
  | [], _ => []
  | ex :: tl, used =>
      if used ≥ seq.length then ex :: tl
      else
        let r := applyExTableSkip ex.exp seq skipBlank used
        { ex with exp := r.1 } :: applyExListOld seq skipBlank tl r.2

/-- `apply_excel_desc_to_json(json_obj, excel_df, skip_blank)`
(table_to_excel.py:492-574, the live definition). -/
def applyTableJson (data : TableData) (df : TableDf) (skipBlank : Bool) :
    TableData :=
  if df.hasTyp then
    ⟨data.document.map fun doc =>
      if !hasGroupTyped df skipBlank doc.id then doc
      else { doc with ex := applyExListTyped df skipBlank doc.id doc.ex (fun _ => 0) }⟩
  else
    ⟨data.document.map fun doc =>
      let seq := collectSentencesById df doc.id
      if seq.isEmpty then doc
      else { doc with ex := applyExListOld seq skipBlank doc.ex 0 }⟩

/-! ### Archive member selection
(`_pick_zip_members`, table_to_excel.py:418-441, and the inline selection of
`apply_excel_desc_to_json_from_zip`, final_json_to_excel.py:941-970).  Both
select from the member-name list; the error conditions and the suggested
output filename depend only on the names. -/

/-- `Path(m).name`: the basename after the last `/`. -/
def pathName (m : String) : String :=
  ⟨(m.data.reverse.takeWhile (· ≠ '/')).reverse⟩

/-- The selected JSON member: the first whose basename starts with
`project_`, else the first `.json` member. -/
def pickJsonMember (names : List String) : Option String :=
  let jsonMembers := names.filter fun m => pyEndsWith (pyLower m) ".json"
  match jsonMembers.find? fun m => pyStartsWith (pathName m) "project_" with
  | some m => some m
  | none => jsonMembers.head?

/-- The selected spreadsheet member: the first `.xlsx`, else the first
`.xls`. -/
def pickExcelMember (names : List String) : Option String :=
  let xlsxMembers := names.filter fun m => pyEndsWith (pyLower m) ".xlsx"
  let xlsMembers := names.filter fun m => pyEndsWith (pyLower m) ".xls"
  match xlsxMembers.head? with
  | some m => some m
  | none => xlsMembers.head?

/-- `_pick_zip_members(zf)` (also the inline member selection of the photo
variant, which is textually identical). -/
def pickZipMembers (names : List String) : Option String × Option String :=
  (pickJsonMember names, pickExcelMember names)

/-- The `FileNotFoundError` conditions of
`apply_excel_desc_to_json_from_zip`. -/
inductive ZipErr where
  | noJson
  | noExcel
deriving Repr, DecidableEq

/-- The suggested output filename: `<stem>_updated.json`. -/
def updatedName (jsonMember : String) : String :=
  let base := pathName jsonMember
  (if pyEndsWith (pyLower base) ".json" then dropLastChars base 5 else base) ++
    "_updated.json"

/-- The member-selection and naming skeleton of
`apply_excel_desc_to_json_from_zip` (final_json_to_excel.py:941-970; the
table variant at table_to_excel.py:591-613 is identical at this level):
either a `FileNotFoundError` naming the missing member type, or the chosen
pair of members plus the suggested output filename. -/
def zipSelect (names : List String) : Except ZipErr (String × String × String) :=
  match pickZipMembers names with
  | (none, _) => .error .noJson
  | (some _, none) => .error .noExcel
  | (some j, some e) => .ok (j, e, updatedName j)

/-! # Specification-side notions for the photo reconciler theorems

`slotPair` is the `(label, text)` view a slot exposes to the spreadsheet;
`writeOutcome`/`slotOutcome`/`expectedSlots` give the declarative description
of what one reconciliation pass does to the slot sequence (the theorems below
prove the reconciler equal to it). -/

/-- The `(label, text)` pair a slot contributes to the export. -/
def slotPair : SlotV → String × String
  | .oldL raw => oldPairOf (pyStrip raw)
  | .oldS raw => oldPairOf (pyStrip raw)
  | .newS f s => (stripBrackets f, pyStrip s)

/-- The slot that results from writing row `(t, b)` into a slot and running
the emptiness cleanup; `none` when the cleanup removes it.  A bare-string
slot is outside the cleanup's reach and always survives a write. -/
def writeOutcome : SlotV → String × String → Option SlotV
  | .newS f s, (t, b) =>
      let typClean := pyStrip t
      let featureOut :=
        if typClean ≠ "" then
          let t' := unwrapTypeCell typClean
          if t' ≠ "" then "[" ++ t' ++ "]" else ""
        else pyStrip f
      let sentOut := if pyStrip b ≠ "" then pyStrip b else pyStrip s
      if featureOut = "" && sentOut = "" then none
      else some (.newS featureOut sentOut)
  | .oldL raw, (t, b) =>
      let c := writeOld raw t b
      if c = "" then none else some (.oldL c)
  | .oldS raw, (t, b) => some (.oldS (writeOld raw t b))

/-- What happens to the slot at global index `i`. -/
def slotOutcome (act : Nat → Option (String × String)) (i : Nat) (sv : SlotV) :
    Option SlotV :=
  match act i with
  | none => none
  | some r => writeOutcome sv r

/-- The expected slot sequence after one reconciliation pass. -/
def expectedSlots (act : Nat → Option (String × String)) (off : Nat) :
    List SlotV → List SlotV
  | [] => []
  | sv :: tl =>
      match slotOutcome act off sv with
      | none => expectedSlots act (off + 1) tl
      | some sv' => sv' :: expectedSlots act (off + 1) tl

/-- The surviving raw strings of one value list after a reconciliation pass
(the string-level image of `expectedSlots` on `oldL` slots). -/
def expectedOldRaws (act : Nat → Option (String × String)) (off : Nat) :
    List String → List String
  | [] => []
  | r :: tl =>
      match act off with
      | none => expectedOldRaws act (off + 1) tl
      | some (t, b) =>
          let c := writeOld r t b
          if c = "" then expectedOldRaws act (off + 1) tl
          else c :: expectedOldRaws act (off + 1) tl

/-- A direct per-entry form of the new-style write pass (provably equal to
`applyNewKvs` on duplicate-free, sorted label lists). -/
def applyNewDirect (act : Nat → Option (String × String)) (off : Nat) :
    List (String × JVal) → List (String × JVal)
  | [] => []
  | (k, v) :: tl =>
      match v with
      | .jobj inner =>
          (match act off with
           | none => applyNewDirect act (off + 1) tl
           | some (t, s) =>
               (k, .jobj (writeNew inner t s)) :: applyNewDirect act (off + 1) tl)
      | _ => (k, v) :: applyNewDirect act off tl

/-- The slot snapshot a new-style entry carries (`none` for stray values). -/
def newSlotOf (p : String × JVal) : Option SlotV :=
  match p.2 with
  | .jobj inner =>
      some (.newS (pyStrOrEmpty (getd inner "feature" .jnull))
                  (pyStrOrEmpty (getd inner "sent" .jnull)))
  | _ => none

/-- The label a new-style entry contributes to the slot order. -/
def newKeyOf (p : String × JVal) : Option String :=
  match p.2 with
  | .jobj _ => some p.1
  | _ => none

/-- The expected post-cleanup entry list of one new-style write pass. -/
def expectedNewKvs (act : Nat → Option (String × String)) (off : Nat) :
    List (String × JVal) → List (String × JVal)
  | [] => []
  | (k, v) :: tl =>
      match v with
      | .jobj inner =>
          (match slotOutcome act off
              (.newS (pyStrOrEmpty (getd inner "feature" .jnull))
                     (pyStrOrEmpty (getd inner "sent" .jnull))) with
           | some (.newS f' s') =>
               (k, JVal.jobj [("feature", .jstr f'), ("sent", .jstr s')])
                 :: expectedNewKvs act (off + 1) tl
           | _ => expectedNewKvs act (off + 1) tl)
      | _ => expectedNewKvs act off tl

/-- The pair a post-cleanup slot contributes to a re-extraction. -/
def slotExtract : SlotV → Option (String × String)
  | .oldL raw => if raw ≠ "" then some (oldPairOf (pyStrip raw)) else none
  | .oldS raw => if pyStrip raw ≠ "" then some (oldPairOf (pyStrip raw)) else none
  | .newS f s => if pyStrip s ≠ "" then some (stripBrackets f, pyStrip s) else none

/-! ### The documented slot-container shapes

`wfExp` is the data-model domain of the specification: a slot container is
absent, a bare string, a list whose slot-bearing items are maps of strings or
string lists, a dict of such values, or the new-style dict of
`{feature, sent}` records with duplicate-free, ordinally sorted labels. -/

/-- `true` on duplicate-free lists. -/
def nodupB : List String → Bool
  | [] => true
  | x :: tl => !tl.contains x && nodupB tl

/-- Boolean pairwise-ordering check (`Pairwise` for a Bool relation). -/
def pairwiseLeB (le : α → α → Bool) : List α → Bool
  | [] => true
  | a :: tl => tl.all (le a) && pairwiseLeB le tl

/-- A documented old-style slot value: a string or a list of strings. -/
def wfOldVal : JVal → Bool
  | .jstr _ => true
  | .jarr xs => xs.all fun x => match x with | .jstr _ => true | _ => false
  | _ => false

/-- A new-style record: `feature`/`sent` absent or strings. -/
def wfNewInner (inner : List (String × JVal)) : Bool :=
  (match getd inner "feature" .jnull with
   | .jnull => true | .jstr _ => true | _ => false) &&
  (match getd inner "sent" .jnull with
   | .jnull => true | .jstr _ => true | _ => false)

/-- The documented shapes of one `exp_sentence` value. -/
def wfExp : Option JVal → Bool
  | none => true
  | some e =>
      match e with
      | .jobj kvs =>
          if isNewStyle kvs then
            nodupB (kvs.map (·.1)) &&
            pairwiseLeB labelKeyLe (kvs.map (·.1)) &&
            kvs.all fun p =>
              match p.2 with
              | .jobj inner => wfNewInner inner
              | _ => false
          else
            kvs.all fun p => wfOldVal p.2
      | .jarr items =>
          items.all fun item =>
            match item with
            | .jobj ikvs => ikvs.all fun p => wfOldVal p.2
            | _ => true
      | .jstr _ => true
      | _ => true

/-- The documented shapes over a whole document. -/
def wfDoc (doc : PhotoDoc) : Bool :=
  doc.ex.all fun e => wfExp e.exp

/-- A slot with non-blank text (the round-trip premise): the extractor must
emit it, and its extracted pair must not be the blank pair that the
reconciler reads back as a deletion request. -/
def slotNonblank (sv : SlotV) : Bool :=
  match sv with
  | .oldL raw => raw ≠ "" && !((slotPair sv).1 = "" && (slotPair sv).2 = "")
  | .oldS raw => pyStrip raw ≠ "" && !((slotPair sv).1 = "" && (slotPair sv).2 = "")
  | .newS _ s => pyStrip s ≠ ""

/-- Canonical raw text: old-style raws already stripped (the reconciler's
composer re-parses the raw text, the extractor the stripped text). -/
def slotCanonical : SlotV → Bool
  | .oldL raw => pyStrip raw = raw
  | .oldS raw => pyStrip raw = raw
  | .newS _ _ => true

/-- Round-trip-stable labelling: an extracted label is not itself
bracket-wrapped (it would lose one bracket layer per cycle), an old-style
label contains no `]` (the composed `[label] text` would re-split at the
inner `]`), and an unlabeled old-style sentence does not itself parse as
`[type] text`. -/
def labelRoundStable (sv : SlotV) : Bool :=
  match sv with
  | .newS f _ =>
      let t := stripBrackets f
      !(headIs t '[' && lastIs t ']')
  | _ =>
      let p := slotPair sv
      if p.1 = "" then (typeBracketMatch p.2).isNone
      else !(hasChar p.1 ']') && !(headIs p.1 '[' && lastIs p.1 ']')

/-- Right trim, the tail half of `stripChars`. -/
def trimR (l : List Char) : List Char :=
  (l.reverse.dropWhile Char.isWhitespace).reverse

/-! ### Concrete fixtures used by the counterexample theorems -/

/-- A photo sheet carrying exactly the columns the forward export emits. -/
def rowsToDf (rows : List PhotoRow) : PhotoDf :=
  { hasTyp := true, hasMedium := true, hasMeta := true, rows := rows }

/-- A document whose single new-style slot has the doubly bracket-wrapped
feature `[[X]]`. -/
def fixC1Doc : PhotoDoc :=
  { id := "D1", workerIdCnst := "", metadata := .jobj [], mdfcnInfos := [],
    ex := [⟨some (.jobj [("설명 문장1",
      .jobj [("feature", .jstr "[[X]]"), ("sent", .jstr "hello")])])⟩] }

def fixC1Data : PhotoData := ⟨[fixC1Doc]⟩

/-- A document whose single new-style slot is canonical, round-stable and
non-blank (feature `[A]`, sentence `hello`). -/
def fixC1RDoc : PhotoDoc :=
  { id := "D1", workerIdCnst := "", metadata := .jobj [], mdfcnInfos := [],
    ex := [⟨some (.jobj [("설명 문장1",
      .jobj [("feature", .jstr "[A]"), ("sent", .jstr "hello")])])⟩] }

/-- A one-slot document whose id appears nowhere in the edited sheet. -/
def fixC2Doc : PhotoDoc :=
  { id := "D1", workerIdCnst := "", metadata := .jobj [], mdfcnInfos := [],
    ex := [⟨some (.jarr [.jobj [("k", .jarr [.jstr "text"])]])⟩] }

/-- An edited sheet whose only row belongs to the unrelated id `Z`. -/
def fixC2Df : PhotoDf :=
  { hasTyp := true, hasMedium := true, hasMeta := true,
    rows := [{ id := some "Z", workerIdCnst := none, mediumCategory := none,
               typ := some "", sent := some "x", metadata := none,
               memo := none }] }

/-- A photo document with one entry and no extractable pair. -/
def fixC9PhotoDoc : PhotoDoc :=
  { id := "P1", workerIdCnst := "w", metadata := .jobj [], mdfcnInfos := [],
    ex := [⟨none⟩] }

/-- Edited table sheets (with and without the type column) whose only row
belongs to the unrelated id `Z`. -/
def fixC2wTypedDf : TableDf :=
  { hasTyp := true, rows := [{ id := some "Z", typ := some "", sent := some "x" }] }

def fixC2wOldDf : TableDf :=
  { hasTyp := false, rows := [{ id := some "Z", typ := some "", sent := some "x" }] }

/-- A table document whose only example entry has no `exp_sentence`. -/
def fixC9TableDoc : TableDoc :=
  { id := "T1", workerIdCnst := "w", metadata := .jobj [],
    mdfcnInfos := .jarr [], ex := [{ refType := "table_ref", exp := none }] }

/-- A two-slot document and a sheet whose first row is blank-blank, used to
exhibit a deletion beyond the trailing excess. -/
def fixC5Doc : PhotoDoc :=
  { id := "D1", workerIdCnst := "", metadata := .jobj [], mdfcnInfos := [],
    ex := [⟨some (.jarr [.jobj [("k", .jarr [.jstr "[A] s1", .jstr "s2"])]])⟩] }

def fixC5Df : PhotoDf :=
  { hasTyp := true, hasMedium := true, hasMeta := true,
    rows := [{ id := some "D1", workerIdCnst := none, mediumCategory := none,
               typ := some "", sent := some "", metadata := none,
               memo := none }] }

/-- A slot whose label cell edit is the degenerate `[]` with a blank
sentence, on a slot with blank prior text. -/
def fixC34Doc : PhotoDoc :=
  { id := "D1", workerIdCnst := "", metadata := .jobj [], mdfcnInfos := [],
    ex := [⟨some (.jobj [("설명 문장1",
      .jobj [("feature", .jstr "[old]"), ("sent", .jstr "")])])⟩] }

def fixC34Df : PhotoDf :=
  { hasTyp := true, hasMedium := true, hasMeta := true,
    rows := [{ id := some "D1", workerIdCnst := none, mediumCategory := none,
               typ := some "[]", sent := some "", metadata := none,
               memo := none }] }

/-! # Theorems

## Whitespace and stripping lemmas -/

theorem stripChars_eq_trimR (l : List Char) :
    stripChars l = trimR (l.dropWhile Char.isWhitespace) := rfl

theorem dropWhile_append_single {c : Char} (h : Char.isWhitespace c = false)
    (y : List Char) :
    ∃ z, List.dropWhile Char.isWhitespace (y ++ [c]) = z ++ [c] := by
  induction y with
  | nil => exact ⟨[], by simp [List.dropWhile, h]⟩
  | cons a y ih =>
      by_cases ha : Char.isWhitespace a
      · simpa [List.dropWhile, ha] using ih
      · exact ⟨a :: y, by simp [List.dropWhile, ha]⟩

theorem trimR_cons_head {c : Char} (h : Char.isWhitespace c = false)
    (t : List Char) : ∃ z, trimR (c :: t) = c :: z := by
  obtain ⟨z, hz⟩ := dropWhile_append_single h t.reverse
  refine ⟨z.reverse, ?_⟩
  simp [trimR, hz]

theorem trimR_idem (l : List Char) : trimR (trimR l) = trimR l := by
  simp [trimR, List.dropWhile_idempotent]

theorem stripChars_idem (l : List Char) :
    stripChars (stripChars l) = stripChars l := by
  rw [stripChars_eq_trimR, stripChars_eq_trimR]
  cases hA : List.dropWhile Char.isWhitespace l with
  | nil => simp [trimR]
  | cons c t =>
      have hc : Char.isWhitespace c = false := by
        have h := List.head?_dropWhile_not Char.isWhitespace l
        rw [hA] at h
        simpa using h
      obtain ⟨z, hz⟩ := trimR_cons_head hc t
      rw [hz]
      have hdrop : List.dropWhile Char.isWhitespace (c :: z) = c :: z := by
        simp [List.dropWhile, hc]
      rw [hdrop, ← hz, trimR_idem]

theorem pyStrip_data (s : String) : (pyStrip s).data = stripChars s.data := rfl

theorem pyStrip_idem (s : String) : pyStrip (pyStrip s) = pyStrip s := by
  apply String.ext
  rw [pyStrip_data, pyStrip_data, stripChars_idem]

theorem pyStrip_empty : pyStrip "" = "" := rfl

theorem trimR_sublist (l : List Char) : (trimR l).Sublist l := by
  have h := @List.dropWhile_sublist Char l.reverse Char.isWhitespace
  simpa [trimR] using h.reverse

theorem stripChars_sublist (l : List Char) : (stripChars l).Sublist l := by
  rw [stripChars_eq_trimR]
  exact (trimR_sublist _).trans (List.dropWhile_sublist _)

/-- A stripped list has no leading whitespace. -/
theorem stripChars_self_dropWhile {l : List Char} (h : stripChars l = l) :
    List.dropWhile Char.isWhitespace l = l := by
  have hs : (stripChars l).Sublist (List.dropWhile Char.isWhitespace l) := by
    rw [stripChars_eq_trimR]; exact trimR_sublist _
  refine (List.dropWhile_sublist _).eq_of_length_le ?_
  calc l.length = (stripChars l).length := by rw [h]
  _ ≤ (List.dropWhile Char.isWhitespace l).length := hs.length_le

/-- A stripped list has no trailing whitespace. -/
theorem stripChars_self_trimR {l : List Char} (h : stripChars l = l) :
    trimR l = l := by
  have h2 : trimR (List.dropWhile Char.isWhitespace l) = l := by
    rw [← stripChars_eq_trimR]; exact h
  rw [stripChars_self_dropWhile h] at h2
  exact h2

theorem stripChars_head_not_ws {l : List Char} {c : Char} {t : List Char}
    (h : stripChars l = c :: t) : Char.isWhitespace c = false := by
  rw [stripChars_eq_trimR] at h
  cases hA : List.dropWhile Char.isWhitespace l with
  | nil => rw [hA] at h; simp [trimR] at h
  | cons d u =>
      have hd : Char.isWhitespace d = false := by
        have hh := List.head?_dropWhile_not Char.isWhitespace l
        rw [hA] at hh
        simpa using hh
      obtain ⟨z, hz⟩ := trimR_cons_head hd u
      rw [hA, hz] at h
      injection h with h1 _
      exact h1 ▸ hd

/-- Stripping preserves a non-whitespace head and keeps the list non-empty. -/
theorem stripChars_cons_of_head {c : Char} (hc : Char.isWhitespace c = false)
    (t : List Char) : ∃ t', stripChars (c :: t) = c :: t' := by
  rw [stripChars_eq_trimR]
  have hdrop : List.dropWhile Char.isWhitespace (c :: t) = c :: t := by
    simp [List.dropWhile, hc]
  rw [hdrop]
  exact trimR_cons_head hc t

theorem pyStrip_ite (c : Prop) [Decidable c] (a b : String)
    (ha : pyStrip a = a) (hb : pyStrip b = b) :
    pyStrip (if c then a else b) = (if c then a else b) := by
  split <;> assumption

theorem stripBrackets_pyStrip (s : String) :
    stripBrackets (pyStrip s) = stripBrackets s := by
  by_cases hs : s = ""
  · subst hs; rfl
  · by_cases hps : pyStrip s = ""
    · simp [stripBrackets, hs, hps, headIs]
    · simp [stripBrackets, hs, hps, pyStrip_idem]

theorem pyStrip_stripBrackets (s : String) :
    pyStrip (stripBrackets s) = stripBrackets s := by
  by_cases hs : s = ""
  · subst hs; rfl
  · unfold stripBrackets
    simp only [hs, if_false]
    apply pyStrip_ite
    · exact pyStrip_idem _
    · exact pyStrip_idem _

theorem composeTextWithType_stripped (o ns t : String) :
    pyStrip (composeTextWithType o ns t) = composeTextWithType o ns t := by
  unfold composeTextWithType
  apply pyStrip_ite
  · exact pyStrip_idem _
  · apply pyStrip_ite
    · exact pyStrip_idem _
    · cases typeBracketMatch o <;> exact pyStrip_idem _

theorem writeOld_stripped (raw t b : String) :
    pyStrip (writeOld raw t b) = writeOld raw t b :=
  composeTextWithType_stripped ..

theorem unwrapTypeCell_of_not_wrapped {t : String}
    (h : (headIs t '[' && lastIs t ']') = false) : unwrapTypeCell t = t := by
  simp [unwrapTypeCell, h]

/-- Heads of `dropWhile` results fail the predicate; a list whose head fails
the predicate is untouched by `dropWhile`. -/
theorem dropWhile_eq_self_of_head {l : List Char}
    (h : ∀ c ∈ l.head?, Char.isWhitespace c = false) :
    List.dropWhile Char.isWhitespace l = l := by
  cases l with
  | nil => rfl
  | cons c t =>
      have := h c rfl
      simp [List.dropWhile, this]

/-- A list whose ends are non-whitespace is already stripped. -/
theorem stripChars_eq_self {l : List Char}
    (hh : ∀ c ∈ l.head?, Char.isWhitespace c = false)
    (hl : ∀ c ∈ l.getLast?, Char.isWhitespace c = false) :
    stripChars l = l := by
  rw [stripChars_eq_trimR, dropWhile_eq_self_of_head hh]
  unfold trimR
  rw [dropWhile_eq_self_of_head (by simpa using hl), List.reverse_reverse]

/-! ## Ordering lemmas for the label sort -/

theorem pairwiseLeB_pairwise {le : α → α → Bool} {l : List α}
    (h : pairwiseLeB le l = true) : l.Pairwise (le · ·) := by
  induction l with
  | nil => exact List.Pairwise.nil
  | cons a tl ih =>
      unfold pairwiseLeB at h
      simp only [Bool.and_eq_true, List.all_eq_true] at h
      exact List.Pairwise.cons (fun b hb => h.1 b hb) (ih h.2)

theorem insSortBy_eq_self {le : α → α → Bool} {l : List α}
    (h : l.Pairwise (le · ·)) : insSortBy le l = l := by
  induction l with
  | nil => rfl
  | cons a tl ih =>
      have htl := ih (List.Pairwise.sublist (List.sublist_cons_self a tl) h)
      unfold insSortBy
      rw [htl]
      cases tl with
      | nil => rfl
      | cons b tl2 =>
          have hab : le a b = true := by
            have := List.rel_of_pairwise_cons h (List.mem_cons_self ..)
            exact this
          simp [orderedIns, hab]

/-! ## Association-list support lemmas -/

theorem getd_cons_same (k : String) (v : JVal) (tl : List (String × JVal))
    (d : JVal) : getd ((k, v) :: tl) k d = v := by
  simp [getd, List.find?]

theorem getd_cons_ne {k k' : String} (h : k ≠ k') (v : JVal)
    (tl : List (String × JVal)) (d : JVal) :
    getd ((k, v) :: tl) k' d = getd tl k' d := by
  simp [getd, List.find?, h]

theorem getd_setKey_same (l : List (String × JVal)) (k : String) (v d : JVal) :
    getd (setKey l k v) k d = v := by
  induction l with
  | nil => simp [setKey, getd, List.find?]
  | cons p tl ih =>
      by_cases hp : p.1 = k
      · obtain ⟨k1, v1⟩ := p
        simp only at hp
        subst hp
        simp [setKey, getd, List.find?]
      · obtain ⟨k1, v1⟩ := p
        simp only at hp
        simp only [setKey, hp, if_false]
        rw [getd_cons_ne hp, ih]

theorem getd_setKey_ne {k k' : String} (h : k ≠ k') (l : List (String × JVal))
    (v d : JVal) : getd (setKey l k v) k' d = getd l k' d := by
  induction l with
  | nil => simp [setKey, getd, List.find?, h]
  | cons p tl ih =>
      obtain ⟨k1, v1⟩ := p
      by_cases hp : k1 = k
      · subst hp
        have hset : setKey ((k1, v1) :: tl) k1 v = (k1, v) :: tl := by
          simp [setKey]
        rw [hset, getd_cons_ne h, getd_cons_ne h]
      · simp only [setKey, hp, if_false]
        by_cases hq : k1 = k'
        · subst hq
          rw [getd_cons_same, getd_cons_same]
        · rw [getd_cons_ne hq, getd_cons_ne hq, ih]

theorem setKey_of_not_mem {l : List (String × JVal)} {k : String} (v : JVal)
    (h : ∀ p ∈ l, p.1 ≠ k) : setKey l k v = l ++ [(k, v)] := by
  induction l with
  | nil => rfl
  | cons p tl ih =>
      have hp : p.1 ≠ k := h p (List.mem_cons_self ..)
      simp only [setKey, hp, if_false]
      rw [ih fun q hq => h q (List.mem_cons_of_mem _ hq)]
      simp

theorem filter_not_filter {α : Type} (f : α → Bool) (l : List α) :
    (l.filter fun a => !f a).filter (fun a => f a) = [] := by
  induction l with
  | nil => rfl
  | cons a tl ih =>
      by_cases ha : f a
      · simp [List.filter_cons, ha, ih]
      · simp [List.filter_cons, ha, ih]

/-! ## The slot-pass characterization

These lemmas prove the reconciler's write/delete/cleanup pipeline equal to
the per-index specification `expectedSlots`: the slot at global index `i`
is deleted when row `i` is absent or blank-blank, else rewritten by
`writeOutcome`, and the emptiness cleanup drops the fully blanked ones. -/

theorem pyOrBlank_jstr (s : String) : pyOrBlank (.jstr s) = s := by
  by_cases h : s = "" <;> simp [pyOrBlank, pyTruthy, pyStr, h]

theorem pyStrOrEmpty_jstr (s : String) : pyStrOrEmpty (.jstr s) = s := rfl

theorem expectedSlots_cons (act : Nat → Option (String × String)) (off : Nat)
    (sv : SlotV) (tl : List SlotV) :
    expectedSlots act off (sv :: tl) =
      (match slotOutcome act off sv with
       | none => expectedSlots act (off + 1) tl
       | some sv' => sv' :: expectedSlots act (off + 1) tl) := rfl

theorem slotOutcome_none {act : Nat → Option (String × String)} {i : Nat}
    (h : act i = none) (sv : SlotV) : slotOutcome act i sv = none := by
  unfold slotOutcome; rw [h]

theorem slotOutcome_some {act : Nat → Option (String × String)} {i : Nat}
    {r : String × String} (h : act i = some r) (sv : SlotV) :
    slotOutcome act i sv = writeOutcome sv r := by
  unfold slotOutcome; rw [h]

theorem writeOutcome_oldL (raw t b : String) :
    writeOutcome (.oldL raw) (t, b) =
      (if writeOld raw t b = "" then none
       else some (.oldL (writeOld raw t b))) := rfl

theorem writeOutcome_oldS (raw t b : String) :
    writeOutcome (.oldS raw) (t, b) = some (.oldS (writeOld raw t b)) := rfl

theorem expectedOldRaws_cons_none {act : Nat → Option (String × String)}
    {off : Nat} (h : act off = none) (r : String) (tl : List String) :
    expectedOldRaws act off (r :: tl) = expectedOldRaws act (off + 1) tl := by
  conv_lhs => rw [expectedOldRaws]
  rw [h]

theorem expectedOldRaws_cons_some {act : Nat → Option (String × String)}
    {off : Nat} {t b : String} (h : act off = some (t, b))
    (r : String) (tl : List String) :
    expectedOldRaws act off (r :: tl) =
      (if writeOld r t b = "" then expectedOldRaws act (off + 1) tl
       else writeOld r t b :: expectedOldRaws act (off + 1) tl) := by
  conv_lhs => rw [expectedOldRaws]
  rw [h]

theorem expectedSlots_append (act : Nat → Option (String × String))
    (l1 l2 : List SlotV) (off : Nat) :
    expectedSlots act off (l1 ++ l2) =
      expectedSlots act off l1 ++ expectedSlots act (off + l1.length) l2 := by
  induction l1 generalizing off with
  | nil => simp [expectedSlots]
  | cons sv tl ih =>
      have hidx : off + (sv :: tl).length = (off + 1) + tl.length := by
        simp [List.length_cons]; omega
      rw [List.cons_append, expectedSlots_cons, expectedSlots_cons, hidx]
      cases slotOutcome act off sv with
      | none => exact ih (off + 1)
      | some sv' => rw [ih (off + 1)]; rfl

theorem expectedSlots_oldL (act : Nat → Option (String × String))
    (raws : List String) (off : Nat) :
    expectedSlots act off (raws.map SlotV.oldL) =
      (expectedOldRaws act off raws).map SlotV.oldL := by
  induction raws generalizing off with
  | nil => rfl
  | cons r tl ih =>
      rw [List.map_cons, expectedSlots_cons]
      cases hact : act off with
      | none =>
          rw [slotOutcome_none hact, expectedOldRaws_cons_none hact]
          exact ih (off + 1)
      | some p =>
          obtain ⟨t, b⟩ := p
          rw [slotOutcome_some hact, writeOutcome_oldL,
            expectedOldRaws_cons_some hact]
          by_cases hz : writeOld r t b = ""
          · rw [if_pos hz, if_pos hz]
            exact ih (off + 1)
          · rw [if_neg hz, if_neg hz, List.map_cons]
            show SlotV.oldL (writeOld r t b)
                :: expectedSlots act (off + 1) (tl.map SlotV.oldL)
              = SlotV.oldL (writeOld r t b)
                :: (expectedOldRaws act (off + 1) tl).map SlotV.oldL
            rw [ih (off + 1)]

/-- Members of `expectedOldRaws` are non-blank, already-stripped strings. -/
theorem expectedOldRaws_mem (act : Nat → Option (String × String))
    (raws : List String) (off : Nat) :
    ∀ c ∈ expectedOldRaws act off raws, c ≠ "" ∧ pyStrip c = c := by
  induction raws generalizing off with
  | nil => intro c hc; simp [expectedOldRaws] at hc
  | cons r tl ih =>
      intro c hc
      unfold expectedOldRaws at hc
      cases hact : act off with
      | none => rw [hact] at hc; exact ih (off + 1) c hc
      | some p =>
          obtain ⟨t, b⟩ := p
          rw [hact] at hc
          by_cases hz : writeOld r t b = ""
          · simp only [hz, if_pos rfl] at hc
            exact ih (off + 1) c hc
          · simp only [if_neg hz] at hc
            rcases List.mem_cons.mp hc with rfl | hmem
            · exact ⟨hz, writeOld_stripped ..⟩
            · exact ih (off + 1) c hmem

/-- Cleanup of a written string member keeps it iff it is non-blank. -/
theorem cleanupListElem_jstr (c : String) (hstr : pyStrip c = c) :
    cleanupListElem (.jstr c) =
      (if c = "" then none else some (.jstr c)) := by
  unfold cleanupListElem
  rw [pyOrBlank_jstr]
  show (if pyStrip c ≠ "" then some (JVal.jstr (pyStrip c)) else none) = _
  rw [hstr]
  by_cases hz : c = "" <;> simp [hz]

/-- The value-list pass followed by its cleanup yields the expected raws. -/
theorem applyListVals_char (act : Nat → Option (String × String))
    (xs : List JVal) (hwf : ∀ x ∈ xs, ∃ s, x = JVal.jstr s) (off : Nat) :
    (applyListVals act off xs).filterMap cleanupListElem
      = (expectedOldRaws act off (xs.map pyStrOrEmpty)).map JVal.jstr := by
  induction xs generalizing off with
  | nil => rfl
  | cons x tl ih =>
      obtain ⟨s, rfl⟩ := hwf x (List.mem_cons_self ..)
      have htl := ih (fun y hy => hwf y (List.mem_cons_of_mem _ hy))
      rw [List.map_cons, pyStrOrEmpty_jstr]
      unfold applyListVals
      cases hact : act off with
      | none =>
          rw [expectedOldRaws_cons_none hact]
          exact htl (off + 1)
      | some p =>
          obtain ⟨t, b⟩ := p
          rw [expectedOldRaws_cons_some hact]
          show (JVal.jstr (writeOld (pyStrOrEmpty (JVal.jstr s)) t b)
              :: applyListVals act (off + 1) tl).filterMap cleanupListElem = _
          rw [pyStrOrEmpty_jstr, List.filterMap_cons,
            cleanupListElem_jstr _ (writeOld_stripped ..)]
          by_cases hz : writeOld s t b = ""
          · rw [if_pos hz, if_pos hz]
            exact htl (off + 1)
          · rw [if_neg hz, if_neg hz, List.map_cons, htl (off + 1)]

/-! ### The old-style dict pass -/

theorem cleanupOldEntry_jstr (k c : String) (hstr : pyStrip c = c) :
    cleanupOldEntry (k, .jstr c) =
      (if c = "" then none else some (k, .jstr c)) := by
  show (if pyStrip (pyOrBlank (JVal.jstr c)) ≠ "" then
          some (k, JVal.jstr (pyStrip (pyOrBlank (JVal.jstr c)))) else none) = _
  rw [pyOrBlank_jstr, hstr]
  by_cases hz : c = "" <;> simp [hz]

theorem cleanupOldEntry_jarr (k : String) (xs : List JVal) :
    cleanupOldEntry (k, .jarr xs) =
      (if (xs.filterMap cleanupListElem).isEmpty then none
       else some (k, .jarr (xs.filterMap cleanupListElem))) := rfl

theorem applyOldKvs_cons_str (act : Nat → Option (String × String)) (off : Nat)
    (k s : String) (tl : List (String × JVal)) :
    applyOldKvs act off ((k, .jstr s) :: tl) =
      (match act off with
       | none => ((applyOldKvs act (off + 1) tl).1,
                  1 + (applyOldKvs act (off + 1) tl).2)
       | some (t, b) =>
           ((k, .jstr (writeOld s t b)) :: (applyOldKvs act (off + 1) tl).1,
            1 + (applyOldKvs act (off + 1) tl).2)) := rfl

theorem applyOldKvs_cons_arr (act : Nat → Option (String × String)) (off : Nat)
    (k : String) (xs : List JVal) (tl : List (String × JVal)) :
    applyOldKvs act off ((k, .jarr xs) :: tl) =
      ((k, .jarr (applyListVals act off xs))
         :: (applyOldKvs act (off + xs.length) tl).1,
       xs.length + (applyOldKvs act (off + xs.length) tl).2) := rfl

/-- One pass plus cleanup over an old-style dict: the consumed count is the
slot count, and the surviving entries carry exactly the expected slots. -/
theorem applyOldKvs_char (act : Nat → Option (String × String))
    (kvs : List (String × JVal)) (hwf : ∀ p ∈ kvs, wfOldVal p.2 = true)
    (off : Nat) :
    (applyOldKvs act off kvs).2 = (kvs.flatMap fun p => slotsOfVal p.2).length
    ∧ ((applyOldKvs act off kvs).1.filterMap cleanupOldEntry).flatMap
        (fun p => slotsOfVal p.2)
      = expectedSlots act off (kvs.flatMap fun p => slotsOfVal p.2) := by
  induction kvs generalizing off with
  | nil => exact ⟨rfl, rfl⟩
  | cons p tl ih =>
      obtain ⟨k, v⟩ := p
      have hv := hwf (k, v) (List.mem_cons_self ..)
      have htl := ih (fun q hq => hwf q (List.mem_cons_of_mem _ hq))
      cases v with
      | jnull => simp [wfOldVal] at hv
      | jbool b => simp [wfOldVal] at hv
      | jnum l => simp [wfOldVal] at hv
      | jobj l => simp [wfOldVal] at hv
      | jstr s =>
          rw [applyOldKvs_cons_str]
          rw [List.flatMap_cons]
          show _ ∧ _
          cases hact : act off with
          | none =>
              constructor
              · show 1 + (applyOldKvs act (off + 1) tl).2 = _
                rw [(htl (off + 1)).1]
                simp only [List.length_append, List.length_cons,
                  List.length_nil, slotsOfVal]
              · show ((applyOldKvs act (off + 1) tl).1.filterMap
                    cleanupOldEntry).flatMap (fun p => slotsOfVal p.2) = _
                rw [show slotsOfVal (JVal.jstr s) = [SlotV.oldL s] from rfl,
                  List.singleton_append, expectedSlots_cons,
                  slotOutcome_none hact]
                exact (htl (off + 1)).2
          | some r =>
              obtain ⟨t, b⟩ := r
              constructor
              · show 1 + (applyOldKvs act (off + 1) tl).2 = _
                rw [(htl (off + 1)).1]
                simp only [List.length_append, List.length_cons,
                  List.length_nil, slotsOfVal]
              · show (((k, JVal.jstr (writeOld s t b))
                      :: (applyOldKvs act (off + 1) tl).1).filterMap
                    cleanupOldEntry).flatMap (fun p => slotsOfVal p.2) = _
                rw [show slotsOfVal (JVal.jstr s) = [SlotV.oldL s] from rfl,
                  List.singleton_append, expectedSlots_cons,
                  slotOutcome_some hact, writeOutcome_oldL,
                  List.filterMap_cons,
                  cleanupOldEntry_jstr _ _ (writeOld_stripped ..)]
                by_cases hz : writeOld s t b = ""
                · rw [if_pos hz, if_pos hz]
                  exact (htl (off + 1)).2
                · rw [if_neg hz, if_neg hz, List.flatMap_cons,
                    show slotsOfVal (JVal.jstr (writeOld s t b))
                      = [SlotV.oldL (writeOld s t b)] from rfl,
                    List.singleton_append, (htl (off + 1)).2]
      | jarr xs =>
          have hxs : ∀ x ∈ xs, ∃ c, x = JVal.jstr c := by
            simp only [wfOldVal, List.all_eq_true] at hv
            intro x hx
            have := hv x hx
            cases x with
            | jstr c => exact ⟨c, rfl⟩
            | jnull => simp at this
            | jbool b => simp at this
            | jnum l => simp at this
            | jarr l => simp at this
            | jobj l => simp at this
          rw [applyOldKvs_cons_arr, List.flatMap_cons]
          have hmaps : slotsOfVal (JVal.jarr xs)
              = (xs.map pyStrOrEmpty).map SlotV.oldL := by
            show xs.map (fun s => SlotV.oldL (pyStrOrEmpty s)) = _
            rw [List.map_map]
            rfl
          constructor
          · show xs.length + (applyOldKvs act (off + xs.length) tl).2 = _
            rw [(htl (off + xs.length)).1, hmaps]
            simp only [List.length_append, List.length_map]
          · show (((k, JVal.jarr (applyListVals act off xs))
                  :: (applyOldKvs act (off + xs.length) tl).1).filterMap
                cleanupOldEntry).flatMap (fun p => slotsOfVal p.2) = _
            rw [hmaps, List.filterMap_cons, cleanupOldEntry_jarr,
              applyListVals_char act xs hxs off,
              expectedSlots_append, expectedSlots_oldL]
            rw [show ((xs.map pyStrOrEmpty).map SlotV.oldL).length
                = xs.length by simp]
            by_cases hvv :
                ((expectedOldRaws act off (xs.map pyStrOrEmpty)).map
                  JVal.jstr).isEmpty
            · rw [if_pos hvv]
              have he : expectedOldRaws act off (xs.map pyStrOrEmpty) = [] := by
                cases h0 : expectedOldRaws act off (xs.map pyStrOrEmpty) with
                | nil => rfl
                | cons a l => rw [h0] at hvv; simp [List.isEmpty] at hvv
              rw [he]
              simp only [List.map_nil, List.nil_append]
              exact (htl (off + xs.length)).2
            · rw [if_neg hvv, List.flatMap_cons,
                show ∀ vv, slotsOfVal (JVal.jarr vv)
                  = vv.map (fun s => SlotV.oldL (pyStrOrEmpty s))
                  from fun vv => rfl,
                List.map_map, (htl (off + xs.length)).2]
              rfl

/-! ### The old-style list-of-items pass -/

theorem applyItems_cons_obj (act : Nat → Option (String × String)) (off : Nat)
    (ikvs : List (String × JVal)) (tl : List JVal) :
    applyItems act off (.jobj ikvs :: tl) =
      (.jobj (applyOldKvs act off ikvs).1
         :: (applyItems act (off + (applyOldKvs act off ikvs).2) tl).1,
       (applyOldKvs act off ikvs).2
         + (applyItems act (off + (applyOldKvs act off ikvs).2) tl).2) := rfl

theorem itemCleanOf_obj (ikvs : List (String × JVal)) :
    itemCleanOf (.jobj ikvs) =
      (if (ikvs.filterMap cleanupOldEntry).isEmpty then none
       else some (.jobj (ikvs.filterMap cleanupOldEntry))) := rfl

theorem itemSlotsOf_obj (ikvs : List (String × JVal)) :
    itemSlotsOf (.jobj ikvs) = ikvs.flatMap fun p => slotsOfVal p.2 := rfl

/-- One pass plus cleanup over an old-style list container. -/
theorem applyItems_char (act : Nat → Option (String × String))
    (items : List JVal)
    (hwf : ∀ item ∈ items, ∀ ikvs, item = JVal.jobj ikvs →
      ∀ p ∈ ikvs, wfOldVal p.2 = true) (off : Nat) :
    (applyItems act off items).2 = (items.flatMap itemSlotsOf).length
    ∧ (((applyItems act off items).1.filterMap itemCleanOf).flatMap itemSlotsOf)
      = expectedSlots act off (items.flatMap itemSlotsOf) := by
  induction items generalizing off with
  | nil => exact ⟨rfl, rfl⟩
  | cons item tl ih =>
      have htl := ih (fun x hx => hwf x (List.mem_cons_of_mem _ hx))
      cases item with
      | jobj ikvs =>
          have hkvs : ∀ p ∈ ikvs, wfOldVal p.2 = true :=
            hwf (JVal.jobj ikvs) (List.mem_cons_self ..) ikvs rfl
          have hchar := applyOldKvs_char act ikvs hkvs off
          rw [applyItems_cons_obj, List.flatMap_cons, itemSlotsOf_obj]
          constructor
          · rw [List.length_append,
              (htl (off + (applyOldKvs act off ikvs).2)).1, hchar.1]
          · rw [expectedSlots_append, ← hchar.2, ← hchar.1,
              ← (htl (off + (applyOldKvs act off ikvs).2)).2,
              List.filterMap_cons, itemCleanOf_obj]
            by_cases hcl :
                ((applyOldKvs act off ikvs).1.filterMap
                  cleanupOldEntry).isEmpty
            · rw [if_pos hcl]
              have hnil : (applyOldKvs act off ikvs).1.filterMap
                  cleanupOldEntry = [] := by
                cases h0 : (applyOldKvs act off ikvs).1.filterMap
                    cleanupOldEntry with
                | nil => rfl
                | cons a l => rw [h0] at hcl; simp [List.isEmpty] at hcl
              rw [hnil]
              rfl
            · rw [if_neg hcl, List.flatMap_cons, itemSlotsOf_obj]
      | jnull =>
          rw [show applyItems act off (JVal.jnull :: tl)
              = ((JVal.jnull :: (applyItems act off tl).1),
                 (applyItems act off tl).2) from rfl,
            List.flatMap_cons,
            show itemSlotsOf JVal.jnull = [] from rfl, List.nil_append]
          refine ⟨(htl off).1, ?_⟩
          rw [List.filterMap_cons,
            show itemCleanOf JVal.jnull = none from rfl]
          exact (htl off).2
      | jbool b =>
          rw [show applyItems act off (JVal.jbool b :: tl)
              = ((JVal.jbool b :: (applyItems act off tl).1),
                 (applyItems act off tl).2) from rfl,
            List.flatMap_cons,
            show itemSlotsOf (JVal.jbool b) = [] from rfl, List.nil_append]
          refine ⟨(htl off).1, ?_⟩
          rw [List.filterMap_cons,
            show itemCleanOf (JVal.jbool b) = none from rfl]
          exact (htl off).2
      | jnum l =>
          rw [show applyItems act off (JVal.jnum l :: tl)
              = ((JVal.jnum l :: (applyItems act off tl).1),
                 (applyItems act off tl).2) from rfl,
            List.flatMap_cons,
            show itemSlotsOf (JVal.jnum l) = [] from rfl, List.nil_append]
          refine ⟨(htl off).1, ?_⟩
          rw [List.filterMap_cons,
            show itemCleanOf (JVal.jnum l) = none from rfl]
          exact (htl off).2
      | jstr s =>
          rw [show applyItems act off (JVal.jstr s :: tl)
              = ((JVal.jstr s :: (applyItems act off tl).1),
                 (applyItems act off tl).2) from rfl,
            List.flatMap_cons,
            show itemSlotsOf (JVal.jstr s) = [] from rfl, List.nil_append]
          refine ⟨(htl off).1, ?_⟩
          rw [List.filterMap_cons,
            show itemCleanOf (JVal.jstr s) = none from rfl]
          exact (htl off).2
      | jarr l =>
          rw [show applyItems act off (JVal.jarr l :: tl)
              = ((JVal.jarr l :: (applyItems act off tl).1),
                 (applyItems act off tl).2) from rfl,
            List.flatMap_cons,
            show itemSlotsOf (JVal.jarr l) = [] from rfl, List.nil_append]
          refine ⟨(htl off).1, ?_⟩
          rw [List.filterMap_cons,
            show itemCleanOf (JVal.jarr l) = none from rfl]
          exact (htl off).2

/-! ### The new-style dict pass: label bookkeeping -/

theorem filter_as_filterMap (q : α → Bool) (l : List α) :
    l.filter q = l.filterMap (fun a => if q a then some a else none) := by
  induction l with
  | nil => rfl
  | cons a tl ih =>
      rw [List.filter_cons, List.filterMap_cons]
      by_cases hq : q a
      · rw [if_pos hq, if_pos hq, ih]
      · rw [if_neg hq, if_neg hq, ih]

theorem nodupB_cons_mem {k : String} {tl : List String}
    (hnd : nodupB (k :: tl) = true) : k ∉ tl ∧ nodupB tl = true := by
  simp only [nodupB, Bool.and_eq_true, Bool.not_eq_true'] at hnd
  refine ⟨?_, hnd.2⟩
  intro hmem
  have : tl.contains k = true := by
    rw [List.contains_eq_any_beq]
    simp only [List.any_eq_true]
    exact ⟨k, hmem, by simp⟩
  rw [this] at hnd
  exact Bool.noConfusion hnd.1

theorem filterMap_keys_getd {β : Type} (kvs : List (String × JVal)) (d : JVal)
    (f : String → JVal → Option β) (hnd : nodupB (kvs.map (·.1)) = true) :
    (kvs.map (·.1)).filterMap (fun k => f k (getd kvs k d))
      = kvs.filterMap (fun p => f p.1 p.2) := by
  induction kvs with
  | nil => rfl
  | cons p tl ih =>
      obtain ⟨k, v⟩ := p
      rw [List.map_cons] at hnd ⊢
      obtain ⟨hknotin, hndtl⟩ := nodupB_cons_mem hnd
      rw [List.filterMap_cons, List.filterMap_cons, getd_cons_same]
      have htail : (tl.map (·.1)).filterMap
            (fun k' => f k' (getd ((k, v) :: tl) k' d))
          = (tl.map (·.1)).filterMap (fun k' => f k' (getd tl k' d)) := by
        apply List.filterMap_congr
        intro x hx
        have hxk : k ≠ x := fun he => hknotin (he ▸ hx)
        rw [getd_cons_ne hxk]
      rw [htail, ih hndtl]

theorem newSlotLabels_eq (kvs : List (String × JVal))
    (hnd : nodupB (kvs.map (·.1)) = true)
    (hsort : pairwiseLeB labelKeyLe (kvs.map (·.1)) = true) :
    newSlotLabels kvs = kvs.filterMap newKeyOf := by
  show (sortLabelKeys (kvs.map (·.1))).filter _ = _
  rw [show sortLabelKeys (kvs.map (·.1))
      = insSortBy labelKeyLe (kvs.map (·.1)) from rfl,
    insSortBy_eq_self (pairwiseLeB_pairwise hsort),
    filter_as_filterMap]
  rw [show (kvs.filterMap newKeyOf)
      = kvs.filterMap (fun p => match p.2 with
          | JVal.jobj _ => some p.1
          | _ => none) from rfl]
  rw [← filterMap_keys_getd kvs (.jobj []) (fun k v =>
      match v with
      | JVal.jobj _ => some k
      | _ => none) hnd]
  apply List.filterMap_congr
  intro x hx
  cases hg : getd kvs x (.jobj []) <;> simp

theorem pairwise_pairwiseLeB {le : α → α → Bool} {l : List α}
    (h : l.Pairwise (le · ·)) : pairwiseLeB le l = true := by
  induction l with
  | nil => rfl
  | cons a tl ih =>
      rw [List.pairwise_cons] at h
      unfold pairwiseLeB
      rw [Bool.and_eq_true, List.all_eq_true]
      exact ⟨fun b hb => h.1 b hb, ih h.2⟩

theorem nodupB_iff {l : List String} : nodupB l = true ↔ l.Nodup := by
  induction l with
  | nil => simp [nodupB]
  | cons a tl ih =>
      constructor
      · intro h
        obtain ⟨hna, htl⟩ := nodupB_cons_mem h
        exact List.nodup_cons.mpr ⟨hna, ih.mp htl⟩
      · intro h
        obtain ⟨hna, htl⟩ := List.nodup_cons.mp h
        unfold nodupB
        rw [Bool.and_eq_true]
        constructor
        · rw [Bool.not_eq_true']
          cases hc : tl.contains a
          · rfl
          · exfalso
            rw [List.contains_eq_any_beq, List.any_eq_true] at hc
            obtain ⟨x, hxm, hxe⟩ := hc
            rw [beq_iff_eq] at hxe
            exact hna (hxe ▸ hxm)
        · exact ih.mpr htl

theorem nodupB_sublist {l l' : List String} (hs : l'.Sublist l)
    (h : nodupB l = true) : nodupB l' = true :=
  nodupB_iff.mpr (List.Nodup.sublist hs (nodupB_iff.mp h))

theorem pairwiseLeB_sublist {le : α → α → Bool} {l l' : List α}
    (hs : l'.Sublist l) (h : pairwiseLeB le l = true) :
    pairwiseLeB le l' = true :=
  pairwise_pairwiseLeB (List.Pairwise.sublist hs (pairwiseLeB_pairwise h))

theorem newKey_newSlot_length (kvs : List (String × JVal)) :
    (kvs.filterMap newKeyOf).length = (kvs.filterMap newSlotOf).length := by
  induction kvs with
  | nil => rfl
  | cons p tl ih =>
      obtain ⟨k, v⟩ := p
      rw [List.filterMap_cons, List.filterMap_cons]
      cases v <;> simp [newKeyOf, newSlotOf, ih]

theorem applyNewKvs_cons_obj (act : Nat → Option (String × String)) (off : Nat)
    (L : List String) (k1 : String) (inner : List (String × JVal))
    (tl : List (String × JVal)) :
    applyNewKvs act off L ((k1, JVal.jobj inner) :: tl) =
      (match L.findIdx? (· = k1) with
       | some i =>
           (match act (off + i) with
            | none => applyNewKvs act off L tl
            | some (t, s) =>
                (k1, JVal.jobj (writeNew inner t s)) :: applyNewKvs act off L tl)
       | none => (k1, JVal.jobj inner) :: applyNewKvs act off L tl) := rfl

theorem applyNewDirect_cons_obj (act : Nat → Option (String × String))
    (off : Nat) (k1 : String) (inner : List (String × JVal))
    (tl : List (String × JVal)) :
    applyNewDirect act off ((k1, JVal.jobj inner) :: tl) =
      (match act off with
       | none => applyNewDirect act (off + 1) tl
       | some (t, s) =>
           (k1, JVal.jobj (writeNew inner t s))
             :: applyNewDirect act (off + 1) tl) := rfl

/-- A label absent from every entry shifts the write window by one. -/
theorem applyNewKvs_shift (act : Nat → Option (String × String)) (off : Nat)
    (k : String) (rest : List String) (kvs : List (String × JVal))
    (hobj : ∀ p ∈ kvs, ∃ inner, p.2 = JVal.jobj inner)
    (hk : ∀ p ∈ kvs, p.1 ≠ k) :
    applyNewKvs act off (k :: rest) kvs
      = applyNewKvs act (off + 1) rest kvs := by
  induction kvs with
  | nil => rfl
  | cons p tl ih =>
      obtain ⟨k1, v⟩ := p
      obtain ⟨inner, hv⟩ := hobj (k1, v) (List.mem_cons_self ..)
      have hv2 : v = JVal.jobj inner := hv
      subst hv2
      have hne : ¬(k1 = k) := hk (k1, JVal.jobj inner) (List.mem_cons_self ..)
      have htl := ih (fun q hq => hobj q (List.mem_cons_of_mem _ hq))
                     (fun q hq => hk q (List.mem_cons_of_mem _ hq))
      rw [applyNewKvs_cons_obj, applyNewKvs_cons_obj]
      have hcons : (k :: rest).findIdx? (· = k1)
          = Option.map (· + 1) (rest.findIdx? (· = k1)) := by
        rw [List.findIdx?_cons,
          if_neg (by simp only [decide_eq_true_eq]; exact fun h => hne h.symm),
          List.findIdx?_succ]
      rw [hcons]
      cases hf : rest.findIdx? (· = k1) with
      | none =>
          show (k1, JVal.jobj inner) :: applyNewKvs act off (k :: rest) tl
            = (k1, JVal.jobj inner) :: applyNewKvs act (off + 1) rest tl
          rw [htl]
      | some i =>
          show (match act (off + (i + 1)) with
                | none => applyNewKvs act off (k :: rest) tl
                | some (t, s) =>
                    (k1, JVal.jobj (writeNew inner t s))
                      :: applyNewKvs act off (k :: rest) tl)
              = (match act (off + 1 + i) with
                | none => applyNewKvs act (off + 1) rest tl
                | some (t, s) =>
                    (k1, JVal.jobj (writeNew inner t s))
                      :: applyNewKvs act (off + 1) rest tl)
          rw [show off + (i + 1) = off + 1 + i from by omega]
          cases act (off + 1 + i) with
          | none => exact htl
          | some r => obtain ⟨t, s⟩ := r; rw [htl]

/-- Over duplicate-free all-record dicts, the label-indexed walk is the
direct sequential walk. -/
theorem applyNewKvs_eq_direct (act : Nat → Option (String × String))
    (kvs : List (String × JVal))
    (hobj : ∀ p ∈ kvs, ∃ inner, p.2 = JVal.jobj inner)
    (hnd : nodupB (kvs.map (·.1)) = true) (off : Nat) :
    applyNewKvs act off (kvs.filterMap newKeyOf) kvs
      = applyNewDirect act off kvs := by
  induction kvs generalizing off with
  | nil => rfl
  | cons p tl ih =>
      obtain ⟨k1, v⟩ := p
      obtain ⟨inner, hv⟩ := hobj (k1, v) (List.mem_cons_self ..)
      have hv2 : v = JVal.jobj inner := hv
      subst hv2
      rw [List.map_cons] at hnd
      obtain ⟨hknotin, hndtl⟩ := nodupB_cons_mem hnd
      have htlobj : ∀ q ∈ tl, ∃ inner2, q.2 = JVal.jobj inner2 :=
        fun q hq => hobj q (List.mem_cons_of_mem _ hq)
      rw [List.filterMap_cons,
        show newKeyOf (k1, JVal.jobj inner) = some k1 from rfl,
        applyNewKvs_cons_obj, applyNewDirect_cons_obj]
      have hfind : (k1 :: tl.filterMap newKeyOf).findIdx? (· = k1) = some 0 := by
        rw [List.findIdx?_cons, if_pos (by simp)]
      rw [hfind]
      have hshift : applyNewKvs act off (k1 :: tl.filterMap newKeyOf) tl
          = applyNewKvs act (off + 1) (tl.filterMap newKeyOf) tl := by
        refine applyNewKvs_shift act off k1 _ tl htlobj ?_
        intro q hq heq
        exact hknotin (heq ▸ List.mem_map_of_mem (·.1) hq)
      show (match act (off + 0) with
            | none => applyNewKvs act off (k1 :: tl.filterMap newKeyOf) tl
            | some (t, s) =>
                (k1, JVal.jobj (writeNew inner t s))
                  :: applyNewKvs act off (k1 :: tl.filterMap newKeyOf) tl) = _
      rw [Nat.add_zero]
      cases act off with
      | none => rw [hshift]; exact ih htlobj hndtl (off + 1)
      | some r =>
          obtain ⟨t, s⟩ := r
          rw [hshift, ih htlobj hndtl (off + 1)]

/-! ### The new-style write and its cleanup -/

theorem pyStrip_eq_self {s : String}
    (hh : ∀ c ∈ s.data.head?, Char.isWhitespace c = false)
    (hl : ∀ c ∈ s.data.getLast?, Char.isWhitespace c = false) :
    pyStrip s = s := by
  show (⟨stripChars s.data⟩ : String) = s
  rw [stripChars_eq_self hh hl]

theorem pyStrip_bracket (u : String) :
    pyStrip ("[" ++ u ++ "]") = "[" ++ u ++ "]" := by
  have hdata : ("[" ++ u ++ "]").data = '[' :: (u.data ++ [']']) := by
    show ("[".data ++ u.data) ++ "]".data = _
    simp
  refine pyStrip_eq_self ?_ ?_
  · rw [hdata]
    intro c hc
    rw [List.head?_cons, Option.mem_some_iff] at hc
    subst hc
    decide
  · rw [hdata]
    intro c hc
    rw [show '[' :: (u.data ++ [']']) = ('[' :: u.data) ++ [']'] by simp,
      List.getLast?_concat, Option.mem_some_iff] at hc
    subst hc
    decide

theorem cleanupNewEntry_obj (k : String) (x : List (String × JVal)) :
    cleanupNewEntry (k, .jobj x) =
      (if pyStrip (pyOrBlank (getd x "feature" (.jstr ""))) = ""
          && pyStrip (pyOrBlank (getd x "sent" (.jstr ""))) = "" then none
       else some (k, .jobj
          [("feature", .jstr (pyStrip (pyOrBlank (getd x "feature" (.jstr ""))))),
           ("sent", .jstr (pyStrip (pyOrBlank (getd x "sent" (.jstr "")))))])) := rfl

theorem cleanupNewEntry_setKeys (k : String) (inner : List (String × JVal))
    (fo so : String) (hfo : pyStrip fo = fo) (hso : pyStrip so = so) :
    cleanupNewEntry (k, .jobj (setKey (setKey inner "feature" (.jstr fo))
        "sent" (.jstr so))) =
      (if fo = "" && so = "" then none
       else some (k, .jobj [("feature", .jstr fo), ("sent", .jstr so)])) := by
  rw [cleanupNewEntry_obj, getd_setKey_same,
    getd_setKey_ne (show "sent" ≠ "feature" by decide), getd_setKey_same,
    pyOrBlank_jstr, pyOrBlank_jstr, hfo, hso]

theorem writeNew_eq (inner : List (String × JVal)) (t b : String) :
    writeNew inner t b =
      setKey (setKey inner "feature" (.jstr
        (if pyStrip t ≠ "" then
        (if unwrapTypeCell (pyStrip t) ≠ ""
         then "[" ++ unwrapTypeCell (pyStrip t) ++ "]" else "")
      else pyStrip (pyStrOrEmpty (getd inner "feature" JVal.jnull))))) "sent" (.jstr
        (if pyStrip b ≠ "" then pyStrip b
      else pyStrip (pyStrOrEmpty (getd inner "sent" JVal.jnull)))) := rfl

theorem writeOutcome_newS (f s t b : String) :
    writeOutcome (.newS f s) (t, b) =
      (if (if pyStrip t ≠ "" then
            (if unwrapTypeCell (pyStrip t) ≠ ""
             then "[" ++ unwrapTypeCell (pyStrip t) ++ "]" else "")
           else pyStrip f) = ""
          && (if pyStrip b ≠ "" then pyStrip b else pyStrip s) = "" then none
       else some (.newS
          (if pyStrip t ≠ "" then
            (if unwrapTypeCell (pyStrip t) ≠ ""
             then "[" ++ unwrapTypeCell (pyStrip t) ++ "]" else "")
           else pyStrip f)
          (if pyStrip b ≠ "" then pyStrip b else pyStrip s))) := rfl

/-- The cleanup of a written new-style entry is the `writeOutcome` of its
slot snapshot, re-materialized as a canonical record. -/
theorem cleanupNewEntry_writeNew (k : String) (inner : List (String × JVal))
    (t b : String) :
    cleanupNewEntry (k, .jobj (writeNew inner t b)) =
      (match writeOutcome
          (.newS (pyStrOrEmpty (getd inner "feature" .jnull))
                 (pyStrOrEmpty (getd inner "sent" .jnull))) (t, b) with
       | some (SlotV.newS f' s') =>
           some (k, JVal.jobj [("feature", .jstr f'), ("sent", .jstr s')])
       | _ => none) := by
  have hfo : pyStrip
      (if pyStrip t ≠ "" then
        (if unwrapTypeCell (pyStrip t) ≠ ""
         then "[" ++ unwrapTypeCell (pyStrip t) ++ "]" else "")
      else pyStrip (pyStrOrEmpty (getd inner "feature" JVal.jnull))) =
      (if pyStrip t ≠ "" then
        (if unwrapTypeCell (pyStrip t) ≠ ""
         then "[" ++ unwrapTypeCell (pyStrip t) ++ "]" else "")
      else pyStrip (pyStrOrEmpty (getd inner "feature" JVal.jnull))) := by
    apply pyStrip_ite
    · apply pyStrip_ite
      · exact pyStrip_bracket _
      · rfl
    · exact pyStrip_idem _
  have hso : pyStrip
      (if pyStrip b ≠ "" then pyStrip b
      else pyStrip (pyStrOrEmpty (getd inner "sent" JVal.jnull))) =
      (if pyStrip b ≠ "" then pyStrip b
      else pyStrip (pyStrOrEmpty (getd inner "sent" JVal.jnull))) := by
    apply pyStrip_ite
    · exact pyStrip_idem _
    · exact pyStrip_idem _
  rw [writeNew_eq, cleanupNewEntry_setKeys k inner _ _ hfo hso,
    writeOutcome_newS]
  by_cases hc : ((if pyStrip t ≠ "" then
        (if unwrapTypeCell (pyStrip t) ≠ ""
         then "[" ++ unwrapTypeCell (pyStrip t) ++ "]" else "")
      else pyStrip (pyStrOrEmpty (getd inner "feature" JVal.jnull))) = ""
      && (if pyStrip b ≠ "" then pyStrip b
      else pyStrip (pyStrOrEmpty (getd inner "sent" JVal.jnull))) = "") = true
  · rw [if_pos hc, if_pos hc]
  · rw [if_neg hc, if_neg hc]

theorem expectedNewKvs_cons_obj (act : Nat → Option (String × String))
    (off : Nat) (k1 : String) (inner : List (String × JVal))
    (tl : List (String × JVal)) :
    expectedNewKvs act off ((k1, JVal.jobj inner) :: tl) =
      (match slotOutcome act off
          (.newS (pyStrOrEmpty (getd inner "feature" .jnull))
                 (pyStrOrEmpty (getd inner "sent" .jnull))) with
       | some (SlotV.newS f' s') =>
           (k1, JVal.jobj [("feature", .jstr f'), ("sent", .jstr s')])
             :: expectedNewKvs act (off + 1) tl
       | _ => expectedNewKvs act (off + 1) tl) := rfl

theorem newSlotOf_canon (k f s : String) :
    newSlotOf (k, .jobj [("feature", .jstr f), ("sent", .jstr s)])
      = some (.newS f s) := rfl

/-- The write pass plus entry cleanup over an all-record dict. -/
theorem applyNewDirect_char (act : Nat → Option (String × String))
    (kvs : List (String × JVal))
    (hobj : ∀ p ∈ kvs, ∃ inner, p.2 = JVal.jobj inner) (off : Nat) :
    (applyNewDirect act off kvs).filterMap cleanupNewEntry
      = expectedNewKvs act off kvs := by
  induction kvs generalizing off with
  | nil => rfl
  | cons p tl ih =>
      obtain ⟨k1, v⟩ := p
      obtain ⟨inner, hv⟩ := hobj (k1, v) (List.mem_cons_self ..)
      have hv2 : v = JVal.jobj inner := hv
      subst hv2
      have htl := ih (fun q hq => hobj q (List.mem_cons_of_mem _ hq))
      rw [applyNewDirect_cons_obj, expectedNewKvs_cons_obj]
      cases hact : act off with
      | none =>
          rw [slotOutcome_none hact]
          exact htl (off + 1)
      | some r =>
          obtain ⟨t, b⟩ := r
          rw [slotOutcome_some hact]
          show ((k1, JVal.jobj (writeNew inner t b))
              :: applyNewDirect act (off + 1) tl).filterMap cleanupNewEntry = _
          rw [List.filterMap_cons, cleanupNewEntry_writeNew, writeOutcome_newS]
          by_cases hc : ((if pyStrip t ≠ "" then
                (if unwrapTypeCell (pyStrip t) ≠ ""
                 then "[" ++ unwrapTypeCell (pyStrip t) ++ "]" else "")
               else pyStrip (pyStrOrEmpty (getd inner "feature" JVal.jnull))) = ""
              && (if pyStrip b ≠ "" then pyStrip b
                  else pyStrip (pyStrOrEmpty (getd inner "sent" JVal.jnull)))
                 = "") = true
          · rw [if_pos hc]
            exact htl (off + 1)
          · rw [if_neg hc]
            show (k1, JVal.jobj [("feature", _), ("sent", _)])
                :: (applyNewDirect act (off + 1) tl).filterMap cleanupNewEntry
              = _
            rw [htl (off + 1)]

/-- Every expected entry is a canonical `{feature, sent}` record. -/
theorem expectedNewKvs_canon (act : Nat → Option (String × String))
    (kvs : List (String × JVal)) (off : Nat) :
    ∀ q ∈ expectedNewKvs act off kvs,
      ∃ f s, q.2 = JVal.jobj [("feature", .jstr f), ("sent", .jstr s)] := by
  induction kvs generalizing off with
  | nil => intro q hq; exact absurd hq (List.not_mem_nil q)
  | cons p tl ih =>
      obtain ⟨k1, v⟩ := p
      cases v with
      | jobj inner =>
          rw [expectedNewKvs_cons_obj]
          cases hso : slotOutcome act off
              (.newS (pyStrOrEmpty (getd inner "feature" .jnull))
                     (pyStrOrEmpty (getd inner "sent" .jnull))) with
          | none => exact ih (off + 1)
          | some sv =>
              cases sv with
              | newS f' s' =>
                  intro q hq
                  rcases List.mem_cons.mp hq with hq | hq
                  · exact ⟨f', s', by rw [hq]⟩
                  · exact ih (off + 1) q hq
              | oldL raw => exact ih (off + 1)
              | oldS raw => exact ih (off + 1)
      | jnull => exact ih off
      | jbool b => exact ih off
      | jnum l => exact ih off
      | jstr s => exact ih off
      | jarr l => exact ih off

/-- Expected keys are a sublist of the original keys. -/
theorem expectedNewKvs_keys_sublist (act : Nat → Option (String × String))
    (kvs : List (String × JVal)) (off : Nat) :
    ((expectedNewKvs act off kvs).map (·.1)).Sublist (kvs.map (·.1)) := by
  induction kvs generalizing off with
  | nil => exact List.Sublist.refl _
  | cons p tl ih =>
      obtain ⟨k1, v⟩ := p
      rw [List.map_cons]
      cases v with
      | jobj inner =>
          rw [expectedNewKvs_cons_obj]
          cases hso : slotOutcome act off
              (.newS (pyStrOrEmpty (getd inner "feature" .jnull))
                     (pyStrOrEmpty (getd inner "sent" .jnull))) with
          | none => exact List.Sublist.cons _ (ih (off + 1))
          | some sv =>
              cases sv with
              | newS f' s' =>
                  rw [List.map_cons]
                  exact List.Sublist.cons₂ _ (ih (off + 1))
              | oldL raw => exact List.Sublist.cons _ (ih (off + 1))
              | oldS raw => exact List.Sublist.cons _ (ih (off + 1))
      | jnull => exact List.Sublist.cons _ (ih off)
      | jbool b => exact List.Sublist.cons _ (ih off)
      | jnum l => exact List.Sublist.cons _ (ih off)
      | jstr s => exact List.Sublist.cons _ (ih off)
      | jarr l => exact List.Sublist.cons _ (ih off)

/-- The expected entries carry exactly the expected slots. -/
theorem expectedNewKvs_slots (act : Nat → Option (String × String))
    (kvs : List (String × JVal)) (off : Nat) :
    (expectedNewKvs act off kvs).filterMap newSlotOf
      = expectedSlots act off (kvs.filterMap newSlotOf) := by
  induction kvs generalizing off with
  | nil => rfl
  | cons p tl ih =>
      obtain ⟨k1, v⟩ := p
      cases v with
      | jobj inner =>
          rw [expectedNewKvs_cons_obj, List.filterMap_cons,
            show newSlotOf (k1, JVal.jobj inner)
              = some (.newS (pyStrOrEmpty (getd inner "feature" .jnull))
                            (pyStrOrEmpty (getd inner "sent" .jnull))) from rfl,
            expectedSlots_cons]
          cases hso : slotOutcome act off
              (.newS (pyStrOrEmpty (getd inner "feature" .jnull))
                     (pyStrOrEmpty (getd inner "sent" .jnull))) with
          | none => exact ih (off + 1)
          | some sv =>
              cases hact : act off with
              | none =>
                  rw [slotOutcome_none hact] at hso
                  exact Option.noConfusion hso
              | some r =>
                  obtain ⟨t, b⟩ := r
                  rw [slotOutcome_some hact, writeOutcome_newS] at hso
                  by_cases hc : ((if pyStrip t ≠ "" then
                        (if unwrapTypeCell (pyStrip t) ≠ ""
                         then "[" ++ unwrapTypeCell (pyStrip t) ++ "]" else "")
                       else pyStrip (pyStrOrEmpty
                          (getd inner "feature" JVal.jnull))) = ""
                      && (if pyStrip b ≠ "" then pyStrip b
                          else pyStrip (pyStrOrEmpty
                            (getd inner "sent" JVal.jnull))) = "") = true
                  · rw [if_pos hc] at hso
                    exact Option.noConfusion hso
                  · rw [if_neg hc] at hso
                    have hsv := (Option.some.inj hso).symm
                    subst hsv
                    rw [List.filterMap_cons, newSlotOf_canon, ih (off + 1)]
      | jnull =>
          rw [List.filterMap_cons,
            show newSlotOf (k1, JVal.jnull) = none from rfl]
          exact ih off
      | jbool b =>
          rw [List.filterMap_cons,
            show newSlotOf (k1, JVal.jbool b) = none from rfl]
          exact ih off
      | jnum l =>
          rw [List.filterMap_cons,
            show newSlotOf (k1, JVal.jnum l) = none from rfl]
          exact ih off
      | jstr s =>
          rw [List.filterMap_cons,
            show newSlotOf (k1, JVal.jstr s) = none from rfl]
          exact ih off
      | jarr l =>
          rw [List.filterMap_cons,
            show newSlotOf (k1, JVal.jarr l) = none from rfl]
          exact ih off

/-! ### Shape facts feeding the per-value characterization -/

theorem hasKey_setKey_same (l : List (String × JVal)) (k : String) (v : JVal) :
    hasKey (setKey l k v) k = true := by
  induction l with
  | nil => simp [setKey, hasKey]
  | cons p tl ih =>
      obtain ⟨k1, v1⟩ := p
      by_cases h : k1 = k
      · subst h
        simp [setKey, hasKey]
      · simp only [setKey, h, if_false, hasKey, List.any_cons]
        simp only [hasKey] at ih
        simp [ih]

theorem isNewStyle_of_head_written (k2 : String)
    (inner : List (String × JVal)) (t s : String)
    (rest : List (String × JVal)) :
    isNewStyle ((k2, JVal.jobj (writeNew inner t s)) :: rest) = true := by
  unfold isNewStyle
  rw [List.any_cons]
  apply Bool.or_eq_true_iff.mpr
  left
  show (hasKey (writeNew inner t s) "sent"
      || hasKey (writeNew inner t s) "feature") = true
  apply Bool.or_eq_true_iff.mpr
  left
  rw [writeNew_eq]
  exact hasKey_setKey_same ..

theorem isNewStyle_canon_cons (k : String) (f s : String)
    (rest : List (String × JVal)) :
    isNewStyle ((k, JVal.jobj [("feature", .jstr f), ("sent", .jstr s)])
      :: rest) = true := by
  unfold isNewStyle
  rw [List.any_cons]
  apply Bool.or_eq_true_iff.mpr
  left
  show (hasKey [("feature", JVal.jstr f), ("sent", JVal.jstr s)] "sent"
      || hasKey [("feature", JVal.jstr f), ("sent", JVal.jstr s)] "feature")
      = true
  simp [hasKey]

theorem isNewStyle_false_of_no_obj {kvs : List (String × JVal)}
    (h : ∀ p ∈ kvs, ∀ inner, p.2 ≠ JVal.jobj inner) :
    isNewStyle kvs = false := by
  unfold isNewStyle
  rw [List.any_eq_false]
  intro p hp
  cases hv : p.2 with
  | jobj inner => exact absurd hv (h p hp inner)
  | jnull => exact fun hh => Bool.noConfusion hh
  | jbool b => exact fun hh => Bool.noConfusion hh
  | jnum l => exact fun hh => Bool.noConfusion hh
  | jstr s => exact fun hh => Bool.noConfusion hh
  | jarr l => exact fun hh => Bool.noConfusion hh

theorem applyNewDirect_entries (act : Nat → Option (String × String))
    (kvs : List (String × JVal))
    (hobj : ∀ p ∈ kvs, ∃ inner, p.2 = JVal.jobj inner) (off : Nat) :
    ∀ q ∈ applyNewDirect act off kvs,
      ∃ k2 inner t s, q = (k2, JVal.jobj (writeNew inner t s)) := by
  induction kvs generalizing off with
  | nil => intro q hq; exact absurd hq (List.not_mem_nil q)
  | cons p tl ih =>
      obtain ⟨k1, v⟩ := p
      obtain ⟨inner, hv⟩ := hobj (k1, v) (List.mem_cons_self ..)
      have hv2 : v = JVal.jobj inner := hv
      subst hv2
      have htl := ih (fun q hq => hobj q (List.mem_cons_of_mem _ hq))
      rw [applyNewDirect_cons_obj]
      cases act off with
      | none => exact htl (off + 1)
      | some r =>
          obtain ⟨t, b⟩ := r
          intro q hq
          rcases List.mem_cons.mp hq with hq | hq
          · exact ⟨k1, inner, t, b, hq⟩
          · exact htl (off + 1) q hq

theorem applyOldKvs_entries (act : Nat → Option (String × String))
    (kvs : List (String × JVal))
    (hwf : ∀ p ∈ kvs, wfOldVal p.2 = true) (off : Nat) :
    ∀ q ∈ (applyOldKvs act off kvs).1,
      ∀ inner, q.2 ≠ JVal.jobj inner := by
  induction kvs generalizing off with
  | nil => intro q hq; exact absurd hq (List.not_mem_nil q)
  | cons p tl ih =>
      obtain ⟨k, v⟩ := p
      have hv := hwf (k, v) (List.mem_cons_self ..)
      have htl := ih (fun q hq => hwf q (List.mem_cons_of_mem _ hq))
      cases v with
      | jnull => simp [wfOldVal] at hv
      | jbool b => simp [wfOldVal] at hv
      | jnum l => simp [wfOldVal] at hv
      | jobj l => simp [wfOldVal] at hv
      | jstr s =>
          rw [applyOldKvs_cons_str]
          cases act off with
          | none => exact htl (off + 1)
          | some r =>
              obtain ⟨t, b⟩ := r
              intro q hq
              rcases List.mem_cons.mp hq with hq | hq
              · rw [hq]; intro inner; exact fun h => JVal.noConfusion h
              · exact htl (off + 1) q hq
      | jarr xs =>
          rw [applyOldKvs_cons_arr]
          intro q hq
          rcases List.mem_cons.mp hq with hq | hq
          · rw [hq]; intro inner; exact fun h => JVal.noConfusion h
          · exact htl (off + xs.length) q hq

theorem cleanupOldEntry_not_obj (k : String) (v : JVal)
    (q : String × JVal) (h : cleanupOldEntry (k, v) = some q) :
    ∀ inner, q.2 ≠ JVal.jobj inner := by
  cases v with
  | jarr xs =>
      rw [cleanupOldEntry_jarr] at h
      by_cases he : (xs.filterMap cleanupListElem).isEmpty
      · rw [if_pos he] at h; exact Option.noConfusion h
      · rw [if_neg he] at h
        rw [← Option.some.inj h]
        intro inner
        exact fun hh => JVal.noConfusion hh
  | jstr s =>
      have h2 : (if pyStrip (pyOrBlank (JVal.jstr s)) ≠ "" then
          some (k, JVal.jstr (pyStrip (pyOrBlank (JVal.jstr s)))) else none)
          = some q := h
      by_cases hz : pyStrip (pyOrBlank (JVal.jstr s)) ≠ ""
      · rw [if_pos hz] at h2
        rw [← Option.some.inj h2]
        intro inner
        exact fun hh => JVal.noConfusion hh
      · rw [if_neg hz] at h2; exact Option.noConfusion h2
  | jnull =>
      have h2 : (if pyStrip (pyOrBlank JVal.jnull) ≠ "" then
          some (k, JVal.jstr (pyStrip (pyOrBlank JVal.jnull))) else none)
          = some q := h
      by_cases hz : pyStrip (pyOrBlank JVal.jnull) ≠ ""
      · rw [if_pos hz] at h2
        rw [← Option.some.inj h2]
        intro inner
        exact fun hh => JVal.noConfusion hh
      · rw [if_neg hz] at h2; exact Option.noConfusion h2
  | jbool b =>
      have h2 : (if pyStrip (pyOrBlank (JVal.jbool b)) ≠ "" then
          some (k, JVal.jstr (pyStrip (pyOrBlank (JVal.jbool b)))) else none)
          = some q := h
      by_cases hz : pyStrip (pyOrBlank (JVal.jbool b)) ≠ ""
      · rw [if_pos hz] at h2
        rw [← Option.some.inj h2]
        intro inner
        exact fun hh => JVal.noConfusion hh
      · rw [if_neg hz] at h2; exact Option.noConfusion h2
  | jnum l =>
      have h2 : (if pyStrip (pyOrBlank (JVal.jnum l)) ≠ "" then
          some (k, JVal.jstr (pyStrip (pyOrBlank (JVal.jnum l)))) else none)
          = some q := h
      by_cases hz : pyStrip (pyOrBlank (JVal.jnum l)) ≠ ""
      · rw [if_pos hz] at h2
        rw [← Option.some.inj h2]
        intro inner
        exact fun hh => JVal.noConfusion hh
      · rw [if_neg hz] at h2; exact Option.noConfusion h2
  | jobj l =>
      have h2 : (if pyStrip (pyOrBlank (JVal.jobj l)) ≠ "" then
          some (k, JVal.jstr (pyStrip (pyOrBlank (JVal.jobj l)))) else none)
          = some q := h
      by_cases hz : pyStrip (pyOrBlank (JVal.jobj l)) ≠ ""
      · rw [if_pos hz] at h2
        rw [← Option.some.inj h2]
        intro inner
        exact fun hh => JVal.noConfusion hh
      · rw [if_neg hz] at h2; exact Option.noConfusion h2

theorem cleanupListElem_shape (s : JVal) (y : JVal)
    (h : cleanupListElem s = some y) : ∃ c, y = JVal.jstr c := by
  have h2 : (if pyStrip (pyOrBlank s) ≠ "" then
      some (JVal.jstr (pyStrip (pyStr s))) else none) = some y := h
  by_cases hz : pyStrip (pyOrBlank s) ≠ ""
  · rw [if_pos hz] at h2
    exact ⟨pyStrip (pyStr s), (Option.some.inj h2).symm⟩
  · rw [if_neg hz] at h2
    exact Option.noConfusion h2

theorem cleanupOldEntry_wf (k : String) (v : JVal) (q : String × JVal)
    (h : cleanupOldEntry (k, v) = some q) : wfOldVal q.2 = true := by
  cases v with
  | jarr xs =>
      rw [cleanupOldEntry_jarr] at h
      by_cases he : (xs.filterMap cleanupListElem).isEmpty
      · rw [if_pos he] at h; exact Option.noConfusion h
      · rw [if_neg he] at h
        rw [← Option.some.inj h]
        show wfOldVal (JVal.jarr (xs.filterMap cleanupListElem)) = true
        unfold wfOldVal
        rw [List.all_eq_true]
        intro x hx
        obtain ⟨a, _, ha⟩ := List.mem_filterMap.mp hx
        obtain ⟨c, hc⟩ := cleanupListElem_shape a x ha
        rw [hc]
  | jstr s =>
      have h2 : (if pyStrip (pyOrBlank (JVal.jstr s)) ≠ "" then
          some (k, JVal.jstr (pyStrip (pyOrBlank (JVal.jstr s)))) else none)
          = some q := h
      by_cases hz : pyStrip (pyOrBlank (JVal.jstr s)) ≠ ""
      · rw [if_pos hz] at h2
        rw [← Option.some.inj h2]
        rfl
      · rw [if_neg hz] at h2; exact Option.noConfusion h2
  | jnull =>
      have h2 : (if pyStrip (pyOrBlank JVal.jnull) ≠ "" then
          some (k, JVal.jstr (pyStrip (pyOrBlank JVal.jnull))) else none)
          = some q := h
      by_cases hz : pyStrip (pyOrBlank JVal.jnull) ≠ ""
      · rw [if_pos hz] at h2
        rw [← Option.some.inj h2]
        rfl
      · rw [if_neg hz] at h2; exact Option.noConfusion h2
  | jbool b =>
      have h2 : (if pyStrip (pyOrBlank (JVal.jbool b)) ≠ "" then
          some (k, JVal.jstr (pyStrip (pyOrBlank (JVal.jbool b)))) else none)
          = some q := h
      by_cases hz : pyStrip (pyOrBlank (JVal.jbool b)) ≠ ""
      · rw [if_pos hz] at h2
        rw [← Option.some.inj h2]
        rfl
      · rw [if_neg hz] at h2; exact Option.noConfusion h2
  | jnum l =>
      have h2 : (if pyStrip (pyOrBlank (JVal.jnum l)) ≠ "" then
          some (k, JVal.jstr (pyStrip (pyOrBlank (JVal.jnum l)))) else none)
          = some q := h
      by_cases hz : pyStrip (pyOrBlank (JVal.jnum l)) ≠ ""
      · rw [if_pos hz] at h2
        rw [← Option.some.inj h2]
        rfl
      · rw [if_neg hz] at h2; exact Option.noConfusion h2
  | jobj l =>
      have h2 : (if pyStrip (pyOrBlank (JVal.jobj l)) ≠ "" then
          some (k, JVal.jstr (pyStrip (pyOrBlank (JVal.jobj l)))) else none)
          = some q := h
      by_cases hz : pyStrip (pyOrBlank (JVal.jobj l)) ≠ ""
      · rw [if_pos hz] at h2
        rw [← Option.some.inj h2]
        rfl
      · rw [if_neg hz] at h2; exact Option.noConfusion h2

theorem itemCleanOf_wf (item : JVal) (y : JVal) (h : itemCleanOf item = some y) :
    ∃ ikvs', y = JVal.jobj ikvs' ∧ ∀ p ∈ ikvs', wfOldVal p.2 = true := by
  cases item with
  | jobj ikvs =>
      rw [itemCleanOf_obj] at h
      by_cases he : (ikvs.filterMap cleanupOldEntry).isEmpty
      · rw [if_pos he] at h; exact Option.noConfusion h
      · rw [if_neg he] at h
        refine ⟨ikvs.filterMap cleanupOldEntry, (Option.some.inj h).symm, ?_⟩
        intro p hp
        obtain ⟨a, _, ha⟩ := List.mem_filterMap.mp hp
        obtain ⟨k2, v2⟩ := a
        exact cleanupOldEntry_wf k2 v2 p ha
  | jnull => exact Option.noConfusion h
  | jbool b => exact Option.noConfusion h
  | jnum l => exact Option.noConfusion h
  | jstr s => exact Option.noConfusion h
  | jarr l => exact Option.noConfusion h

theorem wfNewInner_canon (f s : String) :
    wfNewInner [("feature", .jstr f), ("sent", .jstr s)] = true := rfl

/-! ### Equation lemmas for the per-value pass and cleanup -/

theorem slotsEx_obj (kvs : List (String × JVal)) :
    slotsEx (some (.jobj kvs)) =
      (if isNewStyle kvs then
        (sortLabelKeys (kvs.map (·.1))).filterMap fun label =>
          match getd kvs label (.jobj []) with
          | .jobj inner =>
              some (.newS (pyStrOrEmpty (getd inner "feature" .jnull))
                          (pyStrOrEmpty (getd inner "sent" .jnull)))
          | _ => none
       else kvs.flatMap fun p => slotsOfVal p.2) := rfl

theorem slotsEx_arr (items : List JVal) :
    slotsEx (some (.jarr items)) = items.flatMap itemSlotsOf := rfl

theorem cleanupExp_obj (kvs : List (String × JVal)) :
    cleanupExp (some (.jobj kvs)) =
      (if isNewStyle kvs then
        (if (kvs.filterMap cleanupNewEntry).isEmpty then none
         else some (.jobj (kvs.filterMap cleanupNewEntry)))
       else
        (if (kvs.filterMap cleanupOldEntry).isEmpty then none
         else some (.jobj (kvs.filterMap cleanupOldEntry)))) := rfl

theorem cleanupExp_arr (items : List JVal) :
    cleanupExp (some (.jarr items)) =
      (if (items.filterMap itemCleanOf).isEmpty then none
       else some (.jarr (items.filterMap itemCleanOf))) := rfl

theorem applyExpP_obj (act : Nat → Option (String × String)) (off : Nat)
    (kvs : List (String × JVal)) :
    applyExpP act off (some (.jobj kvs)) =
      (if isNewStyle kvs then
        (some (.jobj (applyNewKvs act off (newSlotLabels kvs) kvs)),
         (newSlotLabels kvs).length)
       else
        (some (.jobj (applyOldKvs act off kvs).1),
         (applyOldKvs act off kvs).2)) := rfl

theorem applyExpP_arr (act : Nat → Option (String × String)) (off : Nat)
    (items : List JVal) :
    applyExpP act off (some (.jarr items)) =
      (some (.jarr (applyItems act off items).1),
       (applyItems act off items).2) := rfl

theorem applyExpP_str (act : Nat → Option (String × String)) (off : Nat)
    (s : String) :
    applyExpP act off (some (.jstr s)) =
      (match act off with
       | none => (none, 1)
       | some (t, b) => (some (.jstr (writeOld s t b)), 1)) := rfl

theorem wfExp_obj (kvs : List (String × JVal)) :
    wfExp (some (.jobj kvs)) =
      (if isNewStyle kvs then
        nodupB (kvs.map (·.1)) &&
        pairwiseLeB labelKeyLe (kvs.map (·.1)) &&
        kvs.all (fun p =>
          match p.2 with
          | JVal.jobj inner => wfNewInner inner
          | _ => false)
       else kvs.all fun p => wfOldVal p.2) := rfl

theorem wfExp_arr (items : List JVal) :
    wfExp (some (.jarr items)) =
      items.all (fun item =>
        match item with
        | JVal.jobj ikvs => ikvs.all fun p => wfOldVal p.2
        | _ => true) := rfl

/-- Under the documented new-style shape, the slot list is the entry list's
record snapshots in entry order. -/
theorem slotsEx_new_eq (kvs : List (String × JVal))
    (hnew : isNewStyle kvs = true)
    (hnd : nodupB (kvs.map (·.1)) = true)
    (hsort : pairwiseLeB labelKeyLe (kvs.map (·.1)) = true) :
    slotsEx (some (.jobj kvs)) = kvs.filterMap newSlotOf := by
  rw [slotsEx_obj, if_pos hnew,
    show sortLabelKeys (kvs.map (·.1))
      = insSortBy labelKeyLe (kvs.map (·.1)) from rfl,
    insSortBy_eq_self (pairwiseLeB_pairwise hsort)]
  exact filterMap_keys_getd kvs (.jobj []) (fun k v =>
    match v with
    | JVal.jobj inner =>
        some (SlotV.newS (pyStrOrEmpty (getd inner "feature" .jnull))
                         (pyStrOrEmpty (getd inner "sent" .jnull)))
    | _ => none) hnd

/-- The per-value pass plus cleanup realizes `expectedSlots` on every
documented container shape, consumes exactly the slot count, and lands back
inside the documented shapes. -/
theorem applyExp_char (act : Nat → Option (String × String))
    (exp : Option JVal) (hwf : wfExp exp = true) (off : Nat) :
    slotsEx (cleanupExp (applyExpP act off exp).1)
        = expectedSlots act off (slotsEx exp)
    ∧ (applyExpP act off exp).2 = (slotsEx exp).length
    ∧ wfExp (cleanupExp (applyExpP act off exp).1) = true := by
  cases exp with
  | none => exact ⟨rfl, rfl, rfl⟩
  | some e =>
      cases e with
      | jnull => exact ⟨rfl, rfl, rfl⟩
      | jbool b => exact ⟨rfl, rfl, rfl⟩
      | jnum l => exact ⟨rfl, rfl, rfl⟩
      | jstr s =>
          cases hact : act off with
          | none =>
              refine ⟨?_, ?_, ?_⟩
              · show slotsEx (cleanupExp
                    (match act off with
                     | none => ((none : Option JVal), 1)
                     | some (t, b) => (some (.jstr (writeOld s t b)), 1)).1) = _
                rw [hact,
                  show slotsEx (some (JVal.jstr s)) = [SlotV.oldS s] from rfl,
                  expectedSlots_cons, slotOutcome_none hact]
                rfl
              · show (match act off with
                     | none => ((none : Option JVal), 1)
                     | some (t, b) => (some (.jstr (writeOld s t b)), 1)).2 = _
                rw [hact]
                rfl
              · show wfExp (cleanupExp
                    (match act off with
                     | none => ((none : Option JVal), 1)
                     | some (t, b) => (some (.jstr (writeOld s t b)), 1)).1)
                    = true
                rw [hact]
                rfl
          | some r =>
              obtain ⟨t, b⟩ := r
              refine ⟨?_, ?_, ?_⟩
              · show slotsEx (cleanupExp
                    (match act off with
                     | none => ((none : Option JVal), 1)
                     | some (t, b) => (some (.jstr (writeOld s t b)), 1)).1) = _
                rw [hact,
                  show slotsEx (some (JVal.jstr s)) = [SlotV.oldS s] from rfl,
                  expectedSlots_cons, slotOutcome_some hact, writeOutcome_oldS]
                rfl
              · show (match act off with
                     | none => ((none : Option JVal), 1)
                     | some (t, b) => (some (.jstr (writeOld s t b)), 1)).2 = _
                rw [hact]
                rfl
              · show wfExp (cleanupExp
                    (match act off with
                     | none => ((none : Option JVal), 1)
                     | some (t, b) => (some (.jstr (writeOld s t b)), 1)).1)
                    = true
                rw [hact]
                rfl
      | jarr items =>
          rw [wfExp_arr, List.all_eq_true] at hwf
          have hwf2 : ∀ item ∈ items, ∀ ikvs, item = JVal.jobj ikvs →
              ∀ p ∈ ikvs, wfOldVal p.2 = true := by
            intro item hitem ikvs heq p hp
            have h1 := hwf item hitem
            rw [heq] at h1
            have h3 : ikvs.all (fun p => wfOldVal p.2) = true := h1
            exact List.all_eq_true.mp h3 p hp
          have hchar := applyItems_char act items hwf2 off
          refine ⟨?_, ?_, ?_⟩
          · show slotsEx (cleanupExp
                (some (JVal.jarr (applyItems act off items).1)))
              = expectedSlots act off (slotsEx (some (JVal.jarr items)))
            rw [cleanupExp_arr, slotsEx_arr]
            by_cases he :
                ((applyItems act off items).1.filterMap itemCleanOf).isEmpty
            · rw [if_pos he]
              rw [List.isEmpty_iff] at he
              rw [← hchar.2, he]
              rfl
            · rw [if_neg he, slotsEx_arr, ← hchar.2]
          · show (applyItems act off items).2
              = (slotsEx (some (JVal.jarr items))).length
            rw [slotsEx_arr]
            exact hchar.1
          · show wfExp (cleanupExp
                (some (JVal.jarr (applyItems act off items).1))) = true
            rw [cleanupExp_arr]
            by_cases he :
                ((applyItems act off items).1.filterMap itemCleanOf).isEmpty
            · rw [if_pos he]
              rfl
            · rw [if_neg he, wfExp_arr, List.all_eq_true]
              intro item hitem
              obtain ⟨a, _, ha⟩ := List.mem_filterMap.mp hitem
              obtain ⟨ikvs', heq, hall⟩ := itemCleanOf_wf a item ha
              rw [heq]
              show ikvs'.all (fun p => wfOldVal p.2) = true
              exact List.all_eq_true.mpr hall
      | jobj kvs =>
          cases hnew : isNewStyle kvs with
          | false =>
              rw [wfExp_obj, if_neg (by simp [hnew])] at hwf
              have hwfm : ∀ p ∈ kvs, wfOldVal p.2 = true :=
                List.all_eq_true.mp hwf
              have hchar := applyOldKvs_char act kvs hwfm off
              have hnoobj : isNewStyle (applyOldKvs act off kvs).1 = false :=
                isNewStyle_false_of_no_obj (applyOldKvs_entries act kvs hwfm off)
              have hclnoobj : isNewStyle
                  ((applyOldKvs act off kvs).1.filterMap cleanupOldEntry)
                  = false := by
                apply isNewStyle_false_of_no_obj
                intro q hq
                obtain ⟨a, _, ha⟩ := List.mem_filterMap.mp hq
                obtain ⟨k2, v2⟩ := a
                exact cleanupOldEntry_not_obj k2 v2 q ha
              rw [show applyExpP act off (some (JVal.jobj kvs))
                  = (some (.jobj (applyOldKvs act off kvs).1),
                     (applyOldKvs act off kvs).2)
                from by rw [applyExpP_obj, if_neg (by simp [hnew])]]
              refine ⟨?_, ?_, ?_⟩
              · show slotsEx (cleanupExp
                    (some (JVal.jobj (applyOldKvs act off kvs).1)))
                  = expectedSlots act off (slotsEx (some (JVal.jobj kvs)))
                rw [slotsEx_obj kvs, if_neg (by simp [hnew]),
                  cleanupExp_obj, if_neg (by simp [hnoobj])]
                by_cases he : ((applyOldKvs act off kvs).1.filterMap
                    cleanupOldEntry).isEmpty
                · rw [if_pos he]
                  rw [List.isEmpty_iff] at he
                  rw [← hchar.2, he]
                  rfl
                · rw [if_neg he, slotsEx_obj, if_neg (by simp [hclnoobj]),
                    ← hchar.2]
              · show (applyOldKvs act off kvs).2
                  = (slotsEx (some (JVal.jobj kvs))).length
                rw [slotsEx_obj kvs, if_neg (by simp [hnew])]
                exact hchar.1
              · show wfExp (cleanupExp
                    (some (JVal.jobj (applyOldKvs act off kvs).1))) = true
                rw [cleanupExp_obj, if_neg (by simp [hnoobj])]
                by_cases he : ((applyOldKvs act off kvs).1.filterMap
                    cleanupOldEntry).isEmpty
                · rw [if_pos he]
                  rfl
                · rw [if_neg he, wfExp_obj, if_neg (by simp [hclnoobj]),
                    List.all_eq_true]
                  intro p hp
                  obtain ⟨a, _, ha⟩ := List.mem_filterMap.mp hp
                  obtain ⟨k2, v2⟩ := a
                  exact cleanupOldEntry_wf k2 v2 p ha
          | true =>
              rw [wfExp_obj, if_pos hnew, Bool.and_eq_true,
                Bool.and_eq_true] at hwf
              obtain ⟨⟨hnd, hsort⟩, hall⟩ := hwf
              have hall' := List.all_eq_true.mp hall
              have hobj : ∀ p ∈ kvs, ∃ inner, p.2 = JVal.jobj inner := by
                intro p hp
                have h1 := hall' p hp
                cases hv : p.2 with
                | jobj inner => exact ⟨inner, rfl⟩
                | jnull => rw [hv] at h1; exact Bool.noConfusion h1
                | jbool b => rw [hv] at h1; exact Bool.noConfusion h1
                | jnum l2 => rw [hv] at h1; exact Bool.noConfusion h1
                | jstr s2 => rw [hv] at h1; exact Bool.noConfusion h1
                | jarr l2 => rw [hv] at h1; exact Bool.noConfusion h1
              have hlab : newSlotLabels kvs = kvs.filterMap newKeyOf :=
                newSlotLabels_eq kvs hnd hsort
              have heqd : applyNewKvs act off (newSlotLabels kvs) kvs
                  = applyNewDirect act off kvs := by
                rw [hlab]
                exact applyNewKvs_eq_direct act kvs hobj hnd off
              have hchar : (applyNewDirect act off kvs).filterMap
                    cleanupNewEntry
                  = expectedNewKvs act off kvs :=
                applyNewDirect_char act kvs hobj off
              have hslots : slotsEx (some (.jobj kvs))
                  = kvs.filterMap newSlotOf :=
                slotsEx_new_eq kvs hnew hnd hsort
              have hndE : nodupB ((expectedNewKvs act off kvs).map (·.1))
                  = true :=
                nodupB_sublist (expectedNewKvs_keys_sublist act kvs off) hnd
              have hsortE : pairwiseLeB labelKeyLe
                  ((expectedNewKvs act off kvs).map (·.1)) = true :=
                pairwiseLeB_sublist (expectedNewKvs_keys_sublist act kvs off)
                  hsort
              have hcanonE := expectedNewKvs_canon act kvs off
              have hnsE : ∀ c cs, expectedNewKvs act off kvs = c :: cs →
                  isNewStyle (expectedNewKvs act off kvs) = true := by
                intro c cs hE
                obtain ⟨ck, cv⟩ := c
                obtain ⟨f, s, hc2⟩ := hcanonE (ck, cv) (by
                  rw [hE]; exact List.mem_cons_self ..)
                have hcv : cv = JVal.jobj
                    [("feature", .jstr f), ("sent", .jstr s)] := hc2
                rw [hE, hcv]
                exact isNewStyle_canon_cons ck f s cs
              have hres : cleanupExp (some (JVal.jobj
                    (applyNewDirect act off kvs)))
                  = (if (expectedNewKvs act off kvs).isEmpty then none
                     else some (.jobj (expectedNewKvs act off kvs))) := by
                have hchar2 := hchar
                cases hW : applyNewDirect act off kvs with
                | nil =>
                    rw [hW] at hchar2
                    have hE : expectedNewKvs act off kvs = [] := by
                      rw [← hchar2]
                      rfl
                    rw [cleanupExp_obj,
                      if_neg (show ¬(isNewStyle ([] : List (String × JVal))
                        = true) from by simp [isNewStyle]),
                      if_pos (show (([] : List (String × JVal)).filterMap
                        cleanupOldEntry).isEmpty = true from rfl),
                      hE]
                    rfl
                | cons w ws =>
                    have hwin : w ∈ applyNewDirect act off kvs := by
                      rw [hW]
                      exact List.mem_cons_self ..
                    obtain ⟨k2, inner2, t2, s2, hwshape⟩ :=
                      applyNewDirect_entries act kvs hobj off w hwin
                    rw [hW] at hchar2
                    subst hwshape
                    rw [cleanupExp_obj,
                      if_pos (isNewStyle_of_head_written k2 inner2 t2 s2 ws),
                      hchar2]
              rw [show applyExpP act off (some (JVal.jobj kvs))
                  = (some (.jobj (applyNewKvs act off (newSlotLabels kvs) kvs)),
                     (newSlotLabels kvs).length)
                from by rw [applyExpP_obj, if_pos hnew]]
              refine ⟨?_, ?_, ?_⟩
              · show slotsEx (cleanupExp (some (JVal.jobj
                      (applyNewKvs act off (newSlotLabels kvs) kvs))))
                  = expectedSlots act off (slotsEx (some (JVal.jobj kvs)))
                rw [heqd, hres, hslots, ← expectedNewKvs_slots]
                by_cases hE : (expectedNewKvs act off kvs).isEmpty
                · rw [if_pos hE]
                  rw [List.isEmpty_iff] at hE
                  rw [hE]
                  rfl
                · rw [if_neg hE]
                  rw [List.isEmpty_iff] at hE
                  cases hEc : expectedNewKvs act off kvs with
                  | nil => exact absurd hEc hE
                  | cons c cs =>
                      rw [← hEc]
                      exact slotsEx_new_eq _ (hnsE c cs hEc) hndE hsortE
              · show (newSlotLabels kvs).length
                  = (slotsEx (some (JVal.jobj kvs))).length
                rw [hslots, hlab]
                exact newKey_newSlot_length kvs
              · show wfExp (cleanupExp (some (JVal.jobj
                      (applyNewKvs act off (newSlotLabels kvs) kvs)))) = true
                rw [heqd, hres]
                by_cases hE : (expectedNewKvs act off kvs).isEmpty
                · rw [if_pos hE]
                  rfl
                · rw [if_neg hE]
                  rw [List.isEmpty_iff] at hE
                  cases hEc : expectedNewKvs act off kvs with
                  | nil => exact absurd hEc hE
                  | cons c cs =>
                      rw [← hEc, wfExp_obj, if_pos (hnsE c cs hEc),
                        Bool.and_eq_true, Bool.and_eq_true]
                      refine ⟨⟨hndE, hsortE⟩, ?_⟩
                      rw [List.all_eq_true]
                      intro p hp
                      obtain ⟨f, s, hp2⟩ := hcanonE p hp
                      rw [hp2]
                      show wfNewInner
                        [("feature", .jstr f), ("sent", .jstr s)] = true
                      exact wfNewInner_canon f s

theorem applyExList_cons (act : Nat → Option (String × String)) (off : Nat)
    (e : PhotoEx) (tl : List PhotoEx) :
    applyExList act off (e :: tl) =
      ⟨(applyExpP act off e.exp).1⟩
        :: applyExList act (off + (applyExpP act off e.exp).2) tl := rfl

/-- The slot pass over an `EX` list plus the per-entry cleanup. -/
theorem applyExList_char (act : Nat → Option (String × String))
    (exs : List PhotoEx) (hwf : ∀ e ∈ exs, wfExp e.exp = true) (off : Nat) :
    (((applyExList act off exs).map
        (fun e => (⟨cleanupExp e.exp⟩ : PhotoEx))).flatMap
        fun e => slotsEx e.exp)
      = expectedSlots act off (exs.flatMap fun e => slotsEx e.exp)
    ∧ ∀ e ∈ (applyExList act off exs).map
        (fun e => (⟨cleanupExp e.exp⟩ : PhotoEx)), wfExp e.exp = true := by
  induction exs generalizing off with
  | nil => exact ⟨rfl, fun e he => absurd he (List.not_mem_nil e)⟩
  | cons e tl ih =>
      have hhd := applyExp_char act e.exp (hwf e (List.mem_cons_self ..)) off
      have htl := ih (fun x hx => hwf x (List.mem_cons_of_mem _ hx))
        (off + (applyExpP act off e.exp).2)
      rw [applyExList_cons, List.map_cons, List.flatMap_cons,
        List.flatMap_cons, expectedSlots_append]
      constructor
      · show slotsEx (cleanupExp (applyExpP act off e.exp).1) ++ _ = _
        rw [hhd.1, htl.1, hhd.2.1]
      · intro x hx
        rcases List.mem_cons.mp hx with hx | hx
        · rw [hx]
          exact hhd.2.2
        · exact htl.2 x hx

theorem applySlotsDoc_eq (df : PhotoDf) (skipBlank : Bool) (doc : PhotoDoc) :
    applySlotsDoc df skipBlank doc =
      (if (photoSlots doc).isEmpty
          && !(collectPairsById df skipBlank doc.id).isEmpty then
        (match (if doc.ex.isEmpty
            then [(⟨some (.jobj [])⟩ : PhotoEx)] else doc.ex) with
         | [] => cleanupDoc { doc with ex :=
             (if doc.ex.isEmpty then [(⟨some (.jobj [])⟩ : PhotoEx)]
              else doc.ex) }
         | ex0 :: tl =>
             cleanupDoc { doc with ex :=
               ((⟨some (.jobj (creationFill
                  (match ex0.exp with
                   | some (.jobj kvs) => kvs
                   | _ => []) 1
                  (collectPairsById df skipBlank doc.id)))⟩ : PhotoEx) :: tl) })
       else cleanupDoc { doc with ex :=
         (applyExList (rowAct (collectPairsById df skipBlank doc.id))
           0 doc.ex) }) := rfl

/-- The document-level slot characterization, away from the creation branch:
one reconciliation pass makes the document's slots `expectedSlots` of the
per-id row actions, and the result stays in the documented shapes. -/
theorem applySlots_char (df : PhotoDf) (skipBlank : Bool) (doc : PhotoDoc)
    (hwf : wfDoc doc = true)
    (hbr : (photoSlots doc).isEmpty = false
         ∨ (collectPairsById df skipBlank doc.id).isEmpty = true) :
    photoSlots (applySlotsDoc df skipBlank doc)
      = expectedSlots (rowAct (collectPairsById df skipBlank doc.id)) 0
          (photoSlots doc)
    ∧ wfDoc (applySlotsDoc df skipBlank doc) = true := by
  have hcond : ((photoSlots doc).isEmpty
      && !(collectPairsById df skipBlank doc.id).isEmpty) = false := by
    rcases hbr with hb | hb
    · rw [hb, Bool.false_and]
    · rw [hb]
      simp
  rw [applySlotsDoc_eq, if_neg (by simp [hcond])]
  have hwfl : ∀ e ∈ doc.ex, wfExp e.exp = true := by
    intro e he
    exact List.all_eq_true.mp hwf e he
  have hch := applyExList_char
    (rowAct (collectPairsById df skipBlank doc.id)) doc.ex hwfl 0
  constructor
  · show ((applyExList (rowAct (collectPairsById df skipBlank doc.id))
        0 doc.ex).map (fun e => (⟨cleanupExp e.exp⟩ : PhotoEx))).flatMap
        (fun e => slotsEx e.exp) = _
    exact hch.1
  · show ((applyExList (rowAct (collectPairsById df skipBlank doc.id))
        0 doc.ex).map (fun e => (⟨cleanupExp e.exp⟩ : PhotoEx))).all
        (fun e => wfExp e.exp) = true
    rw [List.all_eq_true]
    exact hch.2

/-! ### Row actions and slot survival -/

theorem rowAct_of_get {seq : List (String × String)} {i : Nat}
    {r : String × String} (h : seq.get? i = some r)
    (hnb : ¬(pyStrip r.1 = "" ∧ pyStrip r.2 = "")) :
    rowAct seq i = some r := by
  unfold rowAct
  rw [h]
  obtain ⟨t, s⟩ := r
  show (if (pyStrip t = "" && pyStrip s = "") = true then none
        else some (t, s)) = some (t, s)
  rw [if_neg]
  intro hc
  rw [Bool.and_eq_true, decide_eq_true_eq, decide_eq_true_eq] at hc
  exact hnb hc

theorem rowAct_blank {seq : List (String × String)} {i : Nat}
    {r : String × String} (h : seq.get? i = some r)
    (h1 : pyStrip r.1 = "") (h2 : pyStrip r.2 = "") :
    rowAct seq i = none := by
  unfold rowAct
  rw [h]
  obtain ⟨t, s⟩ := r
  show (if (pyStrip t = "" && pyStrip s = "") = true then none
        else some (t, s)) = none
  rw [if_pos]
  rw [Bool.and_eq_true, decide_eq_true_eq, decide_eq_true_eq]
  exact ⟨h1, h2⟩

theorem rowAct_past {seq : List (String × String)} {i : Nat}
    (h : seq.get? i = none) : rowAct seq i = none := by
  unfold rowAct
  rw [h]

theorem pyStrip_ne_empty_of_head {s : String} {c : Char} {tl : List Char}
    (hdata : s.data = c :: tl) (hc : Char.isWhitespace c = false) :
    pyStrip s ≠ "" := by
  intro hcontra
  have hd := congrArg String.data hcontra
  rw [pyStrip_data, hdata] at hd
  obtain ⟨t', ht'⟩ := stripChars_cons_of_head hc tl
  rw [ht'] at hd
  exact List.noConfusion hd

theorem composeTextWithType_eq (o ns t : String) :
    composeTextWithType o ns t =
      (if (if unwrapTypeCell (pyStrip t) ≠ "" then unwrapTypeCell (pyStrip t)
           else (match typeBracketMatch o with
                 | some (g1, _) => pyStrip g1
                 | none => "")) ≠ "" then
        pyStrip ("["
          ++ (if unwrapTypeCell (pyStrip t) ≠ "" then unwrapTypeCell (pyStrip t)
              else (match typeBracketMatch o with
                    | some (g1, _) => pyStrip g1
                    | none => "")) ++ "] "
          ++ (if pyStrip ns ≠ "" then pyStrip ns
              else (match typeBracketMatch o with
                    | some (_, g2) => pyStrip g2
                    | none => pyStrip o)))
       else (if pyStrip ns ≠ "" then pyStrip ns
             else (match typeBracketMatch o with
                   | some (_, g2) => pyStrip g2
                   | none => pyStrip o))) := rfl

theorem bracket_data (x y : String) :
    ("[" ++ x ++ "] " ++ y).data
      = '[' :: ((x.data ++ "] ".data) ++ y.data) := rfl

/-- A non-blank sentence cell always leaves non-empty composed text. -/
theorem composeTextWithType_ne_empty (o ns t : String)
    (hns : pyStrip ns ≠ "") : composeTextWithType o ns t ≠ "" := by
  rw [composeTextWithType_eq]
  by_cases hft : (if unwrapTypeCell (pyStrip t) ≠ ""
      then unwrapTypeCell (pyStrip t)
      else (match typeBracketMatch o with
            | some (g1, _) => pyStrip g1
            | none => "")) ≠ ""
  · rw [if_pos hft]
    exact pyStrip_ne_empty_of_head (bracket_data _ _) (by decide)
  · rw [if_neg hft, if_pos hns]
    exact hns

theorem writeOld_ne_empty (raw t b : String) (hb : pyStrip b ≠ "") :
    writeOld raw t b ≠ "" := by
  apply composeTextWithType_ne_empty
  rw [pyStrip_idem]
  exact hb

/-- A row whose sentence cell is non-blank never produces a deletion. -/
theorem writeOutcome_some_of_sent (sv : SlotV) (t b : String)
    (hb : pyStrip b ≠ "") : writeOutcome sv (t, b) ≠ none := by
  cases sv with
  | oldS raw => rw [writeOutcome_oldS]; exact Option.noConfusion
  | oldL raw =>
      rw [writeOutcome_oldL, if_neg (writeOld_ne_empty raw t b hb)]
      exact Option.noConfusion
  | newS f s =>
      rw [writeOutcome_newS, if_neg]
      · exact Option.noConfusion
      · rw [Bool.and_eq_true, decide_eq_true_eq, decide_eq_true_eq]
        intro hc
        rw [if_pos hb] at hc
        exact hb hc.2

/-! ### Counting and truncation facts for `expectedSlots` -/

theorem expectedSlots_none_tail (act : Nat → Option (String × String))
    (off : Nat) (l : List SlotV) (h : ∀ i, off ≤ i → act i = none) :
    expectedSlots act off l = [] := by
  induction l generalizing off with
  | nil => rfl
  | cons sv tl ih =>
      rw [expectedSlots_cons, slotOutcome_none (h off (Nat.le_refl off))]
      exact ih (off + 1) fun i hi => h i (Nat.le_trans (Nat.le_succ off) hi)

theorem expectedSlots_eq_take (act : Nat → Option (String × String))
    (n : Nat) (hnone : ∀ i, n ≤ i → act i = none) (l : List SlotV)
    (hn : n ≤ l.length) :
    expectedSlots act 0 l = expectedSlots act 0 (l.take n) := by
  conv_lhs => rw [← List.take_append_drop n l]
  rw [expectedSlots_append]
  have h2 : expectedSlots act (0 + (List.take n l).length) (List.drop n l)
      = [] := by
    apply expectedSlots_none_tail
    intro i hi
    apply hnone
    rw [List.length_take, Nat.zero_add, Nat.min_eq_left hn] at hi
    exact hi
  rw [h2, List.append_nil]

theorem expectedSlots_length_le (act : Nat → Option (String × String))
    (off : Nat) (l : List SlotV) :
    (expectedSlots act off l).length ≤ l.length := by
  induction l generalizing off with
  | nil => exact Nat.le_refl 0
  | cons sv tl ih =>
      rw [expectedSlots_cons]
      cases slotOutcome act off sv with
      | none =>
          exact Nat.le_trans (ih (off + 1)) (Nat.le_succ tl.length)
      | some sv' =>
          rw [List.length_cons, List.length_cons]
          exact Nat.succ_le_succ (ih (off + 1))

theorem expectedSlots_length_of_some (act : Nat → Option (String × String))
    (l : List SlotV) (off : Nat)
    (h : ∀ i sv, l.get? i = some sv → slotOutcome act (off + i) sv ≠ none) :
    (expectedSlots act off l).length = l.length := by
  induction l generalizing off with
  | nil => rfl
  | cons sv tl ih =>
      have h0 := h 0 sv rfl
      rw [Nat.add_zero] at h0
      rw [expectedSlots_cons]
      cases hso : slotOutcome act off sv with
      | none => exact absurd hso h0
      | some sv' =>
          rw [List.length_cons, List.length_cons]
          congr 1
          apply ih (off + 1)
          intro i svi hg
          have hh := h (i + 1) svi hg
          rw [show off + (i + 1) = off + 1 + i from by omega] at hh
          exact hh

/-! ## C10 — sentence-key uniqueness of `_set_exp_sentence_on_dict` -/

/-- C10: after `_set_exp_sentence_on_dict` (the writer every dict-backed slot
of `_assign_sentence_to_slot` goes through) the dict holds exactly one
sentence-variant key and its value is the one-element list of the written
sentence: filtering the result to the recognized sentence-key variants
leaves exactly one binding, whose value is `[str(new_sentence)]`. -/
theorem setExpSentence_core (d : List (String × JVal)) (s target : String)
    (htv : expKeyVariant target = true) :
    ((setKey (d.filter fun p => !expKeyVariant p.1) target
        (.jarr [.jstr s])).filter fun p => expKeyVariant p.1).map (·.2)
      = [.jarr [.jstr s]] := by
  have hnot : ∀ p ∈ d.filter (fun p => !expKeyVariant p.1), p.1 ≠ target := by
    intro p hp hk
    have := List.of_mem_filter hp
    rw [hk, htv] at this
    simp at this
  rw [setKey_of_not_mem _ hnot, List.filter_append, filter_not_filter]
  simp [htv]

theorem C10_sentence_key_uniqueness (d : List (String × JVal)) (s : String)
    (pe : Bool) :
    ((setExpSentenceOnDict d s pe).filter fun p => expKeyVariant p.1).map (·.2)
      = [.jarr [.jstr s]] := by
  unfold setExpSentenceOnDict
  cases hc : (d.map (·.1)).filter expKeyVariant with
  | nil =>
      exact setExpSentence_core d s "설명문장" (by decide)
  | cons c tl =>
      have hcv : expKeyVariant c = true := by
        have hcmem : c ∈ (d.map (·.1)).filter expKeyVariant := by
          rw [hc]; exact List.mem_cons_self ..
        exact List.of_mem_filter hcmem
      cases pe with
      | true => exact setExpSentence_core d s c hcv
      | false => exact setExpSentence_core d s "설명문장" (by decide)

/-! ## C6 — the label normalizer (`_label_to_ref_type`) -/

/-- The squashed form used in the second matching stage. -/
theorem labelToRefType_none : labelToRefType none = "" := rfl

/-- The staged form of `_label_to_ref_type` with the `let`s resolved. -/
theorem labelToRefType_eq (l : String) :
    labelToRefType (some l) =
      (match refMap.find? (·.2 = pyStrip l) with
       | some p => p.1
       | none =>
           match labelNormTable.find?
               (·.1 = removeChar (removeChar (pyStrip l) ' ') '_') with
           | some p => p.2
           | none =>
               if pyStartsWith (removeChar (removeChar (pyStrip l) ' ') '_')
                   "불연속" then "cell_ref"
               else pyStrip l) := rfl

/-- C6 (amended): `_label_to_ref_type` is a total function which maps each of
the four display labels to its code; maps any label whose space/underscore-
squashed, stripped form is one of the custom variant keys to that variant's
code; maps any remaining label whose squashed form starts with `불연속` to
`cell_ref`; and, when no rule matches, returns the **stripped** input (so the
input is returned unchanged exactly when it carries no outer whitespace). -/
theorem C6_label_normalizer :
    (∀ p ∈ refMap, labelToRefType (some p.2) = p.1) ∧
    (∀ l : String, (∀ p ∈ refMap, p.2 ≠ pyStrip l) →
      ∀ p ∈ labelNormTable,
        removeChar (removeChar (pyStrip l) ' ') '_' = p.1 →
        labelToRefType (some l) = p.2) ∧
    (∀ l : String, (∀ p ∈ refMap, p.2 ≠ pyStrip l) →
      (∀ p ∈ labelNormTable,
        removeChar (removeChar (pyStrip l) ' ') '_' ≠ p.1) →
      pyStartsWith (removeChar (removeChar (pyStrip l) ' ') '_') "불연속" = true →
      labelToRefType (some l) = "cell_ref") ∧
    (∀ l : String, (∀ p ∈ refMap, p.2 ≠ pyStrip l) →
      (∀ p ∈ labelNormTable,
        removeChar (removeChar (pyStrip l) ' ') '_' ≠ p.1) →
      pyStartsWith (removeChar (removeChar (pyStrip l) ' ') '_') "불연속" = false →
      labelToRefType (some l) = pyStrip l) := by
  refine ⟨?_, ?_, ?_, ?_⟩
  · intro p hp
    fin_cases hp <;> rfl
  · intro l h1 p hp hsq
    have hfind1 : refMap.find? (·.2 = pyStrip l) = none :=
      List.find?_eq_none.mpr fun q hq => by simpa using h1 q hq
    fin_cases hp <;> (rw [labelToRefType_eq, hfind1, hsq]; rfl)
  · intro l h1 h2 h3
    have hfind1 : refMap.find? (·.2 = pyStrip l) = none :=
      List.find?_eq_none.mpr fun q hq => by simpa using h1 q hq
    have hfind2 : labelNormTable.find?
        (·.1 = removeChar (removeChar (pyStrip l) ' ') '_') = none :=
      List.find?_eq_none.mpr fun q hq => by simpa using (h2 q hq).symm
    rw [labelToRefType_eq, hfind1, hfind2, h3]
    rfl
  · intro l h1 h2 h3
    have hfind1 : refMap.find? (·.2 = pyStrip l) = none :=
      List.find?_eq_none.mpr fun q hq => by simpa using h1 q hq
    have hfind2 : labelNormTable.find?
        (·.1 = removeChar (removeChar (pyStrip l) ' ') '_') = none :=
      List.find?_eq_none.mpr fun q hq => by simpa using (h2 q hq).symm
    rw [labelToRefType_eq, hfind1, hfind2, h3]
    rfl

/-- Witness for the amended C6 at concrete inputs: an underscore variant, a
`불연속`-led label, and a miss that returns the stripped input. -/
theorem C6_label_normalizer_witness :
    labelToRefType (some "표_설명_문장") = "table_ref" ∧
    labelToRefType (some "불연속 영역 기타") = "cell_ref" ∧
    labelToRefType (some "custom") = "custom" := by
  refine ⟨?_, ?_, ?_⟩
  · exact C6_label_normalizer.2.1 "표_설명_문장" (by decide)
      ("표설명문장", "table_ref") (by decide) (by decide)
  · exact C6_label_normalizer.2.2.1 "불연속 영역 기타" (by decide) (by decide)
      (by decide)
  · exact C6_label_normalizer.2.2.2 "custom" (by decide) (by decide) (by decide)

/-- C6 counterexample to the claim as stated: on a miss the function returns
the *stripped* input, which differs from the input when it has outer
whitespace. -/
theorem C6_identity_counterexample :
    labelToRefType (some " xyz ") = "xyz" ∧
    labelToRefType (some " xyz ") ≠ " xyz " := by
  constructor
  · rfl
  · decide

/-! ## C8 — archive member selection and failure -/

/-- C8: `apply_excel_desc_to_json_from_zip` raises its not-found error naming
the missing member type iff the archive holds no `.json` member
(respectively, with a JSON member present, no `.xlsx`/`.xls` member);
otherwise it picks one JSON member — preferring a basename starting with
`project_` — and one spreadsheet member, and suggests the output filename
`<json member stem>_updated.json`. -/
theorem pickJsonMember_eq (names : List String) :
    pickJsonMember names =
      (match (names.filter fun m => pyEndsWith (pyLower m) ".json").find?
          (fun m => pyStartsWith (pathName m) "project_") with
       | some m => some m
       | none => (names.filter fun m => pyEndsWith (pyLower m) ".json").head?) := rfl

theorem pickExcelMember_eq (names : List String) :
    pickExcelMember names =
      (match (names.filter fun m => pyEndsWith (pyLower m) ".xlsx").head? with
       | some m => some m
       | none => (names.filter fun m => pyEndsWith (pyLower m) ".xls").head?) := rfl

theorem C8_zip_selection :
    (∀ names : List String,
      (zipSelect names = .error .noJson ↔
        names.filter (fun m => pyEndsWith (pyLower m) ".json") = [])) ∧
    (∀ names : List String,
      (zipSelect names = .error .noExcel ↔
        (names.filter (fun m => pyEndsWith (pyLower m) ".json") ≠ [] ∧
         names.filter (fun m => pyEndsWith (pyLower m) ".xlsx") = [] ∧
         names.filter (fun m => pyEndsWith (pyLower m) ".xls") = []))) ∧
    (∀ names j e nm, zipSelect names = .ok (j, e, nm) →
      j ∈ names ∧ pyEndsWith (pyLower j) ".json" = true ∧
      e ∈ names ∧
      (pyEndsWith (pyLower e) ".xlsx" = true ∨ pyEndsWith (pyLower e) ".xls" = true) ∧
      nm = (if pyEndsWith (pyLower (pathName j)) ".json" then
              dropLastChars (pathName j) 5
            else pathName j) ++ "_updated.json" ∧
      ((∃ m ∈ names, pyEndsWith (pyLower m) ".json" = true ∧
          pyStartsWith (pathName m) "project_" = true) →
        pyStartsWith (pathName j) "project_" = true)) := by
  have hjson_none : ∀ names : List String, pickJsonMember names = none ↔
      names.filter (fun m => pyEndsWith (pyLower m) ".json") = [] := by
    intro names
    rw [pickJsonMember_eq]
    constructor
    · intro h
      cases hf : (names.filter fun m => pyEndsWith (pyLower m) ".json").find?
          (fun m => pyStartsWith (pathName m) "project_") with
      | some m => rw [hf] at h; exact absurd h (by simp)
      | none =>
          rw [hf] at h
          exact List.head?_eq_none_iff.mp h
    · intro h
      rw [h]
      rfl
  have hexcel_none : ∀ names : List String, pickExcelMember names = none ↔
      (names.filter (fun m => pyEndsWith (pyLower m) ".xlsx") = [] ∧
       names.filter (fun m => pyEndsWith (pyLower m) ".xls") = []) := by
    intro names
    rw [pickExcelMember_eq]
    constructor
    · intro h
      cases hx : (names.filter fun m => pyEndsWith (pyLower m) ".xlsx").head? with
      | some m => rw [hx] at h; exact absurd h (by simp)
      | none =>
          rw [hx] at h
          exact ⟨List.head?_eq_none_iff.mp hx, List.head?_eq_none_iff.mp (by simpa using h)⟩
    · intro h
      rw [List.head?_eq_none_iff.mpr h.1, List.head?_eq_none_iff.mpr h.2]
  refine ⟨?_, ?_, ?_⟩
  · intro names
    unfold zipSelect pickZipMembers
    cases hj : pickJsonMember names with
    | none =>
        constructor
        · intro _; exact (hjson_none names).mp hj
        · intro _; rfl
    | some j =>
        cases he : pickExcelMember names with
        | none =>
            constructor
            · intro h; exact absurd h (by simp)
            · intro h
              exact absurd ((hjson_none names).mpr h) (by simp [hj])
        | some e =>
            constructor
            · intro h; exact absurd h (by simp)
            · intro h
              exact absurd ((hjson_none names).mpr h) (by simp [hj])
  · intro names
    unfold zipSelect pickZipMembers
    cases hj : pickJsonMember names with
    | none =>
        constructor
        · intro h; exact absurd h (by simp)
        · rintro ⟨h1, -⟩
          exact absurd ((hjson_none names).mp hj) h1
    | some j =>
        cases he : pickExcelMember names with
        | none =>
            constructor
            · intro _
              refine ⟨?_, (hexcel_none names).mp he⟩
              intro hnil
              exact absurd ((hjson_none names).mpr hnil) (by simp [hj])
            · intro _; rfl
        | some e =>
            constructor
            · intro h; exact absurd h (by simp)
            · rintro ⟨-, h2⟩
              exact absurd ((hexcel_none names).mpr h2) (by simp [he])
  · intro names j e nm h
    unfold zipSelect pickZipMembers at h
    cases hj : pickJsonMember names with
    | none => rw [hj] at h; exact absurd h (by simp)
    | some j' =>
        cases he : pickExcelMember names with
        | none => rw [hj, he] at h; exact absurd h (by simp)
        | some e' =>
            rw [hj, he] at h
            simp only [Except.ok.injEq, Prod.mk.injEq] at h
            obtain ⟨rfl, rfl, hnm⟩ := h
            have hjmem : j' ∈ names.filter (fun m => pyEndsWith (pyLower m) ".json") := by
              rw [pickJsonMember_eq] at hj
              cases hf : (names.filter fun m => pyEndsWith (pyLower m) ".json").find?
                  (fun m => pyStartsWith (pathName m) "project_") with
              | some m =>
                  rw [hf] at hj
                  have hmem := List.mem_of_find?_eq_some hf
                  have hmj : m = j' := by simpa using hj
                  exact hmj ▸ hmem
              | none =>
                  rw [hf] at hj
                  exact List.mem_of_mem_head? hj
            have hjprops := List.mem_filter.mp hjmem
            have hemem : e' ∈ names ∧
                (pyEndsWith (pyLower e') ".xlsx" = true ∨
                 pyEndsWith (pyLower e') ".xls" = true) := by
              rw [pickExcelMember_eq] at he
              cases hx : (names.filter fun m => pyEndsWith (pyLower m) ".xlsx").head? with
              | some m =>
                  rw [hx] at he
                  have hm : m ∈ names.filter (fun m => pyEndsWith (pyLower m) ".xlsx") :=
                    List.mem_of_mem_head? hx
                  have hmf := List.mem_filter.mp hm
                  obtain rfl : m = e' := by simpa using he
                  exact ⟨hmf.1, Or.inl hmf.2⟩
              | none =>
                  rw [hx] at he
                  have hm : e' ∈ names.filter (fun m => pyEndsWith (pyLower m) ".xls") :=
                    List.mem_of_mem_head? (by simpa using he)
                  have hmf := List.mem_filter.mp hm
                  exact ⟨hmf.1, Or.inr hmf.2⟩
            refine ⟨hjprops.1, hjprops.2, hemem.1, hemem.2, ?_, ?_⟩
            · rw [← hnm]; rfl
            · rintro ⟨m, hm, hml, hmp⟩
              rw [pickJsonMember_eq] at hj
              cases hf : (names.filter fun m => pyEndsWith (pyLower m) ".json").find?
                  (fun m => pyStartsWith (pathName m) "project_") with
              | some m' =>
                  rw [hf] at hj
                  have := List.find?_some hf
                  obtain rfl : m' = j' := by simpa using hj
                  simpa using this
              | none =>
                  exfalso
                  have hnone : forall x, x ∈ names.filter (fun m => pyEndsWith (pyLower m) ".json") ->
                      ¬ pyStartsWith (pathName x) "project_" = true :=
                    fun x hx => by simpa using List.find?_eq_none.mp hf x hx
                  exact hnone m (List.mem_filter.mpr ⟨hm, hml⟩) hmp

/-! ## C7 — the metadata cell parser is total and always yields a dict -/

theorem findIdx?_get {p : Char → Bool} {l : List Char} {i : Nat}
    (h : l.findIdx? p = some i) : ∃ a, l.get? i = some a ∧ p a := by
  induction l generalizing i with
  | nil => simp [List.findIdx?] at h
  | cons c tl ih =>
      rw [List.findIdx?_cons] at h
      by_cases hc : p c
      · simp [hc] at h; subst h; exact ⟨c, rfl, hc⟩
      · simp [hc] at h
        cases i with
        | zero => simp at h
        | succ n =>
            have := ih (by simpa using h)
            simpa using this

theorem collapseDoubleQuotes_cons_ne {c : Char} (h : ¬c = '"') (t : List Char) :
    collapseDoubleQuotes (c :: t) = c :: collapseDoubleQuotes t := by
  cases t with
  | nil => simp [collapseDoubleQuotes, h]
  | cons d t => simp [collapseDoubleQuotes, h]

/-- A successful `json.loads` of a text whose first character is `{` is an
object. -/
theorem jpVal_brace_obj {fuel : Nat} {t rest : List Char} {v : JVal}
    (h : jpVal fuel ('{' :: t) = some (v, rest)) : ∃ kvs, v = .jobj kvs := by
  cases fuel with
  | zero => simp [jpVal] at h
  | succ n =>
      rw [jpVal] at h
      have hdrop : List.dropWhile Char.isWhitespace ('{' :: t) = '{' :: t := by
        simp [List.dropWhile]
      rw [hdrop] at h
      simp only [if_pos rfl, reduceIte] at h
      revert h
      split
      · intro h
        simp at h
        exact ⟨[], h.1.symm⟩
      · intro h
        cases hm : jpMembers n t with
        | none => rw [hm] at h; simp at h
        | some p =>
            rw [hm] at h
            simp at h
            exact ⟨p.1, h.1.symm⟩

theorem jsonLoads_brace_obj {s : String} {v : JVal}
    (h : jsonLoads s = some v) (hb : ∃ t, s.data = '{' :: t) :
    ∃ kvs, v = .jobj kvs := by
  obtain ⟨t, ht⟩ := hb
  unfold jsonLoads at h
  rw [ht] at h
  cases hp : jpVal (('{' :: t).length + 1) ('{' :: t) with
  | none => rw [hp] at h; simp at h
  | some pr =>
      rw [hp] at h
      obtain ⟨v', rest⟩ := pr
      obtain ⟨kvs, rfl⟩ := jpVal_brace_obj hp
      have h' : (if rest.dropWhile Char.isWhitespace = [] then
          some (JVal.jobj kvs) else none) = some v := h
      by_cases hr : rest.dropWhile Char.isWhitespace = []
      · rw [if_pos hr] at h'
        exact ⟨kvs, by simpa using h'.symm⟩
      · rw [if_neg hr] at h'
        simp at h'

/-- The branch structure of `_parse_metadata_cell` on a present cell, with
the `let`s resolved. -/
theorem parseMetadataCell_some (raw : String) :
    parseMetadataCell (some raw) =
      (if pyStrip raw = "" then JVal.jobj []
       else
        match idxOfChar (pyStrip raw).data '{',
              idxOfChar (pyStrip raw).data.reverse '}' with
        | some i, some jr =>
            if i ≥ (pyStrip raw).data.length - 1 - jr then
              noteFallback (collapseDoubleQuotes (pyStrip raw).data)
            else
              match jsonLoads (pyStrip
                  ⟨((pyStrip raw).data.drop i).take
                    ((pyStrip raw).data.length - 1 - jr + 1 - i)⟩) with
              | some v => v
              | none =>
                  match jsonLoads ⟨collapseDoubleQuotes (pyStrip
                      ⟨((pyStrip raw).data.drop i).take
                        ((pyStrip raw).data.length - 1 - jr + 1 - i)⟩).data⟩ with
                  | some v => v
                  | none =>
                      noteFallback (collapseDoubleQuotes (pyStrip
                        ⟨((pyStrip raw).data.drop i).take
                          ((pyStrip raw).data.length - 1 - jr + 1 - i)⟩).data)
        | _, _ => noteFallback (collapseDoubleQuotes (pyStrip raw).data)) := rfl

/-- C7: `_parse_metadata_cell` never raises and always returns a dict: it
locates the outermost `{...}` span and `json.loads` it, retrying after
collapsing spreadsheet-doubled quotes, and otherwise falls back to the
regex-extracted `note` field or the empty map — every branch of which is an
object. -/
theorem C7_metadata_parse_total (cell : Option String) :
    ∃ kvs, parseMetadataCell cell = .jobj kvs := by
  cases cell with
  | none => exact ⟨[], rfl⟩
  | some raw =>
      rw [parseMetadataCell_some]
      by_cases h0 : pyStrip raw = ""
      · rw [if_pos h0]; exact ⟨[], rfl⟩
      · rw [if_neg h0]
        cases hi : idxOfChar (pyStrip raw).data '{' with
        | none => unfold noteFallback; cases noteSearch _ <;> simp
        | some i =>
            cases hj : idxOfChar (pyStrip raw).data.reverse '}' with
            | none => unfold noteFallback; cases noteSearch _ <;> simp
            | some jr =>
                change ∃ kvs,
                  (if i ≥ (pyStrip raw).data.length - 1 - jr then
                    noteFallback (collapseDoubleQuotes (pyStrip raw).data)
                  else _) = JVal.jobj kvs
                by_cases hij : i ≥ (pyStrip raw).data.length - 1 - jr
                · rw [if_pos hij]
                  unfold noteFallback; cases noteSearch _ <;> simp
                · rw [if_neg hij]
                  have hlt : i < (pyStrip raw).data.length - 1 - jr :=
                    Nat.lt_of_not_le hij
                  obtain ⟨a, ha, hpa⟩ := findIdx?_get hi
                  have haeq : a = '{' := by simpa using hpa
                  subst haeq
                  have hdropHead :
                      ((pyStrip raw).data.drop i).head? = some '{' := by
                    rw [List.head?_drop]
                    rw [← List.get?_eq_getElem?]
                    exact ha
                  obtain ⟨dtl, hdtl⟩ :
                      ∃ tl, (pyStrip raw).data.drop i = '{' :: tl := by
                    cases hd : (pyStrip raw).data.drop i with
                    | nil => rw [hd] at hdropHead; simp at hdropHead
                    | cons c u =>
                        rw [hd] at hdropHead
                        simp at hdropHead
                        exact ⟨u, by rw [hdropHead]⟩
                  have htake :
                      ((pyStrip raw).data.drop i).take
                          ((pyStrip raw).data.length - 1 - jr + 1 - i)
                        = '{' :: (dtl.take ((pyStrip raw).data.length - 1 - jr - i)) := by
                    rw [hdtl]
                    have heq : (pyStrip raw).data.length - 1 - jr + 1 - i
                        = ((pyStrip raw).data.length - 1 - jr - i) + 1 := by omega
                    rw [heq, List.take_succ_cons]
                  obtain ⟨bt, hbt⟩ :=
                    stripChars_cons_of_head (c := '{') (by decide)
                      (dtl.take ((pyStrip raw).data.length - 1 - jr - i))
                  have hblobdata :
                      (pyStrip ⟨((pyStrip raw).data.drop i).take
                          ((pyStrip raw).data.length - 1 - jr + 1 - i)⟩).data
                        = '{' :: bt := by
                    rw [pyStrip_data]
                    show stripChars (((pyStrip raw).data.drop i).take
                      ((pyStrip raw).data.length - 1 - jr + 1 - i)) = _
                    rw [htake, hbt]
                  cases hload : jsonLoads
                      (pyStrip ⟨((pyStrip raw).data.drop i).take
                        ((pyStrip raw).data.length - 1 - jr + 1 - i)⟩) with
                  | some v =>
                      obtain ⟨kvs, rfl⟩ :=
                        jsonLoads_brace_obj hload ⟨bt, hblobdata⟩
                      exact ⟨kvs, rfl⟩
                  | none =>
                      have hcoll :
                          (⟨collapseDoubleQuotes
                            (pyStrip ⟨((pyStrip raw).data.drop i).take
                              ((pyStrip raw).data.length - 1 - jr + 1 - i)⟩).data⟩ :
                              String).data
                            = '{' :: collapseDoubleQuotes bt := by
                        show collapseDoubleQuotes _ = _
                        rw [hblobdata]
                        exact collapseDoubleQuotes_cons_ne (by decide) bt
                      cases hload2 : jsonLoads
                          ⟨collapseDoubleQuotes
                            (pyStrip ⟨((pyStrip raw).data.drop i).take
                              ((pyStrip raw).data.length - 1 - jr + 1 - i)⟩).data⟩ with
                      | some v =>
                          obtain ⟨kvs, rfl⟩ :=
                            jsonLoads_brace_obj hload2
                              ⟨collapseDoubleQuotes bt, hcoll⟩
                          exact ⟨kvs, rfl⟩
                      | none =>
                          unfold noteFallback
                          cases noteSearch _ <;> simp

/-- Witness for C8 at a concrete archive listing. -/
theorem C8_zip_selection_witness :
    zipSelect ["data/readme.txt", "data/a.json", "data/project_b.json",
        "sheet.XLSX"] =
      .ok ("data/project_b.json", "sheet.XLSX", "project_b_updated.json") ∧
    zipSelect ["only.xlsx"] = .error .noJson := by
  constructor
  · rfl
  · exact (C8_zip_selection.1 ["only.xlsx"]).mpr (by rfl)

/-! ## C2 — unmatched-id conservation -/

/-- C2 (amended, table variant): a document whose id has no surviving row
group in the edited sheet is returned untouched by
`apply_excel_desc_to_json`, on both the `유형`-mapped path and the legacy
path — no slot is written, deleted, or cleaned up. -/
theorem C2_unmatched_id_conservation (data : TableData) (df : TableDf)
    (sb : Bool) (i : Nat) (doc : TableDoc)
    (hget : data.document[i]? = some doc)
    (hnoTyped : hasGroupTyped df sb doc.id = false)
    (hnoOld : collectSentencesById df doc.id = []) :
    (applyTableJson data df sb).document[i]? = some doc := by
  unfold applyTableJson
  cases ht : df.hasTyp with
  | true =>
      rw [if_pos rfl]
      rw [List.getElem?_map, hget]
      simp [hnoTyped]
  | false =>
      rw [if_neg (by simp)]
      rw [List.getElem?_map, hget]
      simp [hnoOld]

/-- Witness for C2 at a concrete document and sheet (both paths). -/
theorem C2_unmatched_id_conservation_witness :
    (applyTableJson ⟨[fixC9TableDoc]⟩ fixC2wTypedDf true).document[0]?
        = some fixC9TableDoc ∧
    (applyTableJson ⟨[fixC9TableDoc]⟩ fixC2wOldDf true).document[0]?
        = some fixC9TableDoc := by
  constructor
  · exact C2_unmatched_id_conservation _ _ _ 0 fixC9TableDoc rfl (by rfl) (by rfl)
  · exact C2_unmatched_id_conservation _ _ _ 0 fixC9TableDoc rfl (by rfl) (by rfl)

/-- C2 counterexample for the photo variant named by the claim:
`apply_excel_desc_to_photo_json` treats a missing row group as zero edited
rows, so every live slot of the unmatched document `D1` is deleted (and the
emptied container cleaned away) — its slots are not left unchanged. -/
theorem C2_photo_counterexample :
    ((applyPhotoJson ⟨[fixC2Doc]⟩ fixC2Df false).document.map photoSlots
        = [[]]) ∧
    (⟨[fixC2Doc]⟩ : PhotoData).document.map photoSlots = [[.oldL "text"]] := by
  exact ⟨rfl, rfl⟩

/-! ## C9 — zero-slot representation in the forward extraction -/

/-- C9 (amended, photo variant): a document none of whose entries yields an
extracted pair still produces exactly one row, with empty `유형` and
`설명 문장` cells, keeping the document representable and groupable. -/
theorem C9_zero_slot_photo (l1 l2 : List PhotoDoc) (doc : PhotoDoc)
    (h : extractSentences doc = []) :
    toRows ⟨l1 ++ doc :: l2⟩ =
      toRows ⟨l1⟩ ++
        ({ id := some doc.id
           workerIdCnst := some doc.workerIdCnst
           mediumCategory := some (pyOrBlank (getd
             (match doc.metadata with
              | .jobj kvs => if kvs.isEmpty then [] else kvs
              | _ => []) "Medium_category" (.jstr "")))
           typ := some ""
           sent := some ""
           metadata := some (formatMetadataAndUrl
             (match doc.metadata with
              | .jobj kvs => if kvs.isEmpty then [] else kvs
              | _ => [])).1
           memo := some (extractMdfcnMemo doc.mdfcnInfos) } : PhotoRow) ::
        toRows ⟨l2⟩ := by
  unfold toRows
  simp only [List.flatMap_append, List.flatMap_cons]
  rw [h]
  rfl

/-- Witness for C9 at a concrete zero-pair document. -/
theorem C9_zero_slot_photo_witness :
    toRows ⟨[] ++ fixC9PhotoDoc :: []⟩ =
      toRows ⟨([] : List PhotoDoc)⟩ ++
        ({ id := some fixC9PhotoDoc.id
           workerIdCnst := some fixC9PhotoDoc.workerIdCnst
           mediumCategory := some (pyOrBlank (getd
             (match fixC9PhotoDoc.metadata with
              | .jobj kvs => if kvs.isEmpty then [] else kvs
              | _ => []) "Medium_category" (.jstr "")))
           typ := some ""
           sent := some ""
           metadata := some (formatMetadataAndUrl
             (match fixC9PhotoDoc.metadata with
              | .jobj kvs => if kvs.isEmpty then [] else kvs
              | _ => [])).1
           memo := some (extractMdfcnMemo fixC9PhotoDoc.mdfcnInfos) } : PhotoRow) ::
        toRows ⟨([] : List PhotoDoc)⟩ :=
  C9_zero_slot_photo [] [] fixC9PhotoDoc rfl

/-- C9 counterexample: in the table variant the claim fails outright — an
example entry with no `exp_sentence` produces no row at all, so a document
made of such entries is not represented in the export. -/
theorem C9_counterexample :
    tableRows ⟨[fixC9TableDoc]⟩ = [] ∧
    (⟨[fixC9TableDoc]⟩ : TableData).document.length = 1 := by
  exact ⟨rfl, rfl⟩


/-! ## C3 — the deletion law of the photo reconciler -/

/-- C3 (corrected): with `skip_blank=False` one reconciliation pass realizes
the per-index row actions on the slot sequence; a row whose label and
sentence cells are both blank acts as `none` (deleting exactly its paired
slot from the realized sequence), and a row with a non-blank sentence never
deletes any slot.  The claim's stronger reading — that any non-blank label
alone also protects the slot — is refuted by `C3_counterexample`. -/
theorem C3_deletion_law (df : PhotoDf) (doc : PhotoDoc)
    (hwf : wfDoc doc = true) (hne : (photoSlots doc).isEmpty = false) :
    photoSlots (applySlotsDoc df false doc)
      = expectedSlots (rowAct (collectPairsById df false doc.id)) 0
          (photoSlots doc)
    ∧ (∀ i r, (collectPairsById df false doc.id).get? i = some r →
        pyStrip r.1 = "" → pyStrip r.2 = "" →
        ∀ sv, slotOutcome (rowAct (collectPairsById df false doc.id)) i sv
          = none)
    ∧ (∀ i r sv, (collectPairsById df false doc.id).get? i = some r →
        pyStrip r.2 ≠ "" →
        slotOutcome (rowAct (collectPairsById df false doc.id)) i sv
          ≠ none) := by
  refine ⟨(applySlots_char df false doc hwf (Or.inl hne)).1, ?_, ?_⟩
  · intro i r hg h1 h2 sv
    exact slotOutcome_none (rowAct_blank hg h1 h2) sv
  · intro i r sv hg hb
    rw [slotOutcome_some (rowAct_of_get hg (fun hc => hb hc.2)) sv]
    obtain ⟨t, b⟩ := r
    exact writeOutcome_some_of_sent sv t b hb

/-- Witness for C3 at a concrete document and sheet. -/
theorem C3_deletion_law_witness :
    (wfDoc fixC34Doc = true ∧ (photoSlots fixC34Doc).isEmpty = false)
    ∧ (photoSlots (applySlotsDoc fixC34Df false fixC34Doc)
        = expectedSlots (rowAct (collectPairsById fixC34Df false
            fixC34Doc.id)) 0 (photoSlots fixC34Doc)
      ∧ (∀ i r, (collectPairsById fixC34Df false fixC34Doc.id).get? i
            = some r →
          pyStrip r.1 = "" → pyStrip r.2 = "" →
          ∀ sv, slotOutcome (rowAct (collectPairsById fixC34Df false
            fixC34Doc.id)) i sv = none)
      ∧ (∀ i r sv, (collectPairsById fixC34Df false fixC34Doc.id).get? i
            = some r →
          pyStrip r.2 ≠ "" →
          slotOutcome (rowAct (collectPairsById fixC34Df false
            fixC34Doc.id)) i sv ≠ none)) :=
  ⟨⟨by decide, by decide⟩,
   C3_deletion_law fixC34Df fixC34Doc (by decide) (by decide)⟩

/-- C3 counterexample: the row `(유형 = "[]", 설명 문장 = "")` has a
non-blank label, yet reconciling it deletes the paired slot (the degenerate
bracket label unwraps to an empty type and the prior sentence is blank, so
the write leaves the slot empty and the cleanup removes it). -/
theorem C3_counterexample :
    collectPairsById fixC34Df false fixC34Doc.id = [("[]", "")]
    ∧ pyStrip "[]" ≠ ""
    ∧ (photoSlots fixC34Doc).length = 1
    ∧ photoSlots (applySlotsDoc fixC34Df false fixC34Doc) = [] := by
  exact ⟨by decide, by decide, by decide, by decide⟩

/-! ## C5 — tail truncation -/

/-- C5 (corrected): when the edited rows for an id number fewer than the
live slots, every slot beyond the row range is deleted — the realized
sequence is drawn entirely from the first `|rows|` slots — and at most
`|rows|` slots survive.  The claim's stronger reading — that *exactly* the
excess trailing slots are deleted and the retained ones correspond 1:1 to
the rows — is refuted by `C5_counterexample`: rows inside the range can
still delete their paired slot. -/
theorem C5_tail_truncation (df : PhotoDf) (doc : PhotoDoc)
    (hwf : wfDoc doc = true) (hne : (photoSlots doc).isEmpty = false)
    (hlen : (collectPairsById df false doc.id).length
      < (photoSlots doc).length) :
    photoSlots (applySlotsDoc df false doc)
      = expectedSlots (rowAct (collectPairsById df false doc.id)) 0
          ((photoSlots doc).take (collectPairsById df false doc.id).length)
    ∧ (photoSlots (applySlotsDoc df false doc)).length
        ≤ (collectPairsById df false doc.id).length := by
  have hchar := (applySlots_char df false doc hwf (Or.inl hne)).1
  have hnone : ∀ i, (collectPairsById df false doc.id).length ≤ i →
      rowAct (collectPairsById df false doc.id) i = none := by
    intro i hi
    exact rowAct_past (List.get?_eq_none.mpr hi)
  have htake := expectedSlots_eq_take
    (rowAct (collectPairsById df false doc.id))
    (collectPairsById df false doc.id).length hnone (photoSlots doc)
    (Nat.le_of_lt hlen)
  refine ⟨by rw [hchar, htake], ?_⟩
  rw [hchar, htake]
  have hle := expectedSlots_length_le
    (rowAct (collectPairsById df false doc.id)) 0
    ((photoSlots doc).take (collectPairsById df false doc.id).length)
  rw [List.length_take, Nat.min_eq_left (Nat.le_of_lt hlen)] at hle
  exact hle

/-- Witness for C5 at a concrete two-slot document with one edited row. -/
theorem C5_tail_truncation_witness :
    (wfDoc fixC5Doc = true ∧ (photoSlots fixC5Doc).isEmpty = false
      ∧ (collectPairsById fixC5Df false fixC5Doc.id).length
          < (photoSlots fixC5Doc).length)
    ∧ (photoSlots (applySlotsDoc fixC5Df false fixC5Doc)
        = expectedSlots (rowAct (collectPairsById fixC5Df false
            fixC5Doc.id)) 0
            ((photoSlots fixC5Doc).take
              (collectPairsById fixC5Df false fixC5Doc.id).length)
      ∧ (photoSlots (applySlotsDoc fixC5Df false fixC5Doc)).length
          ≤ (collectPairsById fixC5Df false fixC5Doc.id).length) :=
  ⟨⟨by decide, by decide, by decide⟩,
   C5_tail_truncation fixC5Df fixC5Doc (by decide) (by decide) (by decide)⟩

/-- C5 counterexample: two live slots, one edited (blank-blank) row.  The
claim predicts that only the single excess trailing slot is deleted and one
slot is retained for the one row; in fact the blank row also deletes its
paired slot, and nothing survives. -/
theorem C5_counterexample :
    (collectPairsById fixC5Df false fixC5Doc.id).length = 1
    ∧ (photoSlots fixC5Doc).length = 2
    ∧ photoSlots (applySlotsDoc fixC5Df false fixC5Doc) = [] := by
  exact ⟨by decide, by decide, by decide⟩


/-! ## Reparse lemmas: `_compose_text_with_type` output under
`TYPE_BRACKET_RE` -/

theorem dropWhile_head_false {p : Char → Bool} {l : List Char}
    (h : l.dropWhile p = l) : ∀ c ∈ l.head?, p c = false := by
  intro c hc
  cases l with
  | nil => simp at hc
  | cons a t =>
      rw [List.head?_cons, Option.mem_some_iff] at hc
      rw [← hc]
      by_cases hp : p a
      · rw [List.dropWhile_cons, if_pos hp] at h
        have h1 := congrArg List.length h
        have h2 : (List.dropWhile p t).length ≤ t.length :=
          List.Sublist.length_le (List.dropWhile_sublist p)
        rw [List.length_cons] at h1
        omega
      · simpa using hp

theorem stripChars_getLast_not_ws {l : List Char} (h : stripChars l = l) :
    ∀ c ∈ l.getLast?, Char.isWhitespace c = false := by
  have ht := stripChars_self_trimR h
  unfold trimR at ht
  have h2 : l.reverse.dropWhile Char.isWhitespace = l.reverse := by
    have h3 := congrArg List.reverse ht
    rwa [List.reverse_reverse] at h3
  intro c hc
  rw [← List.head?_reverse] at hc
  exact dropWhile_head_false h2 c hc

theorem tbScan_cons (acc : List Char) (c : Char) (tl : List Char) :
    tbScan acc (c :: tl) =
      (if c = '\n' then none
       else if c = ']' && !acc.isEmpty then
         (match tailCapture tl with
          | some cap => some (acc.reverse, cap)
          | none => tbScan (c :: acc) tl)
       else tbScan (c :: acc) tl) := rfl

theorem tbScan_skip (T : List Char) (acc rest : List Char)
    (h : ∀ c ∈ T, ¬c = '\n' ∧ ¬c = ']') :
    tbScan acc (T ++ rest) = tbScan (T.reverse ++ acc) rest := by
  induction T generalizing acc with
  | nil => simp
  | cons c T2 ih =>
      have hc := h c (List.mem_cons_self ..)
      rw [List.cons_append, tbScan_cons, if_neg hc.1,
        if_neg (by simp [hc.2]),
        show (c :: T2).reverse ++ acc = T2.reverse ++ (c :: acc) from by simp]
      exact ih (c :: acc) (fun x hx => h x (List.mem_cons_of_mem _ hx))

theorem tailCapture_nil : tailCapture [] = some [] := rfl

theorem tailCapture_stripped (B : List Char)
    (hB : B.dropWhile Char.isWhitespace = B) (hBn : ∀ c ∈ B, ¬c = '\n') :
    tailCapture (' ' :: B) = some B := by
  unfold tailCapture
  rw [show List.dropWhile Char.isWhitespace (' ' :: B) = B from by
    rw [List.dropWhile_cons, if_pos (by decide)]
    exact hB]
  have hcont : B.contains '\n' = false := by
    cases hc2 : B.contains '\n'
    · rfl
    · exfalso
      rw [List.contains_eq_any_beq, List.any_eq_true] at hc2
      obtain ⟨x, hxm, hxe⟩ := hc2
      rw [beq_iff_eq] at hxe
      exact hBn x hxm hxe.symm
  cases hrev : B.reverse with
  | nil =>
      have hBnil : B = [] := by
        have h3 := congrArg List.reverse hrev
        rwa [List.reverse_reverse] at h3
      subst hBnil
      rfl
  | cons c0 rev =>
      have hc0B : c0 ∈ B := by
        have h4 : c0 ∈ B.reverse := by
          rw [hrev]
          exact List.mem_cons_self ..
        exact List.mem_reverse.mp h4
      show (match B.reverse with
            | [] => some B
            | c :: rev =>
                if c = '\n' then
                  (if rev.reverse.contains '\n' = true then none
                   else some rev.reverse)
                else if B.contains '\n' = true then none else some B)
          = some B
      rw [hrev]
      show (if c0 = '\n' then
              (if rev.reverse.contains '\n' = true then none
               else some rev.reverse)
            else if B.contains '\n' = true then none else some B) = some B
      rw [if_neg (hBn c0 hc0B), if_neg (by rw [hcont]; exact Bool.false_ne_true)]

theorem bracket_data_nosp (T : String) :
    ("[" ++ T ++ "]").data = '[' :: (T.data ++ [']']) := rfl

theorem typeBracketMatch_wrap (T B : String) (hT : T.data ≠ [])
    (hTn : ∀ c ∈ T.data, ¬c = '\n' ∧ ¬c = ']')
    (hBs : B.data.dropWhile Char.isWhitespace = B.data)
    (hBn : ∀ c ∈ B.data, ¬c = '\n') :
    typeBracketMatch ("[" ++ T ++ "] " ++ B) = some (T, B) := by
  unfold typeBracketMatch
  rw [bracket_data,
    show List.dropWhile Char.isWhitespace
        ('[' :: ((T.data ++ "] ".data) ++ B.data))
      = '[' :: ((T.data ++ "] ".data) ++ B.data) from by
      rw [List.dropWhile_cons, if_neg (by decide)]]
  show (match tbScan [] ((T.data ++ "] ".data) ++ B.data) with
        | some (t, r) => some ((⟨t⟩ : String), (⟨r⟩ : String))
        | none => none) = some (T, B)
  rw [show (T.data ++ "] ".data) ++ B.data
      = T.data ++ (']' :: ' ' :: B.data) from by
      rw [List.append_assoc]
      rfl,
    tbScan_skip T.data [] _ hTn, List.append_nil, tbScan_cons,
    if_neg (by decide)]
  have hne : (T.data.reverse).isEmpty = false := by
    cases hie : (T.data.reverse).isEmpty
    · rfl
    · exfalso
      rw [List.isEmpty_iff] at hie
      have h3 := congrArg List.reverse hie
      rw [List.reverse_reverse] at h3
      exact hT h3
  rw [if_pos (by rw [hne]; rfl), tailCapture_stripped B.data hBs hBn]
  show some ((⟨T.data.reverse.reverse⟩ : String), (⟨B.data⟩ : String))
      = some (T, B)
  rw [List.reverse_reverse]

theorem typeBracketMatch_wrap_nosp (T : String) (hT : T.data ≠ [])
    (hTn : ∀ c ∈ T.data, ¬c = '\n' ∧ ¬c = ']') :
    typeBracketMatch ("[" ++ T ++ "]") = some (T, "") := by
  unfold typeBracketMatch
  rw [bracket_data_nosp,
    show List.dropWhile Char.isWhitespace ('[' :: (T.data ++ [']']))
      = '[' :: (T.data ++ [']']) from by
      rw [List.dropWhile_cons, if_neg (by decide)]]
  show (match tbScan [] (T.data ++ [']']) with
        | some (t, r) => some ((⟨t⟩ : String), (⟨r⟩ : String))
        | none => none) = some (T, "")
  rw [show T.data ++ [']'] = T.data ++ (']' :: []) from rfl,
    tbScan_skip T.data [] _ hTn, List.append_nil, tbScan_cons,
    if_neg (by decide)]
  have hne : (T.data.reverse).isEmpty = false := by
    cases hie : (T.data.reverse).isEmpty
    · rfl
    · exfalso
      rw [List.isEmpty_iff] at hie
      have h3 := congrArg List.reverse hie
      rw [List.reverse_reverse] at h3
      exact hT h3
  rw [if_pos (by rw [hne]; rfl), tailCapture_nil]
  show some ((⟨T.data.reverse.reverse⟩ : String), (⟨([] : List Char)⟩ : String))
      = some (T, "")
  rw [List.reverse_reverse]


theorem data_ne_nil {s : String} (h : s ≠ "") : s.data ≠ [] := by
  intro hd
  apply h
  rw [← show (⟨s.data⟩ : String) = s from rfl, hd]

theorem pyStrip_data_eq {s : String} (h : pyStrip s = s) :
    stripChars s.data = s.data := by
  have h2 := congrArg String.data h
  rwa [pyStrip_data] at h2

/-- The composed `[T] B` with non-blank stripped `B` is already stripped. -/
theorem pyStrip_compose_eq_self (T B : String)
    (hBs : stripChars B.data = B.data) (hBne : B.data ≠ []) :
    pyStrip ("[" ++ T ++ "] " ++ B) = "[" ++ T ++ "] " ++ B := by
  refine pyStrip_eq_self ?_ ?_
  · rw [bracket_data]
    intro c hc
    rw [List.head?_cons, Option.mem_some_iff] at hc
    rw [← hc]
    decide
  · rw [bracket_data]
    intro c hc
    rw [show ('[' :: ((T.data ++ "] ".data) ++ B.data))
        = ('[' :: (T.data ++ "] ".data)) ++ B.data from by simp,
      List.getLast?_append] at hc
    cases hB : B.data.getLast? with
    | none =>
        exfalso
        cases hBd : B.data with
        | nil => exact hBne hBd
        | cons x xs =>
            rw [hBd] at hB
            rw [List.getLast?_eq_getLast _ (by simp)] at hB
            exact Option.noConfusion hB
    | some b =>
        rw [hB] at hc
        have hc2 : b = c := by simpa using hc
        rw [← hc2]
        exact stripChars_getLast_not_ws hBs b
          (by rw [hB]; exact Option.mem_some_iff.mpr rfl)

/-- Stripping the composed `[T] ` with blank body removes only the
trailing space. -/
theorem pyStrip_bracket_sp (T : String) :
    pyStrip ("[" ++ T ++ "] ") = "[" ++ T ++ "]" := by
  show (⟨stripChars ("[" ++ T ++ "] ").data⟩ : String) = _
  rw [show ("[" ++ T ++ "] ").data = '[' :: (T.data ++ [']', ' ']) from rfl,
    stripChars_eq_trimR,
    show List.dropWhile Char.isWhitespace ('[' :: (T.data ++ [']', ' ']))
      = '[' :: (T.data ++ [']', ' ']) from by
      rw [List.dropWhile_cons, if_neg (by decide)]]
  unfold trimR
  rw [show ('[' :: (T.data ++ [']', ' '])).reverse
      = ' ' :: (']' :: (T.data.reverse ++ ['['])) from by simp,
    List.dropWhile_cons, if_pos (by decide),
    List.dropWhile_cons, if_neg (by decide),
    show (']' :: (T.data.reverse ++ ['['])).reverse
      = ('[' :: T.data) ++ [']'] from by simp]
  rfl

/-- Re-extraction of composed text: a clean label and a stripped
newline-free body come back exactly. -/
theorem oldPairOf_compose (T B : String)
    (hT : T ≠ "") (hTs : pyStrip T = T)
    (hTn : ∀ c ∈ T.data, ¬c = '\n' ∧ ¬c = ']')
    (hBs : pyStrip B = B) (hBn : ∀ c ∈ B.data, ¬c = '\n') :
    oldPairOf (pyStrip ("[" ++ T ++ "] " ++ B)) = (T, B) := by
  have hTd : T.data ≠ [] := data_ne_nil hT
  by_cases hBne : B.data = []
  · have hB0 : B = "" := by
      rw [← show (⟨B.data⟩ : String) = B from rfl, hBne]
    subst hB0
    rw [show ("[" ++ T ++ "] " ++ "") = "[" ++ T ++ "] " from by
        rw [String.append_empty],
      pyStrip_bracket_sp]
    unfold oldPairOf
    rw [typeBracketMatch_wrap_nosp T hTd hTn]
    show (pyStrip T, pyStrip "") = (T, "")
    rw [hTs]
    rfl
  · rw [pyStrip_compose_eq_self T B (pyStrip_data_eq hBs) hBne]
    unfold oldPairOf
    rw [typeBracketMatch_wrap T B hTd hTn
      (stripChars_self_dropWhile (pyStrip_data_eq hBs)) hBn]
    show (pyStrip T, pyStrip B) = (T, B)
    rw [hTs, hBs]


/-! ### Character provenance of the regex captures -/

theorem tailCapture_mem (rest cap : List Char)
    (h : tailCapture rest = some cap) : ∀ c ∈ cap, c ∈ rest := by
  have hsub : (rest.dropWhile Char.isWhitespace).Sublist rest :=
    List.dropWhile_sublist _
  have h2 : (match (rest.dropWhile Char.isWhitespace).reverse with
      | [] => some (rest.dropWhile Char.isWhitespace)
      | c :: rev =>
          if c = '\n' then
            (if rev.reverse.contains '\n' = true then none
             else some rev.reverse)
          else if (rest.dropWhile Char.isWhitespace).contains '\n' = true
            then none
            else some (rest.dropWhile Char.isWhitespace)) = some cap := h
  cases hrev : (rest.dropWhile Char.isWhitespace).reverse with
  | nil =>
      rw [hrev] at h2
      have hcap : rest.dropWhile Char.isWhitespace = cap := Option.some.inj h2
      intro c hc
      rw [← hcap] at hc
      exact hsub.subset hc
  | cons c0 rev =>
      rw [hrev] at h2
      have h4 : (if c0 = '\n' then
            (if rev.reverse.contains '\n' = true then none
             else some rev.reverse)
          else if (rest.dropWhile Char.isWhitespace).contains '\n' = true
            then none
            else some (rest.dropWhile Char.isWhitespace)) = some cap := h2
      have hdw : rest.dropWhile Char.isWhitespace = rev.reverse ++ [c0] := by
        have h3 := congrArg List.reverse hrev
        rwa [List.reverse_reverse, List.reverse_cons] at h3
      by_cases hc0 : c0 = '\n'
      · rw [if_pos hc0] at h4
        by_cases hcont : rev.reverse.contains '\n' = true
        · rw [if_pos hcont] at h4
          exact absurd h4 (fun hh => Option.noConfusion hh)
        · rw [if_neg hcont] at h4
          have hcap : rev.reverse = cap := Option.some.inj h4
          intro c hc
          rw [← hcap] at hc
          apply hsub.subset
          rw [hdw]
          exact List.mem_append_left _ hc
      · rw [if_neg hc0] at h4
        by_cases hcont :
            (rest.dropWhile Char.isWhitespace).contains '\n' = true
        · rw [if_pos hcont] at h4
          exact absurd h4 (fun hh => Option.noConfusion hh)
        · rw [if_neg hcont] at h4
          have hcap : rest.dropWhile Char.isWhitespace = cap :=
            Option.some.inj h4
          intro c hc
          rw [← hcap] at hc
          exact hsub.subset hc

theorem tbScan_mem (l : List Char) : ∀ acc g r, tbScan acc l = some (g, r) →
    (∀ c ∈ g, c ∈ acc ∨ c ∈ l) ∧ (∀ c ∈ r, c ∈ l) := by
  induction l with
  | nil => intro acc g r h; exact Option.noConfusion h
  | cons d tl ih =>
      intro acc g r h
      rw [tbScan_cons] at h
      by_cases hd : d = '\n'
      · rw [if_pos hd] at h
        exact Option.noConfusion h
      · rw [if_neg hd] at h
        have hrec : tbScan (d :: acc) tl = some (g, r) →
            (∀ c ∈ g, c ∈ acc ∨ c ∈ d :: tl) ∧ (∀ c ∈ r, c ∈ d :: tl) := by
          intro hr
          have hih := ih (d :: acc) g r hr
          constructor
          · intro c hc
            rcases hih.1 c hc with hin | hin
            · rcases List.mem_cons.mp hin with hh | hh
              · exact Or.inr (hh ▸ List.mem_cons_self ..)
              · exact Or.inl hh
            · exact Or.inr (List.mem_cons_of_mem _ hin)
          · intro c hc
            exact List.mem_cons_of_mem _ (hih.2 c hc)
        by_cases hcl : (d = ']' && !acc.isEmpty) = true
        · rw [if_pos hcl] at h
          cases htc : tailCapture tl with
          | some cap =>
              rw [htc] at h
              have hp := Option.some.inj h
              have hg : acc.reverse = g := congrArg Prod.fst hp
              have hr2 : cap = r := congrArg Prod.snd hp
              constructor
              · intro c hc
                rw [← hg] at hc
                exact Or.inl (List.mem_reverse.mp hc)
              · intro c hc
                rw [← hr2] at hc
                exact List.mem_cons_of_mem _ (tailCapture_mem tl cap htc c hc)
          | none =>
              rw [htc] at h
              exact hrec h
        · rw [if_neg hcl] at h
          exact hrec h

theorem typeBracketMatch_mem (s : String) (g1 g2 : String)
    (h : typeBracketMatch s = some (g1, g2)) :
    (∀ c ∈ g1.data, c ∈ s.data) ∧ (∀ c ∈ g2.data, c ∈ s.data) := by
  have hsub : (s.data.dropWhile Char.isWhitespace).Sublist s.data :=
    List.dropWhile_sublist _
  have h2 : (match s.data.dropWhile Char.isWhitespace with
      | c :: tl =>
          if c = '[' then
            (match tbScan [] tl with
             | some (t, r) => some ((⟨t⟩ : String), (⟨r⟩ : String))
             | none => none)
          else none
      | [] => none) = some (g1, g2) := h
  cases hdrop : s.data.dropWhile Char.isWhitespace with
  | nil =>
      rw [hdrop] at h2
      exact Option.noConfusion h2
  | cons c0 tl =>
      rw [hdrop] at h2
      have h4 : (if c0 = '[' then
            (match tbScan [] tl with
             | some (t, r) => some ((⟨t⟩ : String), (⟨r⟩ : String))
             | none => none)
          else none) = some (g1, g2) := h2
      by_cases hc0 : c0 = '['
      · rw [if_pos hc0] at h4
        cases hsc : tbScan [] tl with
        | none =>
            rw [hsc] at h4
            exact Option.noConfusion h4
        | some p =>
            obtain ⟨t, r⟩ := p
            rw [hsc] at h4
            have hp := Option.some.inj h4
            have hg1 : (⟨t⟩ : String) = g1 := congrArg Prod.fst hp
            have hg2 : (⟨r⟩ : String) = g2 := congrArg Prod.snd hp
            have hmem := tbScan_mem tl [] t r hsc
            have htl : ∀ c ∈ tl, c ∈ s.data := by
              intro c hc
              apply hsub.subset
              rw [hdrop]
              exact List.mem_cons_of_mem _ hc
            constructor
            · intro c hc
              rw [← hg1] at hc
              rcases hmem.1 c hc with hin | hin
              · exact absurd hin (List.not_mem_nil c)
              · exact htl c hin
            · intro c hc
              rw [← hg2] at hc
              exact htl c (hmem.2 c hc)
      · rw [if_neg hc0] at h4
        exact Option.noConfusion h4


/-! ## C4 — partial updates -/

theorem writeOld_eq (raw t b : String) :
    writeOld raw t b = composeTextWithType raw (pyStrip b) (pyStrip t) := rfl

theorem mem_of_pyStrip {x : String} {c : Char} (hc : c ∈ (pyStrip x).data) :
    c ∈ x.data := by
  rw [pyStrip_data] at hc
  exact (stripChars_sublist x.data).subset hc

theorem unwrapTypeCell_pyStrip_stripped (t : String) :
    pyStrip (unwrapTypeCell (pyStrip t)) = unwrapTypeCell (pyStrip t) := by
  unfold unwrapTypeCell
  apply pyStrip_ite
  · exact pyStrip_idem _
  · exact pyStrip_idem _

theorem composeTextWithType_parse (raw ns t g1 g2 : String)
    (hp : typeBracketMatch raw = some (g1, g2)) :
    composeTextWithType raw ns t =
      (if (if unwrapTypeCell (pyStrip t) ≠ "" then unwrapTypeCell (pyStrip t)
           else pyStrip g1) ≠ "" then
        pyStrip ("["
          ++ (if unwrapTypeCell (pyStrip t) ≠ "" then unwrapTypeCell (pyStrip t)
              else pyStrip g1) ++ "] "
          ++ (if pyStrip ns ≠ "" then pyStrip ns else pyStrip g2))
       else (if pyStrip ns ≠ "" then pyStrip ns else pyStrip g2)) := by
  rw [composeTextWithType_eq, hp]

/-- Sentence-only edit on a labelled old-style slot: the label survives. -/
theorem writeOld_sent_only (raw t b g1 g2 : String)
    (hp : typeBracketMatch raw = some (g1, g2))
    (hg1 : pyStrip g1 ≠ "")
    (hg1b : ∀ c ∈ (pyStrip g1).data, ¬c = ']')
    (hrawn : ∀ c ∈ raw.data, ¬c = '\n')
    (ht : pyStrip t = "") (hb : pyStrip b ≠ "")
    (hbn : ∀ c ∈ b.data, ¬c = '\n') :
    oldPairOf (writeOld raw t b) = (pyStrip g1, pyStrip b) := by
  rw [writeOld_eq, composeTextWithType_parse raw (pyStrip b) (pyStrip t)
    g1 g2 hp]
  simp only [pyStrip_idem]
  rw [ht, show unwrapTypeCell "" = "" from rfl,
    show (if ("" : String) ≠ "" then ("" : String) else pyStrip g1)
      = pyStrip g1 from by simp,
    if_pos hg1, if_pos hb]
  apply oldPairOf_compose
  · exact hg1
  · exact pyStrip_idem g1
  · intro c hc
    refine ⟨?_, hg1b c hc⟩
    have hg1raw := (typeBracketMatch_mem raw g1 g2 hp).1
    exact hrawn c (hg1raw c (mem_of_pyStrip hc))
  · exact pyStrip_idem b
  · intro c hc
    exact hbn c (mem_of_pyStrip hc)

/-- Label-only edit on a parsed old-style slot: the body survives. -/
theorem writeOld_label_only (raw t g1 g2 : String)
    (hp : typeBracketMatch raw = some (g1, g2))
    (hrawn : ∀ c ∈ raw.data, ¬c = '\n')
    (hu : unwrapTypeCell (pyStrip t) ≠ "")
    (hub : ∀ c ∈ (unwrapTypeCell (pyStrip t)).data, ¬c = '\n' ∧ ¬c = ']') :
    oldPairOf (writeOld raw t "") = (unwrapTypeCell (pyStrip t), pyStrip g2) := by
  rw [writeOld_eq, composeTextWithType_parse raw (pyStrip "") (pyStrip t)
    g1 g2 hp]
  simp only [pyStrip_idem]
  rw [show pyStrip "" = "" from rfl,
    show (if unwrapTypeCell (pyStrip t) ≠ ""
        then unwrapTypeCell (pyStrip t) else pyStrip g1)
      = unwrapTypeCell (pyStrip t) from if_pos hu,
    if_pos hu, if_neg (by simp)]
  apply oldPairOf_compose
  · exact hu
  · exact unwrapTypeCell_pyStrip_stripped t
  · exact hub
  · exact pyStrip_idem g2
  · intro c hc
    have hg2raw := (typeBracketMatch_mem raw g1 g2 hp).2
    exact hrawn c (hg2raw c (mem_of_pyStrip hc))

/-- C4 (corrected): the blank side of an edited row never overwrites the
prior value — a blank label keeps the prior feature (old type), a blank
sentence keeps the prior text — and the non-blank side replaces its field;
for old-style slots this holds for labelled raw text with a clean label and
newline-free content.  The claim's unconditional reading is refuted by
`C4_counterexample`: a label whose bracket-unwrap is empty blanks the
feature instead of replacing it, and can delete the slot outright. -/
theorem C4_partial_update :
    (∀ (inner : List (String × JVal)) (t b : String), pyStrip t = "" →
       getd (writeNew inner t b) "feature" .jnull
         = .jstr (pyStrip (pyStrOrEmpty (getd inner "feature" .jnull))))
    ∧ (∀ (inner : List (String × JVal)) (t b : String), pyStrip b = "" →
       getd (writeNew inner t b) "sent" .jnull
         = .jstr (pyStrip (pyStrOrEmpty (getd inner "sent" .jnull))))
    ∧ (∀ (inner : List (String × JVal)) (t b : String), pyStrip b ≠ "" →
       getd (writeNew inner t b) "sent" .jnull = .jstr (pyStrip b))
    ∧ (∀ raw t b g1 g2 : String,
       typeBracketMatch raw = some (g1, g2) → pyStrip g1 ≠ "" →
       (∀ c ∈ (pyStrip g1).data, ¬c = ']') →
       (∀ c ∈ raw.data, ¬c = '\n') →
       pyStrip t = "" → pyStrip b ≠ "" → (∀ c ∈ b.data, ¬c = '\n') →
       oldPairOf (writeOld raw t b) = (pyStrip g1, pyStrip b))
    ∧ (∀ raw t g1 g2 : String,
       typeBracketMatch raw = some (g1, g2) →
       (∀ c ∈ raw.data, ¬c = '\n') →
       unwrapTypeCell (pyStrip t) ≠ "" →
       (∀ c ∈ (unwrapTypeCell (pyStrip t)).data, ¬c = '\n' ∧ ¬c = ']') →
       oldPairOf (writeOld raw t "")
         = (unwrapTypeCell (pyStrip t), pyStrip g2)) := by
  refine ⟨?_, ?_, ?_, ?_, ?_⟩
  · intro inner t b ht
    rw [writeNew_eq,
      getd_setKey_ne (show "sent" ≠ "feature" by decide), getd_setKey_same,
      ht, if_neg (by simp)]
  · intro inner t b hb
    rw [writeNew_eq, getd_setKey_same, hb, if_neg (by simp)]
  · intro inner t b hb
    rw [writeNew_eq, getd_setKey_same, if_pos hb]
  · intro raw t b g1 g2 hp hg1 hg1b hrawn ht hb hbn
    exact writeOld_sent_only raw t b g1 g2 hp hg1 hg1b hrawn ht hb hbn
  · intro raw t g1 g2 hp hrawn hu hub
    exact writeOld_label_only raw t g1 g2 hp hrawn hu hub

/-- Witness for C4 at concrete slots and cells. -/
theorem C4_partial_update_witness :
    getd (writeNew [("feature", .jstr "[A]"), ("sent", .jstr "x")] "" "new")
        "feature" .jnull = .jstr "[A]"
    ∧ getd (writeNew [("feature", .jstr "[A]"), ("sent", .jstr "x")] "[B]" "")
        "sent" .jnull = .jstr "x"
    ∧ getd (writeNew [("feature", .jstr "[A]"), ("sent", .jstr "x")] "" "new")
        "sent" .jnull = .jstr "new"
    ∧ oldPairOf (writeOld "[A] x" "" "new") = ("A", "new")
    ∧ oldPairOf (writeOld "[A] x" "[B]" "") = ("B", "x") := by
  refine ⟨?_, ?_, ?_, ?_, ?_⟩
  · exact (C4_partial_update.1 [("feature", .jstr "[A]"), ("sent", .jstr "x")]
      "" "new" (by decide)).trans (by rfl)
  · exact (C4_partial_update.2.1 [("feature", .jstr "[A]"), ("sent", .jstr "x")]
      "[B]" "" (by decide)).trans (by rfl)
  · exact (C4_partial_update.2.2.1
      [("feature", .jstr "[A]"), ("sent", .jstr "x")]
      "" "new" (by decide)).trans (by rfl)
  · exact (C4_partial_update.2.2.2.1 "[A] x" "" "new" "A" "x" (by decide)
      (by decide) (by decide) (by decide) (by decide) (by decide)
      (by decide)).trans (by decide)
  · exact (C4_partial_update.2.2.2.2 "[A] x" "[B]" "A" "x" (by decide)
      (by decide) (by decide) (by decide)).trans (by decide)

/-- C4 counterexample: the label-only edit `[]` does not replace the
feature with the given label — it blanks it — and on a slot whose prior
sentence is also blank it deletes the slot, so the untouched text is not
retained. -/
theorem C4_counterexample :
    getd (writeNew [("feature", .jstr "[old]"), ("sent", .jstr "x")] "[]" "")
        "feature" .jnull = .jstr ""
    ∧ collectPairsById fixC34Df false fixC34Doc.id = [("[]", "")]
    ∧ (photoSlots fixC34Doc).length = 1
    ∧ photoSlots (applySlotsDoc fixC34Df false fixC34Doc) = [] := by
  exact ⟨by rfl, by decide, by decide, by decide⟩


/-! ## C1 — round-trip machinery -/

theorem not_mem_of_contains_false {l : List Char} {c : Char}
    (h : l.contains c = false) : ∀ x ∈ l, ¬x = c := by
  intro x hx he
  subst he
  rw [List.contains_eq_any_beq, List.any_eq_false] at h
  exact absurd (by simp : (x == x) = true) (h x hx)

theorem tailCapture_no_newline (rest cap : List Char)
    (h : tailCapture rest = some cap) : ∀ c ∈ cap, ¬c = '\n' := by
  have h2 : (match (rest.dropWhile Char.isWhitespace).reverse with
      | [] => some (rest.dropWhile Char.isWhitespace)
      | c :: rev =>
          if c = '\n' then
            (if rev.reverse.contains '\n' = true then none
             else some rev.reverse)
          else if (rest.dropWhile Char.isWhitespace).contains '\n' = true
            then none
            else some (rest.dropWhile Char.isWhitespace)) = some cap := h
  cases hrev : (rest.dropWhile Char.isWhitespace).reverse with
  | nil =>
      rw [hrev] at h2
      have hcap := Option.some.inj h2
      have hr : rest.dropWhile Char.isWhitespace = [] := by
        have h3 := congrArg List.reverse hrev
        rwa [List.reverse_reverse] at h3
      rw [← hcap, hr]
      intro c hc
      exact absurd hc (List.not_mem_nil c)
  | cons c0 rev =>
      rw [hrev] at h2
      have h4 : (if c0 = '\n' then
            (if rev.reverse.contains '\n' = true then none
             else some rev.reverse)
          else if (rest.dropWhile Char.isWhitespace).contains '\n' = true
            then none
            else some (rest.dropWhile Char.isWhitespace)) = some cap := h2
      by_cases hc0 : c0 = '\n'
      · rw [if_pos hc0] at h4
        by_cases hcont : rev.reverse.contains '\n' = true
        · rw [if_pos hcont] at h4
          exact absurd h4 (fun hh => Option.noConfusion hh)
        · rw [if_neg hcont] at h4
          rw [← Option.some.inj h4]
          exact not_mem_of_contains_false (Bool.eq_false_iff.mpr hcont)
      · rw [if_neg hc0] at h4
        by_cases hcont :
            (rest.dropWhile Char.isWhitespace).contains '\n' = true
        · rw [if_pos hcont] at h4
          exact absurd h4 (fun hh => Option.noConfusion hh)
        · rw [if_neg hcont] at h4
          rw [← Option.some.inj h4]
          exact not_mem_of_contains_false (Bool.eq_false_iff.mpr hcont)

theorem tbScan_no_newline (l : List Char) :
    ∀ acc g r, tbScan acc l = some (g, r) → (∀ c ∈ acc, ¬c = '\n') →
      (∀ c ∈ g, ¬c = '\n') ∧ (∀ c ∈ r, ¬c = '\n') := by
  induction l with
  | nil => intro acc g r h hacc; exact Option.noConfusion h
  | cons d tl ih =>
      intro acc g r h hacc
      rw [tbScan_cons] at h
      by_cases hd : d = '\n'
      · rw [if_pos hd] at h
        exact Option.noConfusion h
      · rw [if_neg hd] at h
        have hacc2 : ∀ c ∈ d :: acc, ¬c = '\n' := by
          intro c hc
          rcases List.mem_cons.mp hc with hh | hh
          · rw [hh]; exact hd
          · exact hacc c hh
        by_cases hcl : (d = ']' && !acc.isEmpty) = true
        · rw [if_pos hcl] at h
          cases htc : tailCapture tl with
          | some cap =>
              rw [htc] at h
              have hp := Option.some.inj h
              have hg : acc.reverse = g := congrArg Prod.fst hp
              have hr2 : cap = r := congrArg Prod.snd hp
              constructor
              · intro c hc
                rw [← hg] at hc
                exact hacc c (List.mem_reverse.mp hc)
              · intro c hc
                rw [← hr2] at hc
                exact tailCapture_no_newline tl cap htc c hc
          | none =>
              rw [htc] at h
              exact ih (d :: acc) g r h hacc2
        · rw [if_neg hcl] at h
          exact ih (d :: acc) g r h hacc2

theorem typeBracketMatch_no_newline (s g1 g2 : String)
    (h : typeBracketMatch s = some (g1, g2)) :
    (∀ c ∈ g1.data, ¬c = '\n') ∧ (∀ c ∈ g2.data, ¬c = '\n') := by
  have h2 : (match s.data.dropWhile Char.isWhitespace with
      | c :: tl =>
          if c = '[' then
            (match tbScan [] tl with
             | some (t, r) => some ((⟨t⟩ : String), (⟨r⟩ : String))
             | none => none)
          else none
      | [] => none) = some (g1, g2) := h
  cases hdrop : s.data.dropWhile Char.isWhitespace with
  | nil =>
      rw [hdrop] at h2
      exact Option.noConfusion h2
  | cons c0 tl =>
      rw [hdrop] at h2
      have h4 : (if c0 = '[' then
            (match tbScan [] tl with
             | some (t, r) => some ((⟨t⟩ : String), (⟨r⟩ : String))
             | none => none)
          else none) = some (g1, g2) := h2
      by_cases hc0 : c0 = '['
      · rw [if_pos hc0] at h4
        cases hsc : tbScan [] tl with
        | none =>
            rw [hsc] at h4
            exact Option.noConfusion h4
        | some p =>
            obtain ⟨t, r⟩ := p
            rw [hsc] at h4
            have hp := Option.some.inj h4
            have hg1 : (⟨t⟩ : String) = g1 := congrArg Prod.fst hp
            have hg2 : (⟨r⟩ : String) = g2 := congrArg Prod.snd hp
            have hnn := tbScan_no_newline tl [] t r hsc
              (fun c hc => absurd hc (List.not_mem_nil c))
            constructor
            · intro c hc
              rw [← hg1] at hc
              exact hnn.1 c hc
            · intro c hc
              rw [← hg2] at hc
              exact hnn.2 c hc
      · rw [if_neg hc0] at h4
        exact Option.noConfusion h4

theorem composeTextWithType_noparse (raw ns t : String)
    (hp : typeBracketMatch raw = none) :
    composeTextWithType raw ns t =
      (if (if unwrapTypeCell (pyStrip t) ≠ "" then unwrapTypeCell (pyStrip t)
           else "") ≠ "" then
        pyStrip ("["
          ++ (if unwrapTypeCell (pyStrip t) ≠ "" then unwrapTypeCell (pyStrip t)
              else "") ++ "] "
          ++ (if pyStrip ns ≠ "" then pyStrip ns else pyStrip raw))
       else (if pyStrip ns ≠ "" then pyStrip ns else pyStrip raw)) := by
  rw [composeTextWithType_eq, hp]

theorem stripBrackets_wrap (u : String) :
    stripBrackets ("[" ++ u ++ "]") = pyStrip u := by
  have hne : ("[" ++ u ++ "]") ≠ "" := by
    intro hcontra
    have hd := congrArg String.data hcontra
    rw [bracket_data_nosp] at hd
    exact List.noConfusion hd
  have hhead : headIs ("[" ++ u ++ "]") '[' = true := by
    unfold headIs
    rw [bracket_data_nosp]
    rfl
  have hlast : lastIs ("[" ++ u ++ "]") ']' = true := by
    unfold lastIs
    rw [bracket_data_nosp,
      show ('[' :: (u.data ++ [']'])).reverse
        = ']' :: (u.data.reverse ++ ['[']) from by simp]
    rfl
  unfold stripBrackets
  rw [if_neg hne, pyStrip_bracket]
  show (if (headIs ("[" ++ u ++ "]") '[' && lastIs ("[" ++ u ++ "]") ']')
        = true
      then pyStrip (dropEnds ("[" ++ u ++ "]")) else ("[" ++ u ++ "]"))
      = pyStrip u
  rw [hhead, hlast, if_pos (by rfl : (true && true) = true)]
  have hdrop : dropEnds ("[" ++ u ++ "]") = u := by
    show (⟨((("[" ++ u ++ "]").data).drop 1).dropLast⟩ : String) = u
    rw [bracket_data_nosp]
    show (⟨(u.data ++ [']']).dropLast⟩ : String) = u
    rw [List.dropLast_concat]
  rw [hdrop]


theorem writeOutcome_oldL_p (raw : String) (p : String × String) :
    writeOutcome (.oldL raw) p =
      (if writeOld raw p.1 p.2 = "" then none
       else some (.oldL (writeOld raw p.1 p.2))) := rfl

theorem writeOutcome_oldS_p (raw : String) (p : String × String) :
    writeOutcome (.oldS raw) p = some (.oldS (writeOld raw p.1 p.2)) := rfl

theorem slotExtract_oldL (x : String) :
    slotExtract (.oldL x)
      = (if x ≠ "" then some (oldPairOf (pyStrip x)) else none) := rfl

theorem slotExtract_oldS (x : String) :
    slotExtract (.oldS x)
      = (if pyStrip x ≠ "" then some (oldPairOf (pyStrip x)) else none) := rfl

theorem slotExtract_newS (f s : String) :
    slotExtract (.newS f s)
      = (if pyStrip s ≠ "" then some (stripBrackets f, pyStrip s)
         else none) := rfl

/-- Writing an old-style slot's own extracted pair back reproduces a
non-empty text with the same extracted pair. -/
theorem writeOld_fix (raw : String) (hcanon : pyStrip raw = raw)
    (hrs : labelRoundStable (.oldL raw) = true)
    (hne : ¬((oldPairOf raw).1 = "" ∧ (oldPairOf raw).2 = "")) :
    writeOld raw (oldPairOf raw).1 (oldPairOf raw).2 ≠ ""
    ∧ oldPairOf (pyStrip (writeOld raw (oldPairOf raw).1 (oldPairOf raw).2))
        = oldPairOf raw := by
  have hrs2 : (if (oldPairOf (pyStrip raw)).1 = "" then
        (typeBracketMatch (oldPairOf (pyStrip raw)).2).isNone
      else !(hasChar (oldPairOf (pyStrip raw)).1 ']')
        && !(headIs (oldPairOf (pyStrip raw)).1 '['
              && lastIs (oldPairOf (pyStrip raw)).1 ']')) = true := hrs
  rw [hcanon] at hrs2
  cases hp : typeBracketMatch raw with
  | none =>
      have hpair : oldPairOf raw = ("", raw) := by
        unfold oldPairOf
        rw [hp]
      have hraw : raw ≠ "" := by
        intro h0
        exact hne ⟨by rw [hpair], by rw [hpair]; exact h0⟩
      have hc : writeOld raw (oldPairOf raw).1 (oldPairOf raw).2 = raw := by
        rw [hpair]
        show writeOld raw "" raw = raw
        rw [writeOld_eq, composeTextWithType_noparse raw (pyStrip raw)
          (pyStrip "") hp]
        simp only [pyStrip_empty, pyStrip_idem]
        rw [show unwrapTypeCell "" = "" from rfl,
          show (if ("" : String) ≠ "" then ("" : String) else "")
            = "" from by simp,
          if_neg (by simp), hcanon, ite_self]
      refine ⟨by rw [hc]; exact hraw, ?_⟩
      rw [hc, hcanon]
  | some pg =>
      obtain ⟨g1, g2⟩ := pg
      have hpair : oldPairOf raw = (pyStrip g1, pyStrip g2) := by
        unfold oldPairOf
        rw [hp]
      by_cases hg1 : pyStrip g1 = ""
      · have hrsp : (typeBracketMatch (oldPairOf raw).2).isNone = true := by
          rw [hpair] at hrs2 ⊢
          rw [if_pos hg1] at hrs2
          exact hrs2
        have htb2 : typeBracketMatch (pyStrip g2) = none := by
          rw [hpair] at hrsp
          exact Option.isNone_iff_eq_none.mp hrsp
        have hg2ne : pyStrip g2 ≠ "" := by
          intro h0
          exact hne ⟨by rw [hpair]; exact hg1, by rw [hpair]; exact h0⟩
        have hc : writeOld raw (oldPairOf raw).1 (oldPairOf raw).2
            = pyStrip g2 := by
          rw [hpair]
          show writeOld raw (pyStrip g1) (pyStrip g2) = pyStrip g2
          rw [hg1, writeOld_eq,
            composeTextWithType_parse raw (pyStrip (pyStrip g2))
              (pyStrip "") g1 g2 hp]
          simp only [pyStrip_empty, pyStrip_idem]
          rw [show unwrapTypeCell "" = "" from rfl,
            show (if ("" : String) ≠ "" then ("" : String) else pyStrip g1)
              = pyStrip g1 from by simp,
            hg1, if_neg (by simp), ite_self]
        refine ⟨by rw [hc]; exact hg2ne, ?_⟩
        rw [hc, pyStrip_idem]
        have hL : oldPairOf (pyStrip g2) = ("", pyStrip g2) := by
          unfold oldPairOf
          rw [htb2]
        rw [hL, hpair, hg1]
      · have hrsp : (!(hasChar (pyStrip g1) ']')
            && !(headIs (pyStrip g1) '[' && lastIs (pyStrip g1) ']'))
            = true := by
          rw [hpair] at hrs2
          rw [if_neg hg1] at hrs2
          exact hrs2
        rw [Bool.and_eq_true, Bool.not_eq_true', Bool.not_eq_true'] at hrsp
        have hnn := typeBracketMatch_no_newline raw g1 g2 hp
        have hc : writeOld raw (oldPairOf raw).1 (oldPairOf raw).2
            = pyStrip ("[" ++ pyStrip g1 ++ "] " ++ pyStrip g2) := by
          rw [hpair]
          show writeOld raw (pyStrip g1) (pyStrip g2) = _
          rw [writeOld_eq,
            composeTextWithType_parse raw (pyStrip (pyStrip g2))
              (pyStrip (pyStrip g1)) g1 g2 hp]
          simp only [pyStrip_idem]
          rw [unwrapTypeCell_of_not_wrapped hrsp.2, ite_self, if_pos hg1,
            ite_self]
        have hcne : writeOld raw (oldPairOf raw).1 (oldPairOf raw).2 ≠ "" := by
          rw [hc]
          exact pyStrip_ne_empty_of_head (bracket_data _ _) (by decide)
        refine ⟨hcne, ?_⟩
        rw [hc, pyStrip_idem, hpair]
        apply oldPairOf_compose
        · exact hg1
        · exact pyStrip_idem g1
        · intro c hcm
          exact ⟨hnn.1 c (mem_of_pyStrip hcm),
            not_mem_of_contains_false hrsp.1 c hcm⟩
        · exact pyStrip_idem g2
        · intro c hcm
          exact hnn.2 c (mem_of_pyStrip hcm)

/-- Writing a new-style slot's own pair back keeps the slot's extracted
view. -/
theorem writeNew_fix (f s : String)
    (hrs : (!(headIs (stripBrackets f) '['
        && lastIs (stripBrackets f) ']')) = true)
    (hb : pyStrip s ≠ "") :
    ∃ f2 s2, writeOutcome (.newS f s) (stripBrackets f, pyStrip s)
        = some (.newS f2 s2)
      ∧ stripBrackets f2 = stripBrackets f ∧ pyStrip s2 = pyStrip s := by
  rw [writeOutcome_newS]
  simp only [pyStrip_stripBrackets, pyStrip_idem]
  by_cases hf : stripBrackets f = ""
  · rw [hf,
      show (if ("" : String) ≠ "" then
          (if unwrapTypeCell "" ≠ "" then "[" ++ unwrapTypeCell "" ++ "]"
           else "")
        else pyStrip f) = pyStrip f from by simp,
      if_pos hb, if_neg (by simp [hb])]
    exact ⟨pyStrip f, pyStrip s, rfl, by rw [stripBrackets_pyStrip, hf],
      pyStrip_idem s⟩
  · rw [unwrapTypeCell_of_not_wrapped (by rwa [Bool.not_eq_true'] at hrs),
      show (if stripBrackets f ≠ "" then
          (if stripBrackets f ≠ ""
           then "[" ++ stripBrackets f ++ "]" else "")
        else pyStrip f) = "[" ++ stripBrackets f ++ "]" from by
          rw [if_pos hf, if_pos hf],
      if_pos hb]
    rw [if_neg]
    · refine ⟨"[" ++ stripBrackets f ++ "]", pyStrip s, rfl, ?_, pyStrip_idem s⟩
      rw [stripBrackets_wrap, pyStrip_stripBrackets]
    · rw [Bool.and_eq_true, decide_eq_true_eq, decide_eq_true_eq]
      intro hcontra
      have hd := congrArg String.data hcontra.1
      rw [bracket_data_nosp] at hd
      exact List.noConfusion hd

/-- A canonical, round-stable, non-blank slot written back with its own
extracted pair survives with the same extracted view. -/
theorem slot_fix (sv : SlotV) (hc : slotCanonical sv = true)
    (hr : labelRoundStable sv = true) (hn : slotNonblank sv = true) :
    ∃ sv', writeOutcome sv (slotPair sv) = some sv'
      ∧ slotExtract sv' = slotExtract sv := by
  cases sv with
  | oldL raw =>
      have hcanon : pyStrip raw = raw := of_decide_eq_true hc
      have hn2 : (decide (raw ≠ "")
          && !(decide ((oldPairOf (pyStrip raw)).1 = "")
            && decide ((oldPairOf (pyStrip raw)).2 = ""))) = true := hn
      rw [hcanon, Bool.and_eq_true, Bool.not_eq_true'] at hn2
      have hrawne : raw ≠ "" := of_decide_eq_true hn2.1
      have hnb : ¬((oldPairOf raw).1 = "" ∧ (oldPairOf raw).2 = "") := by
        intro hcontra
        have : (decide ((oldPairOf raw).1 = "")
            && decide ((oldPairOf raw).2 = "")) = true := by
          rw [Bool.and_eq_true]
          exact ⟨decide_eq_true hcontra.1, decide_eq_true hcontra.2⟩
        rw [this] at hn2
        exact Bool.noConfusion hn2.2
      obtain ⟨hcne, hpp⟩ := writeOld_fix raw hcanon hr hnb
      refine ⟨.oldL (writeOld raw (oldPairOf raw).1 (oldPairOf raw).2),
        ?_, ?_⟩
      · rw [show slotPair (.oldL raw) = oldPairOf raw from by
          show oldPairOf (pyStrip raw) = _
          rw [hcanon], writeOutcome_oldL_p, if_neg hcne]
      · rw [slotExtract_oldL, slotExtract_oldL, if_pos hcne,
          if_pos hrawne, hpp, hcanon]
  | oldS raw =>
      have hcanon : pyStrip raw = raw := of_decide_eq_true hc
      have hn2 : (decide (pyStrip raw ≠ "")
          && !(decide ((oldPairOf (pyStrip raw)).1 = "")
            && decide ((oldPairOf (pyStrip raw)).2 = ""))) = true := hn
      rw [hcanon, Bool.and_eq_true, Bool.not_eq_true'] at hn2
      have hrawne : raw ≠ "" := of_decide_eq_true hn2.1
      have hnb : ¬((oldPairOf raw).1 = "" ∧ (oldPairOf raw).2 = "") := by
        intro hcontra
        have : (decide ((oldPairOf raw).1 = "")
            && decide ((oldPairOf raw).2 = "")) = true := by
          rw [Bool.and_eq_true]
          exact ⟨decide_eq_true hcontra.1, decide_eq_true hcontra.2⟩
        rw [this] at hn2
        exact Bool.noConfusion hn2.2
      have hrL : labelRoundStable (.oldL raw) = true := hr
      obtain ⟨hcne, hpp⟩ := writeOld_fix raw hcanon hrL hnb
      refine ⟨.oldS (writeOld raw (oldPairOf raw).1 (oldPairOf raw).2),
        ?_, ?_⟩
      · rw [show slotPair (.oldS raw) = oldPairOf raw from by
          show oldPairOf (pyStrip raw) = _
          rw [hcanon], writeOutcome_oldS_p]
      · rw [slotExtract_oldS, slotExtract_oldS, hpp,
          if_pos (by rw [writeOld_stripped]; exact hcne),
          if_pos (by rw [hcanon]; exact hrawne), hcanon]
  | newS f s =>
      have hb : pyStrip s ≠ "" := of_decide_eq_true hn
      have hrs2 : (!(headIs (stripBrackets f) '['
          && lastIs (stripBrackets f) ']')) = true := hr
      obtain ⟨f2, s2, heq, hf2, hs2⟩ := writeNew_fix f s hrs2 hb
      refine ⟨.newS f2 s2, heq, ?_⟩
      rw [slotExtract_newS, slotExtract_newS, hs2, if_pos hb, if_pos hb,
        hf2]


theorem oldPairOf_stripped (y : String) (hy : pyStrip y = y) :
    pyStrip (oldPairOf y).1 = (oldPairOf y).1
    ∧ pyStrip (oldPairOf y).2 = (oldPairOf y).2 := by
  cases htb : typeBracketMatch y with
  | none =>
      have h : oldPairOf y = ("", y) := by
        unfold oldPairOf
        rw [htb]
      rw [h]
      exact ⟨pyStrip_empty, hy⟩
  | some pg =>
      obtain ⟨g1, g2⟩ := pg
      have h : oldPairOf y = (pyStrip g1, pyStrip g2) := by
        unfold oldPairOf
        rw [htb]
      rw [h]
      exact ⟨pyStrip_idem g1, pyStrip_idem g2⟩

theorem slotPair_stripped (sv : SlotV) :
    pyStrip (slotPair sv).1 = (slotPair sv).1
    ∧ pyStrip (slotPair sv).2 = (slotPair sv).2 := by
  cases sv with
  | oldL raw => exact oldPairOf_stripped (pyStrip raw) (pyStrip_idem raw)
  | oldS raw => exact oldPairOf_stripped (pyStrip raw) (pyStrip_idem raw)
  | newS f s => exact ⟨pyStrip_stripBrackets f, pyStrip_idem s⟩

theorem slotPair_not_blank (sv : SlotV) (hn : slotNonblank sv = true) :
    (decide (pyStrip (slotPair sv).1 = "")
      && decide (pyStrip (slotPair sv).2 = "")) = false := by
  obtain ⟨h1, h2⟩ := slotPair_stripped sv
  rw [h1, h2]
  cases sv with
  | oldL raw =>
      have hn2 : (decide (raw ≠ "")
          && !(decide ((slotPair (SlotV.oldL raw)).1 = "")
            && decide ((slotPair (SlotV.oldL raw)).2 = ""))) = true := hn
      rw [Bool.and_eq_true, Bool.not_eq_true'] at hn2
      exact hn2.2
  | oldS raw =>
      have hn2 : (decide (pyStrip raw ≠ "")
          && !(decide ((slotPair (SlotV.oldS raw)).1 = "")
            && decide ((slotPair (SlotV.oldS raw)).2 = ""))) = true := hn
      rw [Bool.and_eq_true, Bool.not_eq_true'] at hn2
      exact hn2.2
  | newS f s =>
      have hb : pyStrip s ≠ "" := of_decide_eq_true hn
      show (decide (stripBrackets f = "") && decide (pyStrip s = "")) = false
      rw [decide_eq_false hb, Bool.and_false]

theorem rowAct_cons_succ (p : String × String) (seq : List (String × String))
    (i : Nat) : rowAct (p :: seq) (i + 1) = rowAct seq i := rfl

theorem rowAct_cons_zero_some (p : String × String)
    (seq : List (String × String))
    (hc : (decide (pyStrip p.1 = "") && decide (pyStrip p.2 = "")) = false) :
    rowAct (p :: seq) 0 = some p := by
  show (if pyStrip p.1 = "" && pyStrip p.2 = "" then none else some (p.1, p.2))
    = some p
  rw [hc]
  rfl

theorem expectedSlots_congr (act act2 : Nat → Option (String × String)) :
    ∀ (l : List SlotV) (off off2 : Nat),
    (∀ i, act (off + i) = act2 (off2 + i)) →
    expectedSlots act off l = expectedSlots act2 off2 l
  | [], _, _, _ => rfl
  | sv :: tl, off, off2, h => by
      have h0 : act off = act2 off2 := by
        have := h 0
        simpa using this
      have htl : expectedSlots act (off + 1) tl
          = expectedSlots act2 (off2 + 1) tl :=
        expectedSlots_congr act act2 tl (off + 1) (off2 + 1) (fun i => by
          rw [show off + 1 + i = off + (1 + i) from by omega,
            show off2 + 1 + i = off2 + (1 + i) from by omega]
          exact h (1 + i))
      rw [expectedSlots_cons, expectedSlots_cons,
        show slotOutcome act off sv = slotOutcome act2 off2 sv from by
          unfold slotOutcome
          rw [h0], htl]

/-- Writing back a list of canonical, round-stable, non-blank slots with
their own extracted pairs preserves the slot count and the extracted view. -/
theorem roundtrip_slots : ∀ (slots : List SlotV),
    (∀ sv ∈ slots, slotCanonical sv = true ∧ labelRoundStable sv = true
      ∧ slotNonblank sv = true) →
    (expectedSlots (rowAct (slots.map slotPair)) 0 slots).length = slots.length
    ∧ (expectedSlots (rowAct (slots.map slotPair)) 0 slots).filterMap
        slotExtract = slots.filterMap slotExtract
  | [], _ => ⟨rfl, rfl⟩
  | sv :: tl, hall => by
      have hsv := hall sv (List.mem_cons_self sv tl)
      have hih := roundtrip_slots tl
        (fun x hx => hall x (List.mem_cons_of_mem sv hx))
      have hmap : (sv :: tl).map slotPair = slotPair sv :: tl.map slotPair :=
        rfl
      have h0 : rowAct ((sv :: tl).map slotPair) 0 = some (slotPair sv) := by
        rw [hmap]
        exact rowAct_cons_zero_some _ _ (slotPair_not_blank sv hsv.2.2)
      obtain ⟨sv2, hw, hext⟩ := slot_fix sv hsv.1 hsv.2.1 hsv.2.2
      have hshift : expectedSlots (rowAct ((sv :: tl).map slotPair)) 1 tl
          = expectedSlots (rowAct (tl.map slotPair)) 0 tl := by
        apply expectedSlots_congr
        intro i
        rw [hmap, show 1 + i = i + 1 from by omega,
          show 0 + i = i from by omega]
        exact rowAct_cons_succ _ _ _
      rw [expectedSlots_cons, slotOutcome_some h0 sv, hw, hshift]
      constructor
      · show (sv2 :: expectedSlots (rowAct (tl.map slotPair)) 0 tl).length
          = (sv :: tl).length
        rw [List.length_cons, List.length_cons, hih.1]
      · show (sv2 :: expectedSlots (rowAct (tl.map slotPair)) 0 tl).filterMap
            slotExtract = (sv :: tl).filterMap slotExtract
        rw [List.filterMap_cons, List.filterMap_cons, hext, hih.2]


theorem extractEx_obj (kvs : List (String × JVal)) :
    extractEx (some (.jobj kvs)) =
      (if isNewStyle kvs then
        (sortLabelKeys (kvs.map (·.1))).filterMap fun label =>
          match getd kvs label (.jobj []) with
          | .jobj inner => newPairOf inner
          | _ => none
       else kvs.flatMap fun p => oldPairsOfVal p.2) := rfl

theorem extractEx_arr (items : List JVal) :
    extractEx (some (.jarr items)) =
      items.flatMap fun item =>
        match item with
        | JVal.jobj ikvs => ikvs.flatMap fun p => oldPairsOfVal p.2
        | _ => [] := rfl

theorem filterMap_flatMap_exch {α β γ : Type} (f : α → List β)
    (g : β → Option γ) :
    ∀ l : List α, (l.flatMap f).filterMap g = l.flatMap fun a =>
      (f a).filterMap g
  | [] => rfl
  | a :: tl => by
      rw [List.flatMap_cons, List.filterMap_append, List.flatMap_cons,
        filterMap_flatMap_exch f g tl]

theorem flatMap_congr_mem {α β : Type} (f g : α → List β) :
    ∀ l : List α, (∀ a ∈ l, f a = g a) → l.flatMap f = l.flatMap g
  | [], _ => rfl
  | a :: tl, h => by
      rw [List.flatMap_cons, List.flatMap_cons,
        h a (List.mem_cons_self a tl),
        flatMap_congr_mem f g tl
          (fun x hx => h x (List.mem_cons_of_mem a hx))]

theorem pyTruthy_jstr (s : String) : pyTruthy (.jstr s) = decide (s ≠ "") := rfl

theorem pyStr_jstr (s : String) : pyStr (.jstr s) = s := rfl

theorem oldVal_slot_extract_jstr (y : String) :
    slotExtract (.oldL (pyStrOrEmpty (.jstr y)))
      = (if pyTruthy (.jstr y)
         then some (oldPairOf (pyStrip (pyStr (.jstr y)))) else none) := by
  show (if y ≠ "" then some (oldPairOf (pyStrip y)) else none)
    = (if decide (y ≠ "") = true
       then some (oldPairOf (pyStrip y)) else none)
  by_cases hy : y = ""
  · rw [if_neg (fun hcon => hcon hy), if_neg (by simp [hy])]
  · rw [if_pos hy, if_pos (decide_eq_true hy)]

/-- Per-value agreement of the forward extractor's pair list with the slot
snapshot view, on the documented old-style shapes. -/
theorem oldVal_extract (v : JVal) (hv : wfOldVal v = true) :
    (slotsOfVal v).filterMap slotExtract = oldPairsOfVal v := by
  cases v with
  | jnull => exact Bool.noConfusion hv
  | jbool b => exact Bool.noConfusion hv
  | jnum l => exact Bool.noConfusion hv
  | jobj l => exact Bool.noConfusion hv
  | jstr y =>
      show List.filterMap slotExtract [.oldL (pyStrOrEmpty (.jstr y))]
        = (if pyTruthy (.jstr y)
           then [oldPairOf (pyStrip (pyStr (.jstr y)))] else [])
      rw [List.filterMap_cons, oldVal_slot_extract_jstr, pyTruthy_jstr,
        pyStr_jstr]
      by_cases hy : y = ""
      · have hL : (if decide (y ≠ "") = true
            then some (oldPairOf (pyStrip y)) else none) = none :=
          if_neg (by simp [hy])
        have hR : (if decide (y ≠ "") = true
            then [oldPairOf (pyStrip y)] else ([] : List (String × String)))
            = [] := if_neg (by simp [hy])
        rw [hL, hR]
        rfl
      · have hL : (if decide (y ≠ "") = true
            then some (oldPairOf (pyStrip y)) else none)
            = some (oldPairOf (pyStrip y)) := if_pos (decide_eq_true hy)
        have hR : (if decide (y ≠ "") = true
            then [oldPairOf (pyStrip y)] else ([] : List (String × String)))
            = [oldPairOf (pyStrip y)] := if_pos (decide_eq_true hy)
        rw [hL, hR]
        rfl
  | jarr xs =>
      have hall : ∀ x ∈ xs,
          (match x with | JVal.jstr _ => true | _ => false) = true :=
        fun x hx => List.all_eq_true.mp hv x hx
      show (xs.map fun s => SlotV.oldL (pyStrOrEmpty s)).filterMap slotExtract
        = xs.filterMap fun s =>
            if pyTruthy s then some (oldPairOf (pyStrip (pyStr s))) else none
      rw [List.filterMap_map]
      apply List.filterMap_congr
      intro x hx
      have hb := hall x hx
      cases x with
      | jstr y => exact oldVal_slot_extract_jstr y
      | jnull => exact Bool.noConfusion hb
      | jbool b => exact Bool.noConfusion hb
      | jnum l => exact Bool.noConfusion hb
      | jarr l => exact Bool.noConfusion hb
      | jobj l => exact Bool.noConfusion hb

theorem pyOrBlank_agree (inner : List (String × JVal)) (k : String)
    (h : (match getd inner k .jnull with
      | JVal.jnull => true | JVal.jstr _ => true | _ => false) = true) :
    pyOrBlank (getd inner k (.jstr "")) = pyStrOrEmpty (getd inner k .jnull) := by
  cases hf : inner.find? (fun p => p.1 = k) with
  | none =>
      have h1 : getd inner k (.jstr "") = .jstr "" := by
        unfold getd
        rw [hf]
      have h2 : getd inner k .jnull = .jnull := by
        unfold getd
        rw [hf]
      rw [h1, h2]
      rfl
  | some p =>
      have h1 : getd inner k (.jstr "") = p.2 := by
        unfold getd
        rw [hf]
      have h2 : getd inner k .jnull = p.2 := by
        unfold getd
        rw [hf]
      rw [h2] at h
      rw [h1, h2]
      cases hp : p.2 with
      | jnull => rfl
      | jstr x =>
          show (if pyTruthy (.jstr x) then pyStr (.jstr x) else "") = x
          by_cases hx : x = ""
          · rw [pyTruthy_jstr, pyStr_jstr, if_neg (by simp [hx]), hx]
          · rw [pyTruthy_jstr, pyStr_jstr, if_pos (decide_eq_true hx)]
      | jbool b =>
          rw [hp] at h
          exact Bool.noConfusion h
      | jnum l =>
          rw [hp] at h
          exact Bool.noConfusion h
      | jarr l =>
          rw [hp] at h
          exact Bool.noConfusion h
      | jobj l =>
          rw [hp] at h
          exact Bool.noConfusion h

/-- A well-formed new-style record's extracted pair equals its slot
snapshot's extracted view. -/
theorem newPairOf_extract (inner : List (String × JVal))
    (hw : wfNewInner inner = true) :
    newPairOf inner
      = slotExtract (.newS (pyStrOrEmpty (getd inner "feature" .jnull))
          (pyStrOrEmpty (getd inner "sent" .jnull))) := by
  have hw2 : ((match getd inner "feature" .jnull with
      | JVal.jnull => true | JVal.jstr _ => true | _ => false)
    && (match getd inner "sent" .jnull with
      | JVal.jnull => true | JVal.jstr _ => true | _ => false)) = true := hw
  rw [Bool.and_eq_true] at hw2
  have hf := pyOrBlank_agree inner "feature" hw2.1
  have hs := pyOrBlank_agree inner "sent" hw2.2
  show (if pyStrip (pyOrBlank (getd inner "sent" (.jstr ""))) ≠ "" then
      some (stripBrackets (pyOrBlank (getd inner "feature" (.jstr ""))),
        pyStrip (pyOrBlank (getd inner "sent" (.jstr "")))) else none)
    = (if pyStrip (pyStrOrEmpty (getd inner "sent" .jnull)) ≠ "" then
      some (stripBrackets (pyStrOrEmpty (getd inner "feature" .jnull)),
        pyStrip (pyStrOrEmpty (getd inner "sent" .jnull))) else none)
  rw [hf, hs]

theorem wf_getd_inner (kvs : List (String × JVal)) (label : String)
    (inner : List (String × JVal))
    (hall : (kvs.all fun p =>
      match p.2 with | JVal.jobj i => wfNewInner i | _ => false) = true)
    (hg : getd kvs label (.jobj []) = .jobj inner) :
    wfNewInner inner = true := by
  cases hf : kvs.find? (fun p => p.1 = label) with
  | none =>
      have h1 : getd kvs label (.jobj []) = .jobj [] := by
        unfold getd
        rw [hf]
      rw [h1] at hg
      injection hg with hg2
      rw [← hg2]
      rfl
  | some p =>
      have h1 : getd kvs label (.jobj []) = p.2 := by
        unfold getd
        rw [hf]
      rw [h1] at hg
      have hm := List.mem_of_find?_eq_some hf
      have hp := List.all_eq_true.mp hall p hm
      rw [hg] at hp
      exact hp

/-- On well-formed slot containers the forward extraction is exactly the
extracted view of the slot enumeration. -/
theorem extractEx_eq (exp : Option JVal) (hw : wfExp exp = true) :
    extractEx exp = (slotsEx exp).filterMap slotExtract := by
  cases exp with
  | none => rfl
  | some e =>
      cases e with
      | jnull => rfl
      | jbool b => rfl
      | jnum l => rfl
      | jstr s =>
          show (if pyStrip s ≠ "" then [oldPairOf (pyStrip s)] else [])
            = List.filterMap slotExtract [.oldS s]
          rw [List.filterMap_cons, slotExtract_oldS]
          by_cases hs : pyStrip s = ""
          · have hL : (if pyStrip s ≠ "" then [oldPairOf (pyStrip s)]
                else ([] : List (String × String))) = [] :=
              if_neg (fun hcon => hcon hs)
            have hR : (if pyStrip s ≠ ""
                then some (oldPairOf (pyStrip s)) else none) = none :=
              if_neg (fun hcon => hcon hs)
            rw [hL, hR]
            rfl
          · have hL : (if pyStrip s ≠ "" then [oldPairOf (pyStrip s)]
                else ([] : List (String × String)))
                = [oldPairOf (pyStrip s)] := if_pos hs
            have hR : (if pyStrip s ≠ ""
                then some (oldPairOf (pyStrip s)) else none)
                = some (oldPairOf (pyStrip s)) := if_pos hs
            rw [hL, hR]
            rfl
      | jobj kvs =>
          rw [wfExp_obj] at hw
          by_cases hns : isNewStyle kvs = true
          · rw [if_pos hns] at hw
            rw [Bool.and_eq_true] at hw
            rw [extractEx_obj, slotsEx_obj, if_pos hns, if_pos hns,
              List.filterMap_filterMap]
            apply List.filterMap_congr
            intro label hlab
            cases hg : getd kvs label (.jobj []) with
            | jobj inner =>
                show newPairOf inner
                  = slotExtract (.newS
                      (pyStrOrEmpty (getd inner "feature" .jnull))
                      (pyStrOrEmpty (getd inner "sent" .jnull)))
                exact newPairOf_extract inner
                  (wf_getd_inner kvs label inner hw.2 hg)
            | jnull => rfl
            | jstr x => rfl
            | jbool b => rfl
            | jnum l => rfl
            | jarr l => rfl
          · rw [if_neg hns] at hw
            rw [extractEx_obj, slotsEx_obj, if_neg hns, if_neg hns,
              filterMap_flatMap_exch]
            apply flatMap_congr_mem
            intro p hp
            exact (oldVal_extract p.2 (List.all_eq_true.mp hw p hp)).symm
      | jarr items =>
          rw [wfExp_arr] at hw
          rw [extractEx_arr, slotsEx_arr, filterMap_flatMap_exch]
          apply flatMap_congr_mem
          intro item hitem
          have hit := List.all_eq_true.mp hw item hitem
          cases item with
          | jobj ikvs =>
              have hit2 : ikvs.all (fun p => wfOldVal p.2) = true := hit
              show ikvs.flatMap (fun p => oldPairsOfVal p.2)
                = (ikvs.flatMap fun p => slotsOfVal p.2).filterMap slotExtract
              rw [filterMap_flatMap_exch]
              apply flatMap_congr_mem
              intro p hp
              exact (oldVal_extract p.2 (List.all_eq_true.mp hit2 p hp)).symm
          | jnull => rfl
          | jstr x => rfl
          | jbool b => rfl
          | jnum l => rfl
          | jarr l => rfl

/-- Document-level form of `extractEx_eq`. -/
theorem extractSentences_eq (doc : PhotoDoc) (hw : wfDoc doc = true) :
    extractSentences doc = (photoSlots doc).filterMap slotExtract := by
  have hw2 : doc.ex.all (fun e => wfExp e.exp) = true := hw
  show doc.ex.flatMap (fun e => extractEx e.exp)
    = (doc.ex.flatMap fun e => slotsEx e.exp).filterMap slotExtract
  rw [filterMap_flatMap_exch]
  apply flatMap_congr_mem
  intro e he
  exact extractEx_eq e.exp (List.all_eq_true.mp hw2 e he)


theorem ffillO_map_some {α β : Type} (f : β → α) :
    ∀ (l : List β) (last : Option α),
    ffillO (l.map fun b => some (f b)) last = l.map fun b => some (f b)
  | [], _ => rfl
  | b :: tl, last => by
      rw [List.map_cons]
      show some (f b) :: ffillO (tl.map fun b => some (f b)) (some (f b))
        = some (f b) :: tl.map fun b => some (f b)
      rw [ffillO_map_some f tl (some (f b))]

theorem filterMap_eq_map_of {α β : Type} (f : α → Option β) (g : α → β) :
    ∀ l : List α, (∀ a ∈ l, f a = some (g a)) → l.filterMap f = l.map g
  | [], _ => rfl
  | a :: tl, h => by
      rw [List.filterMap_cons, h a (List.mem_cons_self a tl), List.map_cons,
        filterMap_eq_map_of f g tl
          (fun x hx => h x (List.mem_cons_of_mem a hx))]

theorem collectPairsById_eq (df : PhotoDf) (sb : Bool) (key : String) :
    collectPairsById df sb key =
      (((((ffillO (df.rows.map (·.id)) none).map astypeStr).zip
          (if df.hasTyp then
            (ffillO (df.rows.map (·.typ)) none).map (·.getD "")
           else df.rows.map fun _ => "")).zip
        (df.rows.map fun r => r.sent.getD "")).filterMap fun p =>
        if sb && pyStrip p.2 = "" then none
        else if pyStrip p.1.1 = key then some (pyStrip p.1.2, pyStrip p.2)
        else none) := rfl

theorem rowsToDf_rows (rows : List PhotoRow) : (rowsToDf rows).rows = rows :=
  rfl

theorem rowsToDf_hasTyp (rows : List PhotoRow) :
    (rowsToDf rows).hasTyp = true := rfl

/-- The collector applied to the export of a constant-id row block with all
cells present recovers the stripped pair list. -/
theorem collectPairs_of_const_rows (pairs : List (String × String))
    (idv wk mc md mm : String) (hpv : pyStrip idv = idv) :
    collectPairsById (rowsToDf (pairs.map fun pr =>
      ({ id := some idv, workerIdCnst := some wk,
         mediumCategory := some mc, typ := some pr.1, sent := some pr.2,
         metadata := some md, memo := some mm } : PhotoRow))) false idv
      = pairs.map fun pr => (pyStrip pr.1, pyStrip pr.2) := by
  rw [collectPairsById_eq, rowsToDf_rows, rowsToDf_hasTyp,
    if_pos (rfl : (true : Bool) = true)]
  rw [show ((pairs.map fun pr =>
      ({ id := some idv, workerIdCnst := some wk,
         mediumCategory := some mc, typ := some pr.1, sent := some pr.2,
         metadata := some md, memo := some mm } : PhotoRow)).map (·.id))
      = pairs.map fun _ => some idv from by rw [List.map_map]; rfl]
  rw [show ((pairs.map fun pr =>
      ({ id := some idv, workerIdCnst := some wk,
         mediumCategory := some mc, typ := some pr.1, sent := some pr.2,
         metadata := some md, memo := some mm } : PhotoRow)).map (·.typ))
      = pairs.map fun pr => some pr.1 from by rw [List.map_map]; rfl]
  rw [show ((pairs.map fun pr =>
      ({ id := some idv, workerIdCnst := some wk,
         mediumCategory := some mc, typ := some pr.1, sent := some pr.2,
         metadata := some md, memo := some mm } : PhotoRow)).map fun r => r.sent.getD "")
      = pairs.map fun pr => pr.2 from by rw [List.map_map]; rfl]
  rw [show ffillO (pairs.map fun _ => some idv) none
      = pairs.map fun _ => some idv from
    ffillO_map_some (fun _ => idv) pairs none]
  rw [show ffillO (pairs.map fun pr => some pr.1) none
      = pairs.map fun pr => some pr.1 from
    ffillO_map_some (fun pr => pr.1) pairs none]
  rw [show ((pairs.map fun _ => some idv).map astypeStr)
      = pairs.map fun _ => idv from by rw [List.map_map]; rfl]
  rw [show ((pairs.map fun pr => some pr.1).map (·.getD ""))
      = pairs.map fun pr => pr.1 from by rw [List.map_map]; rfl]
  rw [show ((pairs.map fun _ => idv).zip (pairs.map fun pr => pr.1))
      = pairs.map fun pr => (idv, pr.1) from List.zip_map' _ _ _]
  rw [show ((pairs.map fun pr => ((idv : String), pr.1)).zip
        (pairs.map fun pr => pr.2))
      = pairs.map fun pr => ((idv, pr.1), pr.2) from List.zip_map' _ _ _]
  rw [List.filterMap_map]
  apply filterMap_eq_map_of
  intro pr hpr
  show (if pyStrip idv = idv then some (pyStrip pr.1, pyStrip pr.2) else none)
    = some (pyStrip pr.1, pyStrip pr.2)
  exact if_pos hpv

/-- Exporting a document and collecting the rows back under its own id
recovers the extracted pair list exactly (for a stripped id and stripped,
non-empty extraction). -/
theorem collect_roundtrip (doc : PhotoDoc)
    (hid : pyStrip doc.id = doc.id)
    (hne : (extractSentences doc).isEmpty = false)
    (hstr : ∀ pr ∈ extractSentences doc,
      pyStrip pr.1 = pr.1 ∧ pyStrip pr.2 = pr.2) :
    collectPairsById (rowsToDf (toRows ⟨[doc]⟩)) false doc.id
      = extractSentences doc := by
  have h1 : toRows ⟨[doc]⟩ = (extractSentences doc).map fun pr =>
      ({ id := some doc.id, workerIdCnst := some doc.workerIdCnst,
         mediumCategory := some (pyOrBlank (getd
           (match doc.metadata with
            | .jobj kvs => if kvs.isEmpty then [] else kvs
            | _ => []) "Medium_category" (.jstr ""))),
         typ := some pr.1, sent := some pr.2,
         metadata := some ((formatMetadataAndUrl
           (match doc.metadata with
            | .jobj kvs => if kvs.isEmpty then [] else kvs
            | _ => [])).1),
         memo := some (extractMdfcnMemo doc.mdfcnInfos) } : PhotoRow) := by
    show ((if (extractSentences doc).isEmpty then [("", "")]
        else extractSentences doc).map fun pr =>
      ({ id := some doc.id, workerIdCnst := some doc.workerIdCnst,
         mediumCategory := some (pyOrBlank (getd
           (match doc.metadata with
            | .jobj kvs => if kvs.isEmpty then [] else kvs
            | _ => []) "Medium_category" (.jstr ""))),
         typ := some pr.1, sent := some pr.2,
         metadata := some ((formatMetadataAndUrl
           (match doc.metadata with
            | .jobj kvs => if kvs.isEmpty then [] else kvs
            | _ => [])).1),
         memo := some (extractMdfcnMemo doc.mdfcnInfos) } : PhotoRow)) ++ [] = _
    rw [hne, List.append_nil]
    rfl
  rw [h1, collectPairs_of_const_rows (extractSentences doc) doc.id _ _ _ _ hid]
  have h2 : (extractSentences doc).map (fun pr =>
        (pyStrip pr.1, pyStrip pr.2))
      = (extractSentences doc).map id :=
    List.map_congr_left (fun pr hpr => by
      rw [(hstr pr hpr).1, (hstr pr hpr).2]
      rfl)
  rw [h2, List.map_id]


/-- The metadata pass never touches a document's id or slot containers. -/
theorem applyMetaDoc_parts (df : PhotoDf) (sb : Bool) (doc : PhotoDoc) :
    (applyMetaDoc df sb doc).ex = doc.ex
    ∧ (applyMetaDoc df sb doc).id = doc.id := by
  have key : ∀ (m : JVal) (c : Bool),
      ((if c = true then { doc with metadata := m } else doc) : PhotoDoc).ex
          = doc.ex
      ∧ ((if c = true then { doc with metadata := m } else doc) : PhotoDoc).id
          = doc.id := by
    intro m c
    cases c
    · exact ⟨rfl, rfl⟩
    · exact ⟨rfl, rfl⟩
  exact key _ _

theorem photoSlots_congr_ex (d1 d2 : PhotoDoc) (h : d1.ex = d2.ex) :
    photoSlots d1 = photoSlots d2 := by
  unfold photoSlots
  rw [h]

theorem wfDoc_congr_ex (d1 d2 : PhotoDoc) (h : d1.ex = d2.ex) :
    wfDoc d1 = wfDoc d2 := by
  unfold wfDoc
  rw [h]

theorem slotExtract_eq_of_nonblank (sv : SlotV) (hn : slotNonblank sv = true) :
    slotExtract sv = some (slotPair sv) := by
  cases sv with
  | oldL raw =>
      have hn2 : (decide (raw ≠ "")
          && !(decide ((slotPair (SlotV.oldL raw)).1 = "")
            && decide ((slotPair (SlotV.oldL raw)).2 = ""))) = true := hn
      rw [Bool.and_eq_true] at hn2
      have hne : raw ≠ "" := of_decide_eq_true hn2.1
      rw [slotExtract_oldL, if_pos hne]
      rfl
  | oldS raw =>
      have hn2 : (decide (pyStrip raw ≠ "")
          && !(decide ((slotPair (SlotV.oldS raw)).1 = "")
            && decide ((slotPair (SlotV.oldS raw)).2 = ""))) = true := hn
      rw [Bool.and_eq_true] at hn2
      have hne : pyStrip raw ≠ "" := of_decide_eq_true hn2.1
      rw [slotExtract_oldS, if_pos hne]
      rfl
  | newS f s =>
      have hb : pyStrip s ≠ "" := of_decide_eq_true hn
      rw [slotExtract_newS, if_pos hb]
      rfl

/-- C1.  Round-trip stability holds up to the extracted view, and with side
conditions the claim does not state: for a well-formed document with a
stripped id whose slots are all non-blank, canonical and round-stable,
exporting to rows and reconciling those same rows back preserves the slot
count and reproduces the extracted `(label, text)` pair list exactly.  The
raw stored text is not in general byte-identical (the composer re-wraps
labels), and without round-stability even the extracted labels change; see
the counterexample. -/
theorem C1_roundtrip (doc : PhotoDoc) (hwf : wfDoc doc = true)
    (hid : pyStrip doc.id = doc.id)
    (hslots : (photoSlots doc).isEmpty = false)
    (hall : ∀ sv ∈ photoSlots doc, slotCanonical sv = true
      ∧ labelRoundStable sv = true ∧ slotNonblank sv = true) :
    (applyPhotoJson ⟨[doc]⟩ (rowsToDf (toRows ⟨[doc]⟩)) false).document.map
        extractSentences = [extractSentences doc]
    ∧ (applyPhotoJson ⟨[doc]⟩ (rowsToDf (toRows ⟨[doc]⟩)) false).document.map
        (fun d => (photoSlots d).length) = [(photoSlots doc).length] := by
  have hmap : extractSentences doc = (photoSlots doc).map slotPair := by
    rw [extractSentences_eq doc hwf]
    exact filterMap_eq_map_of slotExtract slotPair (photoSlots doc)
      (fun sv hsv => slotExtract_eq_of_nonblank sv (hall sv hsv).2.2)
  have hne : (extractSentences doc).isEmpty = false := by
    rw [hmap]
    cases hps : photoSlots doc with
    | nil =>
        rw [hps] at hslots
        exact Bool.noConfusion hslots
    | cons a tl => rfl
  have hstr : ∀ pr ∈ extractSentences doc,
      pyStrip pr.1 = pr.1 ∧ pyStrip pr.2 = pr.2 := by
    rw [hmap]
    intro pr hpr
    obtain ⟨sv, hsv, hpe⟩ := List.mem_map.mp hpr
    rw [← hpe]
    exact slotPair_stripped sv
  have hcol : collectPairsById (rowsToDf (toRows ⟨[doc]⟩)) false doc.id
      = (photoSlots doc).map slotPair := by
    rw [collect_roundtrip doc hid hne hstr, hmap]
  have hparts := applyMetaDoc_parts (rowsToDf (toRows ⟨[doc]⟩)) false doc
  have hps2 : photoSlots
      (applyMetaDoc (rowsToDf (toRows ⟨[doc]⟩)) false doc) = photoSlots doc :=
    photoSlots_congr_ex _ _ hparts.1
  have hwf2 : wfDoc (applyMetaDoc (rowsToDf (toRows ⟨[doc]⟩)) false doc)
      = true := by
    rw [wfDoc_congr_ex _ _ hparts.1]
    exact hwf
  obtain ⟨hslots2, hwf3⟩ := applySlots_char (rowsToDf (toRows ⟨[doc]⟩)) false
    (applyMetaDoc (rowsToDf (toRows ⟨[doc]⟩)) false doc) hwf2
    (Or.inl (by rw [hps2]; exact hslots))
  rw [hparts.2, hcol, hps2] at hslots2
  have hrt := roundtrip_slots (photoSlots doc) hall
  have hdoclist : (applyPhotoJson ⟨[doc]⟩
        (rowsToDf (toRows ⟨[doc]⟩)) false).document
      = [applySlotsDoc (rowsToDf (toRows ⟨[doc]⟩)) false
          (applyMetaDoc (rowsToDf (toRows ⟨[doc]⟩)) false doc)] := rfl
  constructor
  · rw [hdoclist, List.map_cons, List.map_nil]
    have hfin : extractSentences (applySlotsDoc (rowsToDf (toRows ⟨[doc]⟩))
          false (applyMetaDoc (rowsToDf (toRows ⟨[doc]⟩)) false doc))
        = extractSentences doc := by
      rw [extractSentences_eq _ hwf3, hslots2, hrt.2,
        ← extractSentences_eq doc hwf]
    rw [hfin]
  · rw [hdoclist, List.map_cons, List.map_nil]
    have hlen : (photoSlots (applySlotsDoc (rowsToDf (toRows ⟨[doc]⟩))
          false (applyMetaDoc (rowsToDf (toRows ⟨[doc]⟩)) false doc))).length
        = (photoSlots doc).length := by
      rw [hslots2]
      exact hrt.1
    rw [hlen]

set_option maxRecDepth 10000 in
theorem C1_roundtrip_witness :
    (applyPhotoJson ⟨[fixC1RDoc]⟩
        (rowsToDf (toRows ⟨[fixC1RDoc]⟩)) false).document.map
      extractSentences = [extractSentences fixC1RDoc]
    ∧ (applyPhotoJson ⟨[fixC1RDoc]⟩
        (rowsToDf (toRows ⟨[fixC1RDoc]⟩)) false).document.map
      (fun d => (photoSlots d).length) = [(photoSlots fixC1RDoc).length] :=
  C1_roundtrip fixC1RDoc (by decide) (by decide) (by decide) (by decide)

set_option maxRecDepth 10000 in
/-- The byte-identity half of the round-trip claim fails: the document
`fixC1Doc` stores the feature `[[X]]`, exports the label `[X]` with non-empty
text `hello`, and reconciling that same row back re-wraps the stripped label,
so the next extraction reads `X` — the label is not byte-identical after one
no-edit cycle. -/
theorem C1_counterexample :
    extractSentences fixC1Doc = [("[X]", "hello")]
    ∧ (applyPhotoJson fixC1Data (rowsToDf (toRows fixC1Data))
        false).document.map extractSentences = [[("X", "hello")]] :=
  ⟨by decide, by decide⟩

end Dataly
